import Mathlib

/-!
# Userspace RCU (`urcu.c`, `urcu.h`): a shallow embedding

The program state is made explicit: the global grace-period word `gp`, the memory
holding `reader_list` objects (registry sentinel, heap nodes, the two list heads on
the stack of `synchronize_rcu`), the per-thread `rcu_reader` records, the writers'
wait queue, and the two mutexes.  Pointers are natural numbers, `0` is `NULL`.
`unsigned long` is 64 bits wide and wraps modulo `2 ^ 64`.

Every operation is modelled as one sequential run of its C body on that state.
Loops that the C code may run for ever take a `fuel` argument and give `none`
when it is used up; a `pthread_mutex_lock` on a mutex that is held gives `none`
as well (nobody else runs to release it).  Memory barriers have no effect in a
sequentially consistent model and are left out.
-/

namespace Urcu

/-! ## Constants of `urcu.h` -/

/-- Spin budget of a follower (`RCU_WAIT_ATTEMPTS`). -/
def RCU_WAIT_ATTEMPTS : Nat := 1000

/-- Spin budget of the scanner (`RCU_QS_ACTIVE_ATTEMPTS`). -/
def RCU_QS_ACTIVE_ATTEMPTS : Nat := 100

/-- Phase bit: `1UL << (sizeof(unsigned long) << 2)` with `sizeof(unsigned long) = 8`. -/
def RCU_GP_CTR_PHASE : Nat := 1 <<< (8 <<< 2)

/-- Nest mask: `RCU_GP_CTR_PHASE - 1`. -/
def RCU_GP_CTR_NEST_MASK : Nat := RCU_GP_CTR_PHASE - 1

/-- Wait state `RCU_WAIT_WAITING = 0`. -/
def RCU_WAIT_WAITING : Nat := 0

/-- Wait state bit `RCU_WAIT_WAKEUP = 1 << 0`. -/
def RCU_WAIT_WAKEUP : Nat := 1 <<< 0

/-- Wait state bit `RCU_WAIT_RUNNING = 1 << 1`. -/
def RCU_WAIT_RUNNING : Nat := 1 <<< 1

/-- Wait state bit `RCU_WAIT_TEARDOWN = 1 << 2`. -/
def RCU_WAIT_TEARDOWN : Nat := 1 <<< 2

/-- Number of values of an `unsigned long`. -/
def ULONG_SIZE : Nat := 2 ^ 64

/-- Number of values of an `unsigned int` / `int32_t`. -/
def UINT_SIZE : Nat := 2 ^ 32

/-- Result of `enum rcu_reader_state`. -/
inductive rcu_reader_state
  | RCU_READER_ACTIVE_CURRENT
  | RCU_READER_ACTIVE_OLD
  | RCU_READER_INACTIVE
  deriving DecidableEq, Repr

/-! ## Data model -/

/-- The C struct `wait_node`: link and state word. -/
structure wait_node where
  next : Nat
  state : Nat
  deriving DecidableEq, Repr

/-- The C struct `rcu_gp`: grace-period counter and futex word (`int32_t`). -/
structure rcu_gp where
  ctr : Nat
  futex : Int
  deriving DecidableEq, Repr

/-- The C struct `rcu_reader`; `list` points to the thread's registry node. -/
structure rcu_reader where
  ctr : Nat
  need_mb : Nat
  tid : Nat
  registered : Nat
  list : Nat
  deriving DecidableEq, Repr

/-- The C struct `reader_list`: a node of a circular doubly-linked list. -/
structure reader_list where
  next : Nat
  prev : Nat
  node : Nat
  deriving DecidableEq, Repr

/-- What a `futex(FUTEX_WAIT)` call can come back with: `0` after a wake-up,
`-1` with `errno = EWOULDBLOCK`, or `-1` with another `errno`. -/
inductive futex_outcome
  | woken
  | ewouldblock
  | other_errno
  deriving DecidableEq, Repr

/-- Observable events: system calls that wake a sleeper and mutex operations. -/
inductive Event
  | futex_wake_gp
  | futex_wake_node (node : Nat)
  | gp_lock
  | gp_unlock
  | registry_lock
  | registry_unlock
  deriving DecidableEq, Repr

/-- Memory holding `reader_list` objects, by address. -/
abbrev Mem := Nat → reader_list

/-- Whole program state.  `live` lists the `reader_list` nodes obtained from `calloc`
and not yet freed; `futex_script` is what the coming `FUTEX_WAIT` calls return;
`trace` records the events issued so far. -/
structure State where
  gp : rcu_gp
  mem : Mem
  readers : Nat → rcu_reader
  gp_waiters : Nat
  wait_nodes : Nat → wait_node
  rcu_gp_lock : Bool
  rcu_registry_lock : Bool
  live : List Nat
  futex_script : List futex_outcome
  trace : List Event

/-- Address of the global `registry_reader_list`. -/
def registry_reader_list : Nat := 1

/-- Address of the local `cur_snap_readers` of `synchronize_rcu`. -/
def cur_snap_readers : Nat := 2

/-- Address of the local `qs_readers` of `synchronize_rcu`. -/
def qs_readers : Nat := 3

/-- Point update of a memory. -/
def upd {α : Type} (m : Nat → α) (a : Nat) (v : α) : Nat → α :=
  fun x => if x = a then v else m x

/-- Store `a->next = v`. -/
def set_next (m : Mem) (a v : Nat) : Mem := upd m a { m a with next := v }

/-- Store `a->prev = v`. -/
def set_prev (m : Mem) (a v : Nat) : Mem := upd m a { m a with prev := v }

/-- Store `a->node = v`. -/
def set_node (m : Mem) (a v : Nat) : Mem := upd m a { m a with node := v }

/-- Store to the `ctr` field of reader record `t`. -/
def set_ctr (s : State) (t v : Nat) : State :=
  { s with readers := upd s.readers t { s.readers t with ctr := v } }

/-- State at program start: `gp = { .ctr = 1 }`, empty registry, empty wait queue,
zeroed reader records (they come from `calloc` in `tls_access_reader`). -/
def init (script : List futex_outcome) : State :=
  { gp := { ctr := 1, futex := 0 }
    mem := upd (fun _ => { next := 0, prev := 0, node := 0 }) registry_reader_list
      { next := registry_reader_list, prev := registry_reader_list, node := 0 }
    readers := fun _ => { ctr := 0, need_mb := 0, tid := 0, registered := 0, list := 0 }
    gp_waiters := 0
    wait_nodes := fun _ => { next := 0, state := 0 }
    rcu_gp_lock := false
    rcu_registry_lock := false
    live := []
    futex_script := script
    trace := [] }

/-! ## Mutexes -/

/-- The call `pthread_mutex_lock(&rcu_registry_lock)`. -/
def lock_registry (s : State) : Option State :=
  if s.rcu_registry_lock then none
  else some { s with rcu_registry_lock := true, trace := s.trace ++ [Event.registry_lock] }

/-- The call `pthread_mutex_unlock(&rcu_registry_lock)`. -/
def unlock_registry (s : State) : State :=
  { s with rcu_registry_lock := false, trace := s.trace ++ [Event.registry_unlock] }

/-- The call `pthread_mutex_lock(&rcu_gp_lock)`. -/
def lock_gp (s : State) : Option State :=
  if s.rcu_gp_lock then none
  else some { s with rcu_gp_lock := true, trace := s.trace ++ [Event.gp_lock] }

/-- The call `pthread_mutex_unlock(&rcu_gp_lock)`. -/
def unlock_gp (s : State) : State :=
  { s with rcu_gp_lock := false, trace := s.trace ++ [Event.gp_unlock] }

/-! ## Grace period futex -/

/-- The loop `while (futex(&gp.futex, FUTEX_WAIT, -1, ...)) { if (errno == EWOULDBLOCK)
{ lock; return; } }` of `wait_gp`, driven by the outcomes of the system call. -/
def wait_gp_loop : List futex_outcome → State → Option State
  | [], _ => none
  | futex_outcome.woken :: rest, s => some { s with futex_script := rest }
  | futex_outcome.ewouldblock :: rest, s => lock_registry { s with futex_script := rest }
  | futex_outcome.other_errno :: rest, s => wait_gp_loop rest s

/-- The function `wait_gp`. -/
def wait_gp (s : State) : Option State :=
  let s := unlock_registry s
  if s.gp.futex ≠ -1 then lock_registry s
  else wait_gp_loop s.futex_script s

/-- The function `wake_up_gp`. -/
def wake_up_gp (s : State) : State :=
  if s.gp.futex = -1 then
    { s with gp := { s.gp with futex := 0 }, trace := s.trace ++ [Event.futex_wake_gp] }
  else s

/-! ## Wait queue -/

/-- The function `wait_queue_push` on the global queue: the new state and the
returned `!!old_head`. -/
def wait_queue_push (node : Nat) (s : State) : State × Nat :=
  let old_head := s.gp_waiters
  let s := { s with gp_waiters := node }
  let s := { s with wait_nodes := upd s.wait_nodes node { s.wait_nodes node with next := old_head } }
  (s, if old_head ≠ 0 then 1 else 0)

/-- The function `wait_queue_move` from the global queue: the new state and the
head stored into the destination queue. -/
def wait_queue_move (s : State) : State × Nat :=
  ({ s with gp_waiters := 0 }, s.gp_waiters)

/-- Store to the state word of a wait node. -/
def set_wait_state (s : State) (node v : Nat) : State :=
  { s with wait_nodes := upd s.wait_nodes node { s.wait_nodes node with state := v } }

/-- The loop `while (futex(&node->state, FUTEX_WAIT, RCU_WAIT_WAITING, ...))
{ if (errno == EWOULDBLOCK) goto skip_futex; }` of `adaptative_busy_wait`. -/
def busy_wait_loop : List futex_outcome → State → Option State
  | [], _ => none
  | futex_outcome.woken :: rest, s => some { s with futex_script := rest }
  | futex_outcome.ewouldblock :: rest, s => some { s with futex_script := rest }
  | futex_outcome.other_errno :: rest, s => busy_wait_loop rest s

/-- The function `adaptative_busy_wait`.  No other thread runs meanwhile, so every
load of `node->state` in a spin loop sees the same value: the first loop leaves at
once when the state is not `WAITING` and runs out otherwise; the teardown loops
end only when the `TEARDOWN` bit is already there. -/
def adaptative_busy_wait (node : Nat) (s : State) : Option State :=
  let after_wait : Option State :=
    if (s.wait_nodes node).state ≠ RCU_WAIT_WAITING then some s
    else busy_wait_loop s.futex_script s
  match after_wait with
  | none => none
  | some s =>
    let s := set_wait_state s node ((s.wait_nodes node).state ||| RCU_WAIT_RUNNING)
    if (s.wait_nodes node).state &&& RCU_WAIT_TEARDOWN ≠ 0 then some s else none

/-- The function `adaptative_wake_up`. -/
def adaptative_wake_up (node : Nat) (s : State) : State :=
  let s := set_wait_state s node RCU_WAIT_WAKEUP
  let s :=
    if (s.wait_nodes node).state &&& RCU_WAIT_RUNNING = 0 then
      { s with trace := s.trace ++ [Event.futex_wake_node node] }
    else s
  set_wait_state s node ((s.wait_nodes node).state ||| RCU_WAIT_TEARDOWN)

/-! ## Readers and their lists -/

/-- The function `reader_state` on the loaded counter `v` and `gp->ctr`. -/
def reader_state (gp : rcu_gp) (reader : rcu_reader) : rcu_reader_state :=
  let v := reader.ctr
  if v &&& RCU_GP_CTR_NEST_MASK = 0 then rcu_reader_state.RCU_READER_INACTIVE
  else if (v ^^^ gp.ctr) &&& RCU_GP_CTR_PHASE = 0 then
    rcu_reader_state.RCU_READER_ACTIVE_CURRENT
  else rcu_reader_state.RCU_READER_ACTIVE_OLD

/-- The function `reader_add`; `tmp` is the address `calloc` returned. -/
def reader_add (reader tmp list : Nat) (s : State) : State :=
  let m := upd s.mem tmp { next := 0, prev := 0, node := 0 }
  let m := set_node m tmp reader
  let m := set_prev m (m list).next tmp
  let m := set_next m tmp (m list).next
  let m := set_prev m tmp list
  let m := set_next m list tmp
  { s with
    mem := m
    readers := upd s.readers reader { s.readers reader with list := tmp }
    live := tmp :: s.live }

/-- The function `reader_del`. -/
def reader_del (reader : Nat) (s : State) : State :=
  let l := (s.readers reader).list
  if l = 0 then s
  else
    let m := set_prev s.mem (s.mem l).next (s.mem l).prev
    let m := set_next m (m l).prev (m l).next
    { s with
      mem := m
      readers := upd s.readers reader { s.readers reader with list := 0 }
      live := s.live.erase l }

/-- The function `reader_move`, statement by statement. -/
def reader_move (src dst : Nat) (m : Mem) : Mem :=
  let m := set_prev m (m src).next (m src).prev
  let m := set_next m (m src).prev (m src).next
  let m := set_next m (m dst).prev src
  let m := set_next m src (m dst).next
  let m := set_prev m src dst
  set_next m dst src

/-- The function `reader_splice`, statement by statement. -/
def reader_splice (src dst : Nat) (m : Mem) : Mem :=
  let m := set_prev m (m src).next dst
  let m := set_next m (m src).prev (m dst).next
  let m := set_prev m (m dst).next (m src).prev
  set_next m dst (m src).next

/-! ## Public interface: read side -/

/-- The function `rcu_read_lock` called by the thread whose record is `t`. -/
def rcu_read_lock (t : Nat) (s : State) : State :=
  let tmp := (s.readers t).ctr
  if tmp &&& RCU_GP_CTR_NEST_MASK = 0 then set_ctr s t s.gp.ctr
  else set_ctr s t ((tmp + 1) % ULONG_SIZE)

/-- The function `rcu_read_unlock` called by the thread whose record is `t`. -/
def rcu_read_unlock (t : Nat) (s : State) : State :=
  let tmp := (s.readers t).ctr
  if tmp &&& RCU_GP_CTR_NEST_MASK = 1 then
    wake_up_gp (set_ctr s t ((tmp + (ULONG_SIZE - 1)) % ULONG_SIZE))
  else set_ctr s t ((tmp + (ULONG_SIZE - 1)) % ULONG_SIZE)

/-- Conversion of an `unsigned long` to `int` (two's complement, low 32 bits). -/
def to_int (v : Nat) : Int :=
  if v % UINT_SIZE < UINT_SIZE / 2 then ((v % UINT_SIZE : Nat) : Int)
  else ((v % UINT_SIZE : Nat) : Int) - (UINT_SIZE : Int)

/-- The function `rcu_read_ongoing` called by the thread whose record is `t`. -/
def rcu_read_ongoing (t : Nat) (s : State) : Int :=
  to_int ((s.readers t).ctr &&& RCU_GP_CTR_NEST_MASK)

/-! ## Grace-period engine -/

/-- Wrap an integer into the range of `int32_t`. -/
def to_int32 (z : Int) : Int := (z + 2 ^ 31) % 2 ^ 32 - 2 ^ 31

/-- Body of the `switch` in the traversal of `wait_for_readers` for the list node `it`,
including the fall-through from `RCU_READER_ACTIVE_CURRENT` when `cur_snap_readers`
is `NULL`. -/
def classify_and_move (cur_snap qs it : Nat) (s : State) : State :=
  if (s.mem it).node ≠ 0 then
    match reader_state s.gp (s.readers (s.mem it).node) with
    | rcu_reader_state.RCU_READER_ACTIVE_CURRENT =>
      if cur_snap ≠ 0 then { s with mem := reader_move it cur_snap s.mem }
      else { s with mem := reader_move it qs s.mem }
    | rcu_reader_state.RCU_READER_INACTIVE => { s with mem := reader_move it qs s.mem }
    | rcu_reader_state.RCU_READER_ACTIVE_OLD => s
  else s

/-- The traversal `while (it != NULL) { ...; it = it->next; if (it == input_readers) break; }`
of `wait_for_readers`, started at `it`. -/
def scan_readers : Nat → Nat → Nat → Nat → Nat → State → Option State
  | 0, _, _, _, _, _ => none
  | fuel + 1, input_readers, cur_snap, qs, it, s =>
    if it = 0 then some s
    else
      let s := classify_and_move cur_snap qs it s
      let it := (s.mem it).next
      if it = input_readers then some s
      else scan_readers fuel input_readers cur_snap qs it s

/-- The function `wait_for_readers`; `wait_loops` is the value of the local counter
on entry to the `while (1)` body.  The controlling expression
`input_readers->next = input_readers` is an assignment: it stores `input_readers`
into the head's `next` field (a store through `NULL` when `input_readers` is `NULL`)
and its value is the stored pointer. -/
def wait_for_readers : Nat → Nat → Nat → Nat → Nat → State → Option State
  | 0, _, _, _, _, _ => none
  | fuel + 1, input_readers, cur_snap, qs, wait_loops, s =>
    let wait_loops := (wait_loops + 1) % UINT_SIZE
    let s :=
      if wait_loops ≥ RCU_QS_ACTIVE_ATTEMPTS then
        { s with gp := { s.gp with futex := to_int32 (s.gp.futex + (-1)) } }
      else s
    match scan_readers fuel input_readers cur_snap qs input_readers s with
    | none => none
    | some s =>
      if input_readers = 0 then none
      else
        let s := { s with mem := set_next s.mem input_readers input_readers }
        if input_readers ≠ 0 then
          some (if wait_loops ≥ RCU_QS_ACTIVE_ATTEMPTS then
            { s with gp := { s.gp with futex := 0 } } else s)
        else
          match (if wait_loops ≥ RCU_QS_ACTIVE_ATTEMPTS then wait_gp s
                 else lock_registry (unlock_registry s)) with
          | none => none
          | some s => wait_for_readers fuel input_readers cur_snap qs wait_loops s

/-- The wake walk at the end of `synchronize_rcu`:
`while (it != NULL) { if (!(it->state & RCU_WAIT_RUNNING)) adaptative_wake_up(it); it = it->next; }`. -/
def wake_waiters : Nat → Nat → State → Option State
  | 0, _, _ => none
  | fuel + 1, it, s =>
    if it = 0 then some s
    else
      let s :=
        if (s.wait_nodes it).state &&& RCU_WAIT_RUNNING = 0 then adaptative_wake_up it s
        else s
      wake_waiters fuel (s.wait_nodes it).next s

/-- The scan protocol of `synchronize_rcu`, from the emptiness test of the registry
up to the label `out`. -/
def grace_period (fuel : Nat) (s : State) : Option State :=
  if (s.mem registry_reader_list).next = registry_reader_list then some s
  else
    match wait_for_readers fuel registry_reader_list cur_snap_readers qs_readers 0 s with
    | none => none
    | some s =>
      let s := { s with gp := { s.gp with ctr := s.gp.ctr ^^^ RCU_GP_CTR_PHASE } }
      match wait_for_readers fuel cur_snap_readers 0 qs_readers 0 s with
      | none => none
      | some s =>
        some (if (s.mem qs_readers).next ≠ qs_readers then
          { s with mem := reader_splice qs_readers registry_reader_list s.mem } else s)

/-- The function `synchronize_rcu`; `wait` is the address of the caller's local
wait node. -/
def synchronize_rcu (fuel : Nat) (wait : Nat) (s : State) : Option State :=
  let s :=
    { s with
      mem := upd (upd s.mem cur_snap_readers
          { next := cur_snap_readers, prev := cur_snap_readers, node := 0 })
        qs_readers { next := qs_readers, prev := qs_readers, node := 0 }
      wait_nodes := upd s.wait_nodes wait { next := 0, state := RCU_WAIT_WAITING } }
  let pushed := wait_queue_push wait s
  if pushed.2 ≠ 0 then adaptative_busy_wait wait pushed.1
  else
    let s := set_wait_state pushed.1 wait RCU_WAIT_RUNNING
    match lock_gp s with
    | none => none
    | some s =>
      let moved := wait_queue_move s
      let waiters := moved.2
      match lock_registry moved.1 with
      | none => none
      | some s =>
        match grace_period fuel s with
        | none => none
        | some s => wake_waiters fuel waiters (unlock_gp (unlock_registry s))

/-! ## Public interface: registration -/

/-- The function `rcu_register_thread` called by the thread whose record is `t`;
`tmp` is the address `calloc` returns inside `reader_add` (`0` when it fails, and the
first store through it then faults). -/
def rcu_register_thread (t tmp : Nat) (s : State) : Option State :=
  let s := { s with readers := upd s.readers t { s.readers t with tid := t } }
  match lock_registry s with
  | none => none
  | some s =>
    let s := { s with readers := upd s.readers t { s.readers t with registered := 1 } }
    if tmp = 0 then none
    else some (unlock_registry (reader_add t tmp registry_reader_list s))

/-- The function `rcu_unregister_thread` called by the thread whose record is `t`. -/
def rcu_unregister_thread (t : Nat) (s : State) : Option State :=
  match lock_registry s with
  | none => none
  | some s =>
    let s := { s with readers := upd s.readers t { s.readers t with registered := 0 } }
    some (unlock_registry (reader_del t s))

/-! ## Reachable states -/

/-- An address `calloc` may return for a new list node: not `NULL`, not a static or
stack list head, not a node still allocated. -/
def fresh (s : State) (p : Nat) : Prop :=
  p ≠ 0 ∧ p ≠ registry_reader_list ∧ p ≠ cur_snap_readers ∧ p ≠ qs_readers ∧ p ∉ s.live

/-- Freshness of an address is decidable. -/
instance fresh.decidable (s : State) (p : Nat) : Decidable (fresh s p) :=
  inferInstanceAs (Decidable (p ≠ 0 ∧ p ≠ registry_reader_list ∧ p ≠ cur_snap_readers ∧
    p ≠ qs_readers ∧ p ∉ s.live))

/-- One completed call of a public operation by some thread. -/
inductive Step : State → State → Prop
  | read_lock (s : State) (t : Nat) : t ≠ 0 → Step s (rcu_read_lock t s)
  | read_unlock (s : State) (t : Nat) : t ≠ 0 → Step s (rcu_read_unlock t s)
  | register (s s' : State) (t p : Nat) :
      t ≠ 0 → fresh s p → rcu_register_thread t p s = some s' → Step s s'
  | unregister (s s' : State) (t : Nat) :
      t ≠ 0 → rcu_unregister_thread t s = some s' → Step s s'
  | synchronize (s s' : State) (fuel w : Nat) :
      w ≠ 0 → synchronize_rcu fuel w s = some s' → Step s s'

/-- States reachable from program start by completed calls of the public operations. -/
inductive Reachable : State → Prop
  | start (script : List futex_outcome) : Reachable (init script)
  | step (s s' : State) : Reachable s → Step s s' → Reachable s'

/-! ## Read-side call sequences -/

/-- A read-side call. -/
inductive ReadOp
  | lock
  | unlock
  deriving DecidableEq, Repr

/-- One read-side call by the thread whose record is `t`. -/
def apply_read_op (t : Nat) (s : State) : ReadOp → State
  | ReadOp.lock => rcu_read_lock t s
  | ReadOp.unlock => rcu_read_unlock t s

/-- A sequence of read-side calls by the thread whose record is `t`. -/
def run_read_ops (t : Nat) (ops : List ReadOp) (s : State) : State :=
  ops.foldl (apply_read_op t) s

/-- Number of locks of the sequence not yet matched by an unlock. -/
def unmatched_locks (ops : List ReadOp) : Nat :=
  ops.count ReadOp.lock - ops.count ReadOp.unlock

/-- No initial part of the sequence has more unlocks than locks, and the number of
unmatched locks never exceeds `2 ^ 32 - 1`. -/
def balanced (ops : List ReadOp) : Prop :=
  ∀ k : Nat, (ops.take k).count ReadOp.unlock ≤ (ops.take k).count ReadOp.lock ∧
    unmatched_locks (ops.take k) ≤ 2 ^ 32 - 1

/-! ## Well-formed circular lists -/

/-- The nodes of `l`, in order, are linked from `a` to `b` in both directions:
`a->next` is the first node, each node's `next` is its successor, the last one's
`next` is `b`, and every `prev` points back. -/
def Linked (m : Mem) : Nat → List Nat → Nat → Prop
  | a, [], b => (m a).next = b ∧ (m b).prev = a
  | a, x :: xs, b => (m a).next = x ∧ (m x).prev = a ∧ Linked m x xs b

/-- The list with head (sentinel) `head` is a well-formed circular doubly-linked list
whose nodes are exactly `l`, in `next` order, each once. -/
def circular (m : Mem) (head : Nat) (l : List Nat) : Prop :=
  Linked m head l head ∧ (head :: l).Nodup

/-- The registry is a well-formed circular list with nodes `l`: the sentinel carries no
reader, every node is a live heap node carrying a reader record whose back-pointer
is that node (so each record appears once). -/
def registry_wf (s : State) (l : List Nat) : Prop :=
  circular s.mem registry_reader_list l ∧
  (s.mem registry_reader_list).node = 0 ∧
  ∀ a ∈ l, a ≠ 0 ∧ a ≠ cur_snap_readers ∧ a ≠ qs_readers ∧ a ∈ s.live ∧
    (s.mem a).node ≠ 0 ∧ (s.readers (s.mem a).node).list = a

/-- Being linked is checked by following the pointers. -/
instance Linked.decidable (m : Mem) :
    ∀ (a : Nat) (l : List Nat) (b : Nat), Decidable (Linked m a l b)
  | a, [], b => inferInstanceAs (Decidable ((m a).next = b ∧ (m b).prev = a))
  | _, x :: xs, b =>
    @instDecidableAnd _ _ _ (@instDecidableAnd _ _ _ (Linked.decidable m x xs b))

/-- Being a well-formed circular list of given nodes is decidable. -/
instance circular.decidable (m : Mem) (head : Nat) (l : List Nat) :
    Decidable (circular m head l) :=
  inferInstanceAs (Decidable (Linked m head l head ∧ (head :: l).Nodup))

/-- Being a well-formed registry with given nodes is decidable. -/
instance registry_wf.decidable (s : State) (l : List Nat) : Decidable (registry_wf s l) :=
  inferInstanceAs (Decidable (circular s.mem registry_reader_list l ∧
    (s.mem registry_reader_list).node = 0 ∧
    ∀ a ∈ l, a ≠ 0 ∧ a ≠ cur_snap_readers ∧ a ≠ qs_readers ∧ a ∈ s.live ∧
      (s.mem a).node ≠ 0 ∧ (s.readers (s.mem a).node).list = a))

/-- Reader records of the registry nodes `l`, in list order. -/
def registry_records (s : State) (l : List Nat) : List Nat :=
  l.map (fun a => (s.mem a).node)

/-! ## Destination of a traversed node -/

/-- The list head to which the `switch` of `wait_for_readers` moves a node whose reader
is in state `st`, if it moves it: the current-snapshot list for `RCU_READER_ACTIVE_CURRENT`
when that list is passed, the quiescent list for `RCU_READER_INACTIVE` and for the
fall-through, nothing for `RCU_READER_ACTIVE_OLD`. -/
def move_target (cur_snap qs : Nat) : rcu_reader_state → Option Nat
  | rcu_reader_state.RCU_READER_ACTIVE_CURRENT => some (if cur_snap ≠ 0 then cur_snap else qs)
  | rcu_reader_state.RCU_READER_INACTIVE => some qs
  | rcu_reader_state.RCU_READER_ACTIVE_OLD => none

/-! ## The elected leader -/

/-- State of `synchronize_rcu` at its emptiness test of the registry, for a caller that
found the wait queue empty: locals initialised, wait node pushed and marked running, the
grace-period mutex taken, the wait queue drained, the registry mutex taken. -/
def leader_state (wait : Nat) (s : State) : State :=
  let s0 : State :=
    { s with
      mem := upd (upd s.mem cur_snap_readers
          { next := cur_snap_readers, prev := cur_snap_readers, node := 0 })
        qs_readers { next := qs_readers, prev := qs_readers, node := 0 }
      wait_nodes := upd s.wait_nodes wait { next := 0, state := RCU_WAIT_WAITING } }
  let s1 := set_wait_state (wait_queue_push wait s0).1 wait RCU_WAIT_RUNNING
  let s2 : State := { s1 with rcu_gp_lock := true, trace := s1.trace ++ [Event.gp_lock] }
  let s3 := (wait_queue_move s2).1
  { s3 with rcu_registry_lock := true, trace := s3.trace ++ [Event.registry_lock] }

/-! ## A registry with one reader -/

/-- A state with one registered reader: the registry holds the single node at address
`4`, which carries the record of thread `10`; that record has the counter `c`, is
marked registered and points back to the node.  The grace-period word is as at program
start (`gp.ctr = 1`, phase bit `0`), the wait queue is empty and both mutexes are free. -/
def one_reader_state (c : Nat) : State :=
  { gp := { ctr := 1, futex := 0 }
    mem := fun a =>
      if a = registry_reader_list then { next := 4, prev := 4, node := 0 }
      else if a = 4 then
        { next := registry_reader_list, prev := registry_reader_list, node := 10 }
      else { next := 0, prev := 0, node := 0 }
    readers := fun t =>
      if t = 10 then { ctr := c, need_mb := 0, tid := 10, registered := 1, list := 4 }
      else { ctr := 0, need_mb := 0, tid := 0, registered := 0, list := 0 }
    gp_waiters := 0
    wait_nodes := fun _ => { next := 0, state := 0 }
    rcu_gp_lock := false
    rcu_registry_lock := false
    live := [4]
    futex_script := []
    trace := [] }

/-! ## Chains of wait nodes -/

/-- Following `next` from `head` visits exactly the nodes `l`, in this order, none of
them `NULL`, and then reaches `NULL`. -/
def wait_chain (wn : Nat → wait_node) : Nat → List Nat → Prop
  | h, [] => h = 0
  | h, x :: xs => h = x ∧ x ≠ 0 ∧ wait_chain wn (wn x).next xs

/-- Being a chain of given wait nodes is checked by following the pointers. -/
instance wait_chain.decidable (wn : Nat → wait_node) :
    ∀ (h : Nat) (l : List Nat), Decidable (wait_chain wn h l)
  | h, [] => inferInstanceAs (Decidable (h = 0))
  | _, x :: xs =>
    @instDecidableAnd _ _ _ (@instDecidableAnd _ _ _ (wait_chain.decidable wn (wn x).next xs))

/-- Calls of `wait_queue_push` for the nodes `ns`, one after the other: the final state
and the values returned, in call order. -/
def push_all : List Nat → State → State × List Nat
  | [], s => (s, [])
  | n :: ns, s =>
    let r := wait_queue_push n s
    let rest := push_all ns r.1
    (rest.1, r.2 :: rest.2)

/-! ## Example states -/

/-- A writer about to sleep in `wait_gp`: the registry mutex is held, `gp.futex` is `-1`
and the `FUTEX_WAIT` calls will have the outcomes `script`. -/
def sleeping_writer_state (script : List futex_outcome) : State :=
  { init script with
    gp := { ctr := 1, futex := -1 }
    rcu_registry_lock := true
    trace := [Event.registry_lock] }

/-- A drained wait queue of three nodes: the followers `102` and `101`, both waiting, and
the leader `100`, pushed first and running. -/
def three_waiters_state : State :=
  { init [] with
    wait_nodes := fun n =>
      if n = 102 then { next := 101, state := RCU_WAIT_WAITING }
      else if n = 101 then { next := 100, state := RCU_WAIT_WAITING }
      else if n = 100 then { next := 0, state := RCU_WAIT_RUNNING }
      else { next := 0, state := 0 }
    rcu_gp_lock := true }

/-- Two lists in one memory: the list with sentinel `3` holds the nodes `5` and `6`, the
list with sentinel `1` holds the node `4`. -/
def two_lists_mem : Mem := fun a =>
  if a = 1 then { next := 4, prev := 4, node := 0 }
  else if a = 4 then { next := 1, prev := 1, node := 10 }
  else if a = 3 then { next := 5, prev := 6, node := 0 }
  else if a = 5 then { next := 6, prev := 3, node := 11 }
  else if a = 6 then { next := 3, prev := 5, node := 12 }
  else { next := 0, prev := 0, node := 0 }

/-! ## Calls within the contract of the interface -/

/-- One completed call of a public operation made within the contract of the interface:
`rcu_read_lock` by a registered thread whose nest depth stays within the nest field,
`rcu_read_unlock` closing a section the thread is in, `rcu_register_thread` by a thread
that is not registered, `rcu_unregister_thread` outside any read-side critical section,
`synchronize_rcu` at any time. -/
inductive LegalStep : State → State → Prop
  | read_lock (s : State) (t : Nat) :
      (s.readers t).registered ≠ 0 → (s.readers t).ctr % 2 ^ 32 < 2 ^ 32 - 1 →
      LegalStep s (rcu_read_lock t s)
  | read_unlock (s : State) (t : Nat) :
      1 ≤ (s.readers t).ctr % 2 ^ 32 → LegalStep s (rcu_read_unlock t s)
  | register (s s' : State) (t p : Nat) :
      t ≠ 0 → fresh s p → (s.readers t).registered = 0 →
      rcu_register_thread t p s = some s' → LegalStep s s'
  | unregister (s s' : State) (t : Nat) :
      (s.readers t).ctr % 2 ^ 32 = 0 → rcu_unregister_thread t s = some s' → LegalStep s s'
  | synchronize (s s' : State) (fuel w : Nat) :
      w ≠ 0 → synchronize_rcu fuel w s = some s' → LegalStep s s'

/-- States reachable from program start by completed calls of the public operations made
within the contract. -/
inductive Legal : State → Prop
  | start (script : List futex_outcome) : Legal (init script)
  | step (s s' : State) : Legal s → LegalStep s s' → Legal s'

/-- What holds between calls made within the contract, for the registry nodes `l`: `gp`
is as at program start, the wait queue is empty and the mutexes are free, the registry is
well formed, every counter is a nest depth below `2 ^ 32`, a record that is not marked
registered has no node and is outside any section, and a record marked registered is the
one its node carries. -/
def legal_inv (s : State) (l : List Nat) : Prop :=
  s.gp = { ctr := 1, futex := 0 } ∧
  (s.gp_waiters = 0 ∧ s.rcu_gp_lock = false ∧ s.rcu_registry_lock = false) ∧
  registry_wf s l ∧
  (∀ t, (s.readers t).ctr < 2 ^ 32) ∧
  (∀ t, (s.readers t).registered = 0 → (s.readers t).list = 0 ∧ (s.readers t).ctr = 0) ∧
  (∀ t, (s.readers t).registered ≠ 0 →
    (s.readers t).list ∈ l ∧ (s.mem (s.readers t).list).node = t)

/-- Program start followed by the registration of thread `10`, whose list node is
allocated at address `4`. -/
def registered_state : State := (rcu_register_thread 10 4 (init [])).getD (init [])

end Urcu

/-! # Theorems -/

namespace Urcu

/-- The phase bit is bit 32. -/
theorem phase_eq : RCU_GP_CTR_PHASE = 2 ^ 32 := by decide

/-- Masking with the nest mask keeps the low 32 bits. -/
theorem mask_eq (x : Nat) : x &&& RCU_GP_CTR_NEST_MASK = x % 2 ^ 32 := by
  have h : RCU_GP_CTR_NEST_MASK = 2 ^ 32 - 1 := by decide
  rw [h]; exact Nat.and_pow_two_sub_one_eq_mod x 32

/-- Conversion to `int` of a value below `2 ^ 32` is zero only for zero. -/
theorem to_int_ne_zero (v : Nat) : to_int (v % 2 ^ 32) ≠ 0 ↔ v % 2 ^ 32 ≠ 0 := by
  unfold to_int UINT_SIZE
  have h : v % 2 ^ 32 < 2 ^ 32 := Nat.mod_lt _ (by norm_num)
  rw [Nat.mod_mod]
  split <;> omega

/-- C5: `rcu_read_ongoing` returns a non-zero `int` exactly when the nest depth (low 32
bits of the caller's `ctr`) is non-zero; the conversion of the masked word to `int`
never maps a non-zero depth to `0`; and a counter with only bits 32 and above set
(the phase bit alone, in particular) gives `0`. -/
theorem rcu_read_ongoing_iff (t : Nat) (s : State) :
    (rcu_read_ongoing t s ≠ 0 ↔ (s.readers t).ctr % 2 ^ 32 ≠ 0) ∧
    (∀ v : Nat, v % 2 ^ 32 ≠ 0 → to_int (v &&& RCU_GP_CTR_NEST_MASK) ≠ 0) ∧
    (∀ hi : Nat, (s.readers t).ctr = hi * RCU_GP_CTR_PHASE → rcu_read_ongoing t s = 0) := by
  have key : rcu_read_ongoing t s ≠ 0 ↔ (s.readers t).ctr % 2 ^ 32 ≠ 0 := by
    unfold rcu_read_ongoing; rw [mask_eq]; exact to_int_ne_zero _
  refine ⟨key, ?_, ?_⟩
  · intro v hv; rw [mask_eq]; exact (to_int_ne_zero v).2 hv
  · intro hi h
    have h0 : (s.readers t).ctr % 2 ^ 32 = 0 := by rw [h, phase_eq]; simp
    by_contra hne
    exact key.1 hne h0


/-! ## Frame lemmas: what the grace-period word goes through -/

/-- Reading an updated memory at the updated address. -/
theorem upd_same {α : Type} (m : Nat → α) (a : Nat) (v : α) : upd m a v a = v := by
  simp [upd]

/-- Reading an updated memory elsewhere. -/
theorem upd_other {α : Type} (m : Nat → α) (a b : Nat) (v : α) (h : b ≠ a) :
    upd m a v b = m b := by
  simp [upd, h]

/-- A second store to the same address wins. -/
theorem upd_upd {α : Type} (m : Nat → α) (a : Nat) (v w : α) :
    upd (upd m a v) a w = upd m a w := by
  funext x; simp only [upd]; split <;> rfl

/-- The traversal step leaves `gp` alone. -/
theorem classify_and_move_gp (cur_snap qs it : Nat) (s : State) :
    (classify_and_move cur_snap qs it s).gp = s.gp := by
  unfold classify_and_move
  split
  · split
    · split <;> rfl
    · rfl
    · rfl
  · rfl

/-- The traversal leaves `gp` alone. -/
theorem scan_readers_gp : ∀ (fuel input_readers cur_snap qs it : Nat) (s s' : State),
    scan_readers fuel input_readers cur_snap qs it s = some s' → s'.gp = s.gp := by
  intro fuel
  induction fuel with
  | zero => intro _ _ _ _ s s' h; simp [scan_readers] at h
  | succ n ih =>
    intro input_readers cur_snap qs it s s' h
    simp only [scan_readers] at h
    split at h
    · cases h; rfl
    · split at h
      · cases h; exact classify_and_move_gp _ _ _ _
      · rw [ih _ _ _ _ _ _ h]; exact classify_and_move_gp _ _ _ _

/-- A call of `wait_for_readers` that starts with `wait_loops = 0` and returns
leaves `gp` alone. -/
theorem wait_for_readers_gp (fuel input_readers cur_snap qs : Nat) (s s' : State)
    (h : wait_for_readers fuel input_readers cur_snap qs 0 s = some s') : s'.gp = s.gp := by
  cases fuel with
  | zero => simp [wait_for_readers] at h
  | succ n =>
    simp only [wait_for_readers] at h
    have h1 : ¬ ((0 + 1) % UINT_SIZE ≥ RCU_QS_ACTIVE_ATTEMPTS) := by decide
    simp only [h1, if_false] at h
    split at h
    · cases h
    · rename_i s1 hs1
      have hg := scan_readers_gp _ _ _ _ _ _ _ hs1
      by_cases h0 : input_readers = 0
      · simp [h0] at h
      · simp only [h0, if_false, ne_eq, not_false_eq_true, if_true] at h
        cases h
        exact hg

/-- The scan protocol changes `gp.ctr` by at most a flip of the phase bit and leaves
`gp.futex` alone. -/
theorem grace_period_gp (fuel : Nat) (s s' : State) (h : grace_period fuel s = some s') :
    (s'.gp.ctr = s.gp.ctr ∨ s'.gp.ctr = s.gp.ctr ^^^ RCU_GP_CTR_PHASE) ∧
      s'.gp.futex = s.gp.futex := by
  unfold grace_period at h
  split at h
  · cases h; exact ⟨Or.inl rfl, rfl⟩
  · split at h
    · cases h
    · rename_i s1 hs1
      have g1 := wait_for_readers_gp _ _ _ _ _ _ hs1
      dsimp only at h
      split at h
      · cases h
      · rename_i s2 hs2
        have g2 := wait_for_readers_gp _ _ _ _ _ _ hs2
        cases h
        have : (if (s2.mem qs_readers).next ≠ qs_readers then
            { s2 with mem := reader_splice qs_readers registry_reader_list s2.mem }
            else s2).gp = s2.gp := by split <;> rfl
        rw [this, g2]
        simp [g1]

/-- Waking one waiter leaves `gp` alone. -/
theorem adaptative_wake_up_gp (node : Nat) (s : State) : (adaptative_wake_up node s).gp = s.gp := by
  unfold adaptative_wake_up set_wait_state
  simp only
  split <;> rfl

/-- The wake walk leaves `gp` alone. -/
theorem wake_waiters_gp : ∀ (fuel it : Nat) (s s' : State),
    wake_waiters fuel it s = some s' → s'.gp = s.gp := by
  intro fuel
  induction fuel with
  | zero => intro _ s s' h; simp [wake_waiters] at h
  | succ n ih =>
    intro it s s' h
    simp only [wake_waiters] at h
    split at h
    · cases h; rfl
    · rw [ih _ _ _ h]
      split
      · exact adaptative_wake_up_gp _ _
      · rfl

/-- The futex loop of a follower leaves `gp` alone. -/
theorem busy_wait_loop_gp : ∀ (script : List futex_outcome) (s s' : State),
    busy_wait_loop script s = some s' → s'.gp = s.gp := by
  intro script
  induction script with
  | nil => intro s s' h; simp [busy_wait_loop] at h
  | cons o rest ih =>
    intro s s' h
    cases o with
    | woken => simp only [busy_wait_loop] at h; cases h; rfl
    | ewouldblock => simp only [busy_wait_loop] at h; cases h; rfl
    | other_errno => simp only [busy_wait_loop] at h; exact ih _ _ h

/-- A follower's wait leaves `gp` alone. -/
theorem adaptative_busy_wait_gp (node : Nat) (s s' : State)
    (h : adaptative_busy_wait node s = some s') : s'.gp = s.gp := by
  unfold adaptative_busy_wait at h
  simp only at h
  split at h
  · cases h
  · rename_i s1 hs1
    have g1 : s1.gp = s.gp := by
      split at hs1
      · cases hs1; rfl
      · exact busy_wait_loop_gp _ _ _ hs1
    split at h
    · cases h; rw [← g1]; rfl
    · cases h

/-- A returning `synchronize_rcu` changes `gp.ctr` by at most a flip of the phase bit
and leaves `gp.futex` alone. -/
theorem synchronize_rcu_gp (fuel w : Nat) (s s' : State)
    (h : synchronize_rcu fuel w s = some s') :
    (s'.gp.ctr = s.gp.ctr ∨ s'.gp.ctr = s.gp.ctr ^^^ RCU_GP_CTR_PHASE) ∧
      s'.gp.futex = s.gp.futex := by
  unfold synchronize_rcu at h
  simp only at h
  split at h
  · have := adaptative_busy_wait_gp _ _ _ h
    rw [this]; exact ⟨Or.inl rfl, rfl⟩
  · split at h
    · cases h
    · rename_i s1 hs1
      have g1 : s1.gp = s.gp := by
        unfold lock_gp at hs1
        split at hs1
        · cases hs1
        · cases hs1; rfl
      split at h
      · cases h
      · rename_i s2 hs2
        have g2 : s2.gp = s1.gp := by
          unfold lock_registry at hs2
          split at hs2
          · cases hs2
          · cases hs2; rfl
        split at h
        · cases h
        · rename_i s3 hs3
          have g3 := grace_period_gp _ _ _ hs3
          have g4 := wake_waiters_gp _ _ _ _ h
          have g5 : (unlock_gp (unlock_registry s3)).gp = s3.gp := rfl
          rw [g4, g5, ← g1, ← g2]
          exact g3


/-! ## Read side -/

/-- Storing a counter and loading it back. -/
theorem set_ctr_ctr (s : State) (t v : Nat) : ((set_ctr s t v).readers t).ctr = v := by
  simp [set_ctr, upd]

/-- Two stores to the same counter. -/
theorem set_ctr_set_ctr (s : State) (t a b : Nat) :
    set_ctr (set_ctr s t a) t b = set_ctr s t b := by
  simp only [set_ctr, upd_same, upd_upd]

/-- What `rcu_read_lock` stores. -/
theorem rcu_read_lock_eq (t : Nat) (s : State) :
    rcu_read_lock t s = set_ctr s t
      (if (s.readers t).ctr % 2 ^ 32 = 0 then s.gp.ctr else ((s.readers t).ctr + 1) % 2 ^ 64) := by
  unfold rcu_read_lock
  simp only [mask_eq, ULONG_SIZE]
  split <;> rfl

/-- What `rcu_read_unlock` stores, apart from the wake-up. -/
theorem rcu_read_unlock_ctr (t : Nat) (s : State) :
    ((rcu_read_unlock t s).readers t).ctr = ((s.readers t).ctr + (2 ^ 64 - 1)) % 2 ^ 64 := by
  unfold rcu_read_unlock wake_up_gp
  simp only [ULONG_SIZE]
  split
  · split <;> simp [set_ctr, upd]
  · simp [set_ctr, upd]

/-- When no writer sleeps on the futex, `rcu_read_unlock` is just the store. -/
theorem rcu_read_unlock_eq (t : Nat) (s : State) (hf : s.gp.futex ≠ -1) :
    rcu_read_unlock t s = set_ctr s t (((s.readers t).ctr + (2 ^ 64 - 1)) % 2 ^ 64) := by
  unfold rcu_read_unlock wake_up_gp
  simp only [ULONG_SIZE]
  have hf' : (set_ctr s t (((s.readers t).ctr + (2 ^ 64 - 1)) % 2 ^ 64)).gp.futex ≠ -1 := hf
  split <;> rfl

/-- The calls `rcu_read_lock` and `rcu_read_unlock` never write `gp.ctr`. -/
theorem read_side_gp_ctr (t : Nat) (s : State) :
    (rcu_read_lock t s).gp = s.gp ∧ (rcu_read_unlock t s).gp.ctr = s.gp.ctr ∧
      (s.gp.futex = 0 → (rcu_read_unlock t s).gp.futex = 0) := by
  refine ⟨by rw [rcu_read_lock_eq]; rfl, ?_, ?_⟩
  · unfold rcu_read_unlock wake_up_gp
    dsimp only
    split
    · split <;> rfl
    · rfl
  · intro h0
    rw [rcu_read_unlock_eq t s (by rw [h0]; decide)]
    exact h0

/-- Registration leaves `gp` alone. -/
theorem rcu_register_thread_gp (t p : Nat) (s s' : State)
    (h : rcu_register_thread t p s = some s') : s'.gp = s.gp := by
  unfold rcu_register_thread lock_registry at h
  simp only at h
  split at h
  · cases h
  · rename_i s1 hs1
    split at hs1
    · cases hs1
    · cases hs1
      split at h
      · cases h
      · cases h; rfl

/-- Unregistration leaves `gp` alone. -/
theorem rcu_unregister_thread_gp (t : Nat) (s s' : State)
    (h : rcu_unregister_thread t s = some s') : s'.gp = s.gp := by
  unfold rcu_unregister_thread lock_registry at h
  split at h
  · cases h
  · rename_i s1 hs1
    split at hs1
    · cases hs1
    · cases hs1
      cases h
      unfold reader_del
      simp only
      split <;> rfl

/-- In every reachable state `gp.ctr` is `1` or `2 ^ 32 + 1`, and `gp.futex` is `0`. -/
theorem reachable_gp (s : State) (h : Reachable s) :
    (s.gp.ctr = 1 ∨ s.gp.ctr = 2 ^ 32 + 1) ∧ s.gp.futex = 0 := by
  induction h with
  | start script => exact ⟨Or.inl rfl, rfl⟩
  | step s s' _ hstep ih =>
    obtain ⟨hc, hf⟩ := ih
    cases hstep with
    | read_lock t _ =>
      rw [(read_side_gp_ctr t s).1]; exact ⟨hc, hf⟩
    | read_unlock t _ =>
      rw [(read_side_gp_ctr t s).2.1]; exact ⟨hc, (read_side_gp_ctr t s).2.2 hf⟩
    | register _ t p _ _ hr =>
      rw [rcu_register_thread_gp t p s s' hr]; exact ⟨hc, hf⟩
    | unregister _ t _ hr =>
      rw [rcu_unregister_thread_gp t s s' hr]; exact ⟨hc, hf⟩
    | synchronize _ fuel w _ hr =>
      obtain ⟨g1, g2⟩ := synchronize_rcu_gp fuel w s s' hr
      refine ⟨?_, by rw [g2]; exact hf⟩
      rw [phase_eq] at g1
      rcases g1 with g1 | g1 <;> rcases hc with hc | hc <;> rw [g1, hc]
      · exact Or.inl rfl
      · exact Or.inr rfl
      · right; decide
      · left; decide


/-! ## Nesting -/

/-- Running a sequence of read-side calls in two parts. -/
theorem run_read_ops_append (t : Nat) (a b : List ReadOp) (s : State) :
    run_read_ops t (a ++ b) s = run_read_ops t b (run_read_ops t a s) := by
  simp [run_read_ops, List.foldl_append]

/-- Read-side calls never write `gp.ctr`. -/
theorem run_read_ops_gp_ctr (t : Nat) (ops : List ReadOp) :
    ∀ s : State, (run_read_ops t ops s).gp.ctr = s.gp.ctr := by
  induction ops with
  | nil => intro s; rfl
  | cons o rest ih =>
    intro s
    have : run_read_ops t (o :: rest) s = run_read_ops t rest (apply_read_op t s o) := rfl
    rw [this, ih]
    cases o
    · exact congrArg rcu_gp.ctr (read_side_gp_ctr t s).1
    · exact (read_side_gp_ctr t s).2.1

/-- One read-side call at nest depth `n`: a lock below depth `2 ^ 32 - 1` gives depth
`n + 1`, an unlock at depth at least one gives `n - 1`, and the bits from 32 up move only
in a lock at depth `0`. -/
theorem apply_read_op_step (t : Nat) (s : State) (o : ReadOp) (n : Nat)
    (hg : s.gp.ctr = 1 ∨ s.gp.ctr = 2 ^ 32 + 1)
    (hlt : (s.readers t).ctr < 2 ^ 64) (hn : (s.readers t).ctr % 2 ^ 32 = n)
    (hlock : o = ReadOp.lock → n + 1 ≤ 2 ^ 32 - 1) (hunlock : o = ReadOp.unlock → 1 ≤ n) :
    ((apply_read_op t s o).readers t).ctr < 2 ^ 64 ∧
    ((apply_read_op t s o).readers t).ctr % 2 ^ 32 = (if o = ReadOp.lock then n + 1 else n - 1) ∧
    (((apply_read_op t s o).readers t).ctr / 2 ^ 32 ≠ (s.readers t).ctr / 2 ^ 32 →
      o = ReadOp.lock ∧ n = 0) := by
  cases o with
  | lock =>
    have h1 := hlock rfl
    simp only [apply_read_op, rcu_read_lock_eq, set_ctr_ctr, if_true]
    split
    · rename_i h0
      rcases hg with hg | hg <;> rw [hg] <;> refine ⟨by norm_num, by omega, fun _ => ⟨trivial, by omega⟩⟩
    · refine ⟨Nat.mod_lt _ (by norm_num), by omega, fun h => ?_⟩
      exfalso; apply h; omega
  | unlock =>
    have h1 := hunlock rfl
    simp only [apply_read_op, rcu_read_unlock_ctr]
    refine ⟨Nat.mod_lt _ (by norm_num), ?_, fun h => ?_⟩
    · rw [if_neg (by decide)]; omega
    · exfalso; apply h; omega

/-- After any initial part of a balanced sequence started at `ctr = 0`, the low half of
`ctr` is the number of unmatched locks. -/
theorem run_read_ops_depth (t : Nat) (s : State) (ops : List ReadOp)
    (hg : s.gp.ctr = 1 ∨ s.gp.ctr = 2 ^ 32 + 1) (h0 : (s.readers t).ctr = 0)
    (hb : balanced ops) :
    ∀ k : Nat, k ≤ ops.length →
      ((run_read_ops t (ops.take k) s).readers t).ctr < 2 ^ 64 ∧
      ((run_read_ops t (ops.take k) s).readers t).ctr % 2 ^ 32 = unmatched_locks (ops.take k) := by
  intro k
  induction k with
  | zero =>
    intro _
    simp [run_read_ops, unmatched_locks, h0]
  | succ k ih =>
    intro hk
    have hk' : k < ops.length := hk
    obtain ⟨i1, i2⟩ := ih (Nat.le_of_lt hk')
    have ht : ops.take (k + 1) = ops.take k ++ [ops[k]] :=
      by rw [← List.take_concat_get ops k hk', List.concat_eq_append]
    have hbk := hb k
    have hbk1 := hb (k + 1)
    rw [ht] at hbk1 ⊢
    rw [run_read_ops_append]
    have hstep := apply_read_op_step t (run_read_ops t (ops.take k) s) ops[k]
      (unmatched_locks (ops.take k)) (by rw [run_read_ops_gp_ctr]; exact hg) i1 i2
    simp only [unmatched_locks, List.count_append, List.count_singleton] at hbk hbk1 hstep ⊢
    have hrun : run_read_ops t [ops[k]] (run_read_ops t (ops.take k) s) =
        apply_read_op t (run_read_ops t (ops.take k) s) ops[k] := rfl
    rw [hrun]
    cases hop : ops[k] with
    | lock =>
      rw [hop] at hbk1 hstep
      simp only [beq_self_eq_true, if_true, reduceCtorEq, beq_iff_eq, if_false] at hbk1 hstep ⊢
      obtain ⟨r1, r2, _⟩ := hstep (fun _ => by omega) (fun h => by cases h)
      exact ⟨r1, by omega⟩
    | unlock =>
      rw [hop] at hbk1 hstep
      simp only [beq_self_eq_true, if_true, reduceCtorEq, beq_iff_eq, if_false] at hbk1 hstep ⊢
      obtain ⟨r1, r2, _⟩ := hstep (fun h => by cases h) (fun _ => by omega)
      exact ⟨r1, by omega⟩


/-- C3: in a sequence of `rcu_read_lock` / `rcu_read_unlock` calls of one thread that
starts at `ctr = 0` in a reachable state, never has more unlocks than locks and never
more than `2 ^ 32 - 1` unmatched locks, after the call number `k` the low 32 bits of
the thread's `ctr` are the number of unmatched locks, and the bits from 32 up differ
from those before the call only when the call is an `rcu_read_lock` made at nest
depth `0`. -/
theorem nest_depth_counts_unmatched_locks (s : State) (t : Nat) (ops : List ReadOp)
    (hs : Reachable s) (h0 : (s.readers t).ctr = 0) (hb : balanced ops)
    (k : Nat) (hk : k < ops.length) :
    ((run_read_ops t (ops.take (k + 1)) s).readers t).ctr % 2 ^ 32 =
        unmatched_locks (ops.take (k + 1)) ∧
    (((run_read_ops t (ops.take (k + 1)) s).readers t).ctr / 2 ^ 32 ≠
        ((run_read_ops t (ops.take k) s).readers t).ctr / 2 ^ 32 →
      ops[k] = ReadOp.lock ∧ ((run_read_ops t (ops.take k) s).readers t).ctr % 2 ^ 32 = 0) := by
  have hg := (reachable_gp s hs).1
  refine ⟨(run_read_ops_depth t s ops hg h0 hb (k + 1) hk).2, ?_⟩
  obtain ⟨i1, i2⟩ := run_read_ops_depth t s ops hg h0 hb k (Nat.le_of_lt hk)
  have ht : ops.take (k + 1) = ops.take k ++ [ops[k]] := by
    rw [← List.take_concat_get ops k hk, List.concat_eq_append]
  have hbk := hb k
  have hbk1 := hb (k + 1)
  rw [ht] at hbk1 ⊢
  rw [run_read_ops_append]
  have hrun : run_read_ops t [ops[k]] (run_read_ops t (ops.take k) s) =
      apply_read_op t (run_read_ops t (ops.take k) s) ops[k] := rfl
  rw [hrun]
  have hstep := apply_read_op_step t (run_read_ops t (ops.take k) s) ops[k]
    (unmatched_locks (ops.take k)) (by rw [run_read_ops_gp_ctr]; exact hg) i1 i2
  simp only [unmatched_locks, List.count_append, List.count_singleton] at hbk hbk1 hstep
  intro hne
  cases hop : ops[k] with
  | lock =>
    rw [hop] at hbk1 hstep hne
    simp only [beq_self_eq_true, if_true, reduceCtorEq, beq_iff_eq, if_false] at hbk1 hstep
    obtain ⟨_, _, r3⟩ := hstep (fun _ => by omega) (fun h => by cases h)
    refine ⟨rfl, ?_⟩
    rw [i2]
    exact (r3 hne).2
  | unlock =>
    rw [hop] at hbk1 hstep hne
    simp only [beq_self_eq_true, if_true, reduceCtorEq, beq_iff_eq, if_false] at hbk1 hstep
    obtain ⟨_, _, r3⟩ := hstep (fun h => by cases h) (fun _ => by omega)
    exact absurd (r3 hne).1 (by decide)

/-- The sequence lock, lock, unlock, unlock is balanced. -/
theorem balanced_example :
    balanced [ReadOp.lock, ReadOp.lock, ReadOp.unlock, ReadOp.unlock] := by
  intro k
  match k with
  | 0 => decide
  | 1 => decide
  | 2 => decide
  | 3 => decide
  | k + 4 => simp [List.take, unmatched_locks]

/-- C3 at a concrete input: the second of two nested locks, from program start. -/
theorem nest_depth_counts_unmatched_locks_witness :
    Reachable (init []) ∧ (((init []).readers 7).ctr = 0) ∧
      balanced [ReadOp.lock, ReadOp.lock, ReadOp.unlock, ReadOp.unlock] ∧
      ((run_read_ops 7 [ReadOp.lock, ReadOp.lock] (init [])).readers 7).ctr % 2 ^ 32 = 2 :=
  ⟨Reachable.start [], rfl, balanced_example,
    (nest_depth_counts_unmatched_locks (init []) 7
      [ReadOp.lock, ReadOp.lock, ReadOp.unlock, ReadOp.unlock]
      (Reachable.start []) rfl balanced_example 1 (by decide)).1⟩

/-- C4: in every reachable state the low 32 bits of `gp.ctr` are `1` and `gp.ctr`
differs from its initial value `1` at most in bit 32; so an `rcu_read_lock` made at
nest depth `0` leaves the caller's `ctr` with nest depth exactly `1` and with bit 32
equal to bit 32 of `gp.ctr` at the time of the call. -/
theorem gp_ctr_low_half_one (s : State) (hs : Reachable s) :
    s.gp.ctr % 2 ^ 32 = 1 ∧
    (∀ i : Nat, i ≠ 32 → s.gp.ctr.testBit i = (init []).gp.ctr.testBit i) ∧
    ∀ t : Nat, (s.readers t).ctr % 2 ^ 32 = 0 →
      ((rcu_read_lock t s).readers t).ctr % 2 ^ 32 = 1 ∧
      ((rcu_read_lock t s).readers t).ctr.testBit 32 = s.gp.ctr.testBit 32 := by
  have hg := (reachable_gp s hs).1
  have hlow : s.gp.ctr % 2 ^ 32 = 1 := by rcases hg with h | h <;> rw [h] <;> decide
  refine ⟨hlow, ?_, ?_⟩
  · intro i hi
    rcases hg with h | h
    · rw [h]; rfl
    · rw [h]
      have e : (2 ^ 32 + 1 : Nat) = 2 ^ 32 ^^^ 1 := by decide
      have hi' : (32 = i) = False := by simp; omega
      rw [e, Nat.testBit_xor, Nat.testBit_two_pow]
      simp [hi']
      rfl
  · intro t h0
    rw [rcu_read_lock_eq, set_ctr_ctr, if_pos h0]
    exact ⟨hlow, rfl⟩

/-- C4 at a concrete input: program start, thread `7`. -/
theorem gp_ctr_low_half_one_witness :
    Reachable (init []) ∧ (init []).gp.ctr % 2 ^ 32 = 1 ∧
      ((rcu_read_lock 7 (init [])).readers 7).ctr % 2 ^ 32 = 1 :=
  ⟨Reachable.start [], (gp_ctr_low_half_one (init []) (Reachable.start [])).1,
    ((gp_ctr_low_half_one (init []) (Reachable.start [])).2.2 7 rfl).1⟩


/-! ## Lock `N` times, unlock `N` times -/

/-- An option that is `some` is `some` of its value. -/
theorem some_getD_of_isSome {α : Type} (o : Option α) (d : α) (h : o.isSome = true) :
    o = some (o.getD d) := by
  cases o with
  | none => cases h
  | some x => rfl

/-- After `k + 1` locks from `ctr = 0` the counter is `gp.ctr + k`. -/
theorem iterate_read_lock (t : Nat) (s : State)
    (hg : s.gp.ctr = 1 ∨ s.gp.ctr = 2 ^ 32 + 1) (h0 : (s.readers t).ctr = 0) :
    ∀ k : Nat, k + 1 < 2 ^ 32 → (rcu_read_lock t)^[k + 1] s = set_ctr s t (s.gp.ctr + k) := by
  intro k
  induction k with
  | zero =>
    intro _
    show rcu_read_lock t s = _
    rw [rcu_read_lock_eq, h0]
    rfl
  | succ k ih =>
    intro hk
    rw [Function.iterate_succ_apply', ih (by omega), rcu_read_lock_eq, set_ctr_ctr,
      set_ctr_set_ctr]
    have hne : ¬ (s.gp.ctr + k) % 2 ^ 32 = 0 := by rcases hg with h | h <;> rw [h] <;> omega
    rw [if_neg hne]
    have : (s.gp.ctr + k + 1) % 2 ^ 64 = s.gp.ctr + (k + 1) := by
      rcases hg with h | h <;> rw [h] <;> omega
    rw [this]

/-- From the counter `gp.ctr + k`, `k + 1` unlocks give `gp.ctr - 1` and, with no
writer asleep on the futex, change nothing else. -/
theorem iterate_read_unlock (t : Nat) (s : State)
    (hg : s.gp.ctr = 1 ∨ s.gp.ctr = 2 ^ 32 + 1) (hf : s.gp.futex ≠ -1) :
    ∀ k : Nat, k + 1 < 2 ^ 32 →
      (rcu_read_unlock t)^[k + 1] (set_ctr s t (s.gp.ctr + k)) = set_ctr s t (s.gp.ctr - 1) := by
  intro k
  induction k with
  | zero =>
    intro _
    show rcu_read_unlock t (set_ctr s t (s.gp.ctr + 0)) = _
    rw [rcu_read_unlock_eq t (set_ctr s t (s.gp.ctr + 0)) hf, set_ctr_ctr, set_ctr_set_ctr,
      Nat.add_zero]
    have : (s.gp.ctr + (2 ^ 64 - 1)) % 2 ^ 64 = s.gp.ctr - 1 := by
      rcases hg with h | h <;> rw [h] <;> omega
    rw [this]
  | succ k ih =>
    intro hk
    rw [Function.iterate_succ_apply,
      rcu_read_unlock_eq t (set_ctr s t (s.gp.ctr + (k + 1))) hf, set_ctr_ctr, set_ctr_set_ctr]
    have : (s.gp.ctr + (k + 1) + (2 ^ 64 - 1)) % 2 ^ 64 = s.gp.ctr + k := by
      rcases hg with h | h <;> rw [h] <;> omega
    rw [this]
    exact ih (by omega)

/-! ## `synchronize_rcu` on an empty registry -/

/-- C8: when the registry is empty, the global wait queue is empty (the caller becomes
leader) and nobody holds the two mutexes, `synchronize_rcu` returns (any fuel from `2`
on is enough) with `gp.ctr` and `gp.futex` unchanged, the registry head and every
list node outside the caller's stack unchanged (so the registry is still empty), the
global wait queue empty, both mutexes released and all reader records as before. -/
theorem synchronize_rcu_empty_registry (s : State) (w fuel : Nat) (hw : w ≠ 0)
    (hreg : (s.mem registry_reader_list).next = registry_reader_list)
    (hq : s.gp_waiters = 0) (hgl : s.rcu_gp_lock = false) (hrl : s.rcu_registry_lock = false)
    (hfuel : 2 ≤ fuel) :
    ∃ s' : State, synchronize_rcu fuel w s = some s' ∧ s'.gp = s.gp ∧
      (s'.mem registry_reader_list).next = registry_reader_list ∧
      (∀ a : Nat, a ≠ cur_snap_readers → a ≠ qs_readers → s'.mem a = s.mem a) ∧
      s'.gp_waiters = 0 ∧ s'.rcu_gp_lock = false ∧ s'.rcu_registry_lock = false ∧
      s'.readers = s.readers := by
  obtain ⟨f, rfl⟩ : ∃ f, fuel = f + 2 := ⟨fuel - 2, by omega⟩
  have h1 : registry_reader_list ≠ qs_readers := by decide
  have h2 : registry_reader_list ≠ cur_snap_readers := by decide
  have h3 : ¬ (RCU_WAIT_RUNNING &&& RCU_WAIT_RUNNING = 0) := by decide
  simp only [synchronize_rcu, wait_queue_push, hq, set_wait_state, lock_gp, hgl, wait_queue_move,
    lock_registry, hrl, grace_period, upd_same, upd_other _ _ _ _ h1, upd_other _ _ _ _ h2, hreg,
    unlock_gp, unlock_registry, wake_waiters, hw, h3, ne_eq, not_true_eq_false, if_false, if_true,
    Bool.false_eq_true]
  refine ⟨_, rfl, rfl, ?_, ?_, rfl, rfl, rfl, rfl⟩
  · simp only [upd_other _ _ _ _ h1, upd_other _ _ _ _ h2, hreg]
  · intro a ha hb
    simp only [upd_other _ _ _ _ ha, upd_other _ _ _ _ hb]

/-- C8 at a concrete input: program start, wait node at address `100`. -/
theorem synchronize_rcu_empty_registry_witness :
    ∃ s' : State, synchronize_rcu 2 100 (init []) = some s' ∧ s'.gp = (init []).gp ∧
      (s'.mem registry_reader_list).next = registry_reader_list ∧
      (∀ a : Nat, a ≠ cur_snap_readers → a ≠ qs_readers → s'.mem a = (init []).mem a) ∧
      s'.gp_waiters = 0 ∧ s'.rcu_gp_lock = false ∧ s'.rcu_registry_lock = false ∧
      s'.readers = (init []).readers :=
  synchronize_rcu_empty_registry (init []) 100 2 (by decide) (by decide) rfl rfl rfl (by decide)


/-! ## The one-reader registry -/

/-- The one-reader state has a well-formed registry, whatever the reader's counter. -/
theorem one_reader_state_wf (c : Nat) : registry_wf (one_reader_state c) [4] := by
  refine ⟨⟨?_, by decide⟩, rfl, ?_⟩
  · exact ⟨rfl, rfl, rfl, rfl⟩
  · intro a ha
    have : a = 4 := by simpa using ha
    subst this
    exact ⟨by decide, by decide, by decide, by simp [one_reader_state], by simp [one_reader_state, registry_reader_list], rfl⟩

/-! ## The traversal after a move -/

/-- Fields of a node after a store to some `next` field. -/
theorem set_next_fields (m : Mem) (a v x : Nat) :
    (set_next m a v x).next = (if x = a then v else (m x).next) ∧
    (set_next m a v x).prev = (m x).prev ∧ (set_next m a v x).node = (m x).node := by
  unfold set_next upd
  by_cases h : x = a
  · subst h; simp
  · simp [h]

/-- Fields of a node after a store to some `prev` field. -/
theorem set_prev_fields (m : Mem) (a v x : Nat) :
    (set_prev m a v x).next = (m x).next ∧
    (set_prev m a v x).prev = (if x = a then v else (m x).prev) ∧
    (set_prev m a v x).node = (m x).node := by
  unfold set_prev upd
  by_cases h : x = a
  · subst h; simp
  · simp [h]

/-- The function `reader_move` writes no `node` field. -/
theorem reader_move_node (src dst : Nat) (m : Mem) (x : Nat) :
    (reader_move src dst m x).node = (m x).node := by
  unfold reader_move
  simp only [(set_next_fields _ _ _ _).2.2, (set_prev_fields _ _ _ _).2.2]

/-- Moving `src` to a list head `dst` whose `prev` points to itself (as it does in an
empty list) leaves `src->next` pointing to `src` itself: the third statement,
`dst->prev->next = src`, stores into `dst->next`, and the fourth then copies that
value into `src->next`.  The head's `prev` still points to the head. -/
theorem reader_move_self_loop (src dst : Nat) (m : Mem) (hd : (m dst).prev = dst)
    (hsd : src ≠ dst) (hn : (m src).next ≠ dst) :
    (reader_move src dst m src).next = src ∧ (reader_move src dst m dst).prev = dst := by
  unfold reader_move
  simp only [(set_next_fields _ _ _ _).1, (set_next_fields _ _ _ _).2.1,
    (set_prev_fields _ _ _ _).1, (set_prev_fields _ _ _ _).2.1, if_true, hd]
  have hds : dst ≠ src := fun h => hsd h.symm
  have hdn : dst ≠ (m src).next := fun h => hn h.symm
  simp [hsd, hds, hdn, hd]


/-- In a list linked from `a` to `b` through the nodes `l`, the successor of `a` is the
first node of `l`, or `b` when there is none. -/
theorem Linked_next (m : Mem) (a b : Nat) (l : List Nat) (h : Linked m a l b) :
    (m a).next ∈ l ++ [b] := by
  cases l with
  | nil => simp [h.1]
  | cons x xs => simp [h.1]

/-! ## Linked lists in memory -/

/-- Being linked depends only on the `next` fields of the start and the nodes and on the
`prev` fields of the nodes and the end. -/
theorem Linked_congr (m m' : Mem) (b : Nat) :
    ∀ (l : List Nat) (a : Nat),
      (∀ x ∈ a :: l, (m' x).next = (m x).next) → (∀ x ∈ l ++ [b], (m' x).prev = (m x).prev) →
      Linked m a l b → Linked m' a l b := by
  intro l
  induction l with
  | nil =>
    intro a hn hp h
    exact ⟨by rw [hn a (by simp)]; exact h.1, by rw [hp b (by simp)]; exact h.2⟩
  | cons x xs ih =>
    intro a hn hp h
    refine ⟨by rw [hn a (by simp)]; exact h.1, by rw [hp x (by simp)]; exact h.2.1, ?_⟩
    exact ih x (fun y hy => hn y (List.mem_cons_of_mem a hy))
      (fun y hy => hp y (by simp at hy ⊢; tauto)) h.2.2

/-- A linked list through `l1 ++ a :: l2` is a linked list to `a` and one from `a`. -/
theorem Linked_append (m : Mem) (a b : Nat) (l2 : List Nat) :
    ∀ (l1 : List Nat) (s : Nat),
      Linked m s (l1 ++ a :: l2) b ↔ Linked m s l1 a ∧ Linked m a l2 b := by
  intro l1
  induction l1 with
  | nil =>
    intro s
    simp only [List.nil_append, Linked]
    tauto
  | cons x xs ih =>
    intro s
    show Linked m s (x :: (xs ++ a :: l2)) b ↔ _
    simp only [Linked, ih x]
    tauto

/-- The predecessor of the end of a linked list is its last node, or the start. -/
theorem Linked_prev (m : Mem) (b : Nat) :
    ∀ (l : List Nat) (a : Nat), Linked m a l b → (m b).prev ∈ a :: l := by
  intro l
  induction l with
  | nil => intro a h; simp [h.2]
  | cons x xs ih => intro a h; exact List.mem_cons_of_mem a (ih x h.2.2)

/-- Reading an updated memory. -/
theorem upd_apply {α : Type} (m : Nat → α) (a x : Nat) (v : α) :
    upd m a v x = if x = a then v else m x := rfl

/-- Fields of a node after a store to some `node` field. -/
theorem set_node_fields (m : Mem) (a v x : Nat) :
    (set_node m a v x).next = (m x).next ∧ (set_node m a v x).prev = (m x).prev ∧
    (set_node m a v x).node = (if x = a then v else (m x).node) := by
  unfold set_node upd
  by_cases h : x = a
  · subst h; simp
  · simp [h]

/-- Memory after `reader_add` at the registry head, whose first node (or the head
itself, in an empty registry) is `h`. -/
theorem reader_add_mem (t p h : Nat) (s : State) (hp : p ≠ registry_reader_list)
    (hgen : (s.mem registry_reader_list).next = h) (hh : h ≠ p) :
    ((reader_add t p registry_reader_list s).mem p).next = h ∧
    ((reader_add t p registry_reader_list s).mem p).prev = registry_reader_list ∧
    ((reader_add t p registry_reader_list s).mem p).node = t ∧
    ((reader_add t p registry_reader_list s).mem registry_reader_list).next = p ∧
    ((reader_add t p registry_reader_list s).mem registry_reader_list).node =
      (s.mem registry_reader_list).node ∧
    ((reader_add t p registry_reader_list s).mem registry_reader_list).prev =
      (if h = registry_reader_list then p else (s.mem registry_reader_list).prev) ∧
    ∀ x : Nat, x ≠ p → x ≠ registry_reader_list →
      ((reader_add t p registry_reader_list s).mem x).next = (s.mem x).next ∧
      ((reader_add t p registry_reader_list s).mem x).node = (s.mem x).node ∧
      ((reader_add t p registry_reader_list s).mem x).prev =
        (if x = h then p else (s.mem x).prev) := by
  have hp' : registry_reader_list ≠ p := fun e => hp e.symm
  have hh' : p ≠ h := fun e => hh e.symm
  have e : (reader_add t p registry_reader_list s).mem =
      set_next (set_prev (set_next (set_prev (set_node (upd s.mem p
        { next := 0, prev := 0, node := 0 }) p t) h p) p h) p registry_reader_list)
        registry_reader_list p := by
    simp only [reader_add, (set_prev_fields _ _ _ _).1, (set_node_fields _ _ _ _).1,
      upd_other _ _ _ _ hp', hgen]
  rw [e]
  simp only [(set_next_fields _ _ _ _).1, (set_next_fields _ _ _ _).2.1,
    (set_next_fields _ _ _ _).2.2, (set_prev_fields _ _ _ _).1, (set_prev_fields _ _ _ _).2.1,
    (set_prev_fields _ _ _ _).2.2, (set_node_fields _ _ _ _).1, (set_node_fields _ _ _ _).2.1,
    (set_node_fields _ _ _ _).2.2, upd_apply, if_neg hp, if_neg hp', if_neg hh, if_neg hh', if_true]
  refine ⟨trivial, trivial, trivial, trivial, trivial, ?_, ?_⟩
  · split_ifs with c1 c2 c2
    · rfl
    · exact absurd c1.symm c2
    · exact absurd c2.symm c1
    · rfl
  · intro x hx1 hx2
    simp only [if_neg hx1, if_neg hx2, and_self, true_and]


/-! ## Registration -/

/-- The call `rcu_register_thread` with the registry mutex free: it runs `reader_add` on a
state that differs from the starting one only in the caller's `tid` and `registered`
fields, the mutex and the trace. -/
theorem rcu_register_thread_eq (s : State) (t p : Nat) (hlock : s.rcu_registry_lock = false)
    (hp0 : p ≠ 0) :
    ∃ s0 : State, s0.mem = s.mem ∧ s0.live = s.live ∧
      (∀ u : Nat, u ≠ t → s0.readers u = s.readers u) ∧ (s0.readers t).registered = 1 ∧
      rcu_register_thread t p s =
        some (unlock_registry (reader_add t p registry_reader_list s0)) := by
  refine ⟨{ s with
      readers := upd (upd s.readers t { s.readers t with tid := t }) t
        { (upd s.readers t { s.readers t with tid := t }) t with registered := 1 }
      rcu_registry_lock := true
      trace := s.trace ++ [Event.registry_lock] }, rfl, rfl, ?_, ?_, ?_⟩
  · intro u hu
    show upd (upd s.readers t _) t _ u = s.readers u
    rw [upd_other _ _ _ _ hu, upd_other _ _ _ _ hu]
  · show (upd (upd s.readers t _) t _ t).registered = 1
    rw [upd_same]
  · simp only [rcu_register_thread, lock_registry, hlock, if_neg hp0, Bool.false_eq_true,
      if_false]

/-- Registering a thread whose record is not in the registry: the new node goes in front,
the registry stays well formed, the other nodes keep their order and their records. -/
theorem rcu_register_thread_wf (s : State) (l : List Nat) (t p : Nat)
    (hwf : registry_wf s l) (hlock : s.rcu_registry_lock = false) (ht : t ≠ 0)
    (hfresh : fresh s p) (hnew : ∀ a ∈ l, (s.mem a).node ≠ t) :
    ∃ s1 : State, rcu_register_thread t p s = some s1 ∧ registry_wf s1 (p :: l) ∧
      registry_records s1 (p :: l) = t :: registry_records s l ∧
      (s1.readers t).registered = 1 ∧ (s1.readers t).list = p ∧ (s1.mem p).node = t ∧
      s1.rcu_registry_lock = false := by
  obtain ⟨hp0, hpreg, hpcur, hpqs, hplive⟩ := hfresh
  obtain ⟨⟨hl, hnd⟩, hsent, hnodes⟩ := hwf
  obtain ⟨s0, hmem, hlive, hothers, hregd, heq⟩ := rcu_register_thread_eq s t p hlock hp0
  have hpl : p ∉ l := fun h => hplive (hnodes p h).2.2.2.1
  have hregl : registry_reader_list ∉ l := (List.nodup_cons.1 hnd).1
  have hndl : l.Nodup := (List.nodup_cons.1 hnd).2
  have hhp : (s0.mem registry_reader_list).next ≠ p := by
    rw [hmem]
    have := Linked_next s.mem _ _ l hl
    intro e; rw [e] at this
    simp at this
    rcases this with h | h
    · exact hpl h
    · exact hpreg h
  obtain ⟨a1, a2, a3, a4, a5, a6, a7⟩ :=
    reader_add_mem t p _ s0 hpreg rfl hhp
  rw [hmem] at a1 a5 a6 a7
  -- the new state
  refine ⟨_, heq, ⟨⟨⟨a4, a2, ?_⟩, ?_⟩, ?_, ?_⟩, ?_, ?_, ?_, a3, rfl⟩
  · -- the old nodes are still linked, now from `p`
    show Linked (reader_add t p registry_reader_list s0).mem p l registry_reader_list
    cases l with
    | nil =>
      have hh : (s.mem registry_reader_list).next = registry_reader_list := hl.1
      exact ⟨by rw [a1, hh], by rw [a6, if_pos hh]⟩
    | cons x xs =>
      have hh : (s.mem registry_reader_list).next = x := hl.1
      have hxp : x ≠ p := fun e => hpl (by rw [← e]; exact List.mem_cons_self x xs)
      have hxr : x ≠ registry_reader_list :=
        fun e => hregl (by rw [← e]; exact List.mem_cons_self x xs)
      have hxxs : x ∉ xs := (List.nodup_cons.1 hndl).1
      refine ⟨by rw [a1, hh], ?_, ?_⟩
      · rw [(a7 x hxp hxr).2.2, hh, if_pos rfl]
      · apply Linked_congr s.mem _ _ xs x _ _ hl.2.2
        · intro y hy
          have hyp : y ≠ p := fun e => hpl (by rw [← e]; exact hy)
          have hyr : y ≠ registry_reader_list := fun e => hregl (by rw [← e]; exact hy)
          exact (a7 y hyp hyr).1
        · intro y hy
          rw [List.mem_append] at hy
          rcases hy with hy | hy
          · have hyl : y ∈ x :: xs := List.mem_cons_of_mem x hy
            have hyp : y ≠ p := fun e => hpl (by rw [← e]; exact hyl)
            have hyr : y ≠ registry_reader_list := fun e => hregl (by rw [← e]; exact hyl)
            have hyx : y ≠ x := fun e => hxxs (by rw [← e]; exact hy)
            rw [(a7 y hyp hyr).2.2, hh, if_neg hyx]
          · have : y = registry_reader_list := by simpa using hy
            rw [this, a6, hh, if_neg hxr]
  · -- no node twice
    show (registry_reader_list :: p :: l).Nodup
    refine List.nodup_cons.2 ⟨?_, List.nodup_cons.2 ⟨hpl, hndl⟩⟩
    intro h
    rcases List.mem_cons.1 h with h | h
    · exact hpreg h.symm
    · exact hregl h
  · show ((reader_add t p registry_reader_list s0).mem registry_reader_list).node = 0
    rw [a5]; exact hsent
  · intro b hb
    rcases List.mem_cons.1 hb with hb | hb
    · subst hb
      refine ⟨hp0, hpcur, hpqs, ?_, ?_, ?_⟩
      · show b ∈ b :: s0.live
        exact List.mem_cons_self _ _
      · show ((reader_add t b registry_reader_list s0).mem b).node ≠ 0
        rw [a3]; exact ht
      · show ((upd s0.readers t _) ((reader_add t b registry_reader_list s0).mem b).node).list = b
        rw [a3, upd_same]
    · obtain ⟨b0, bcur, bqs, blive, bnode, bback⟩ := hnodes b hb
      have hbp : b ≠ p := fun e => hpl (by rw [← e]; exact hb)
      have hbr : b ≠ registry_reader_list := fun e => hregl (by rw [← e]; exact hb)
      have hnode : ((reader_add t p registry_reader_list s0).mem b).node = (s.mem b).node := by
        rw [(a7 b hbp hbr).2.1]
      refine ⟨b0, bcur, bqs, ?_, ?_, ?_⟩
      · show b ∈ p :: s0.live
        rw [hlive]; exact List.mem_cons_of_mem p blive
      · show ((reader_add t p registry_reader_list s0).mem b).node ≠ 0
        rw [hnode]; exact bnode
      · show ((upd s0.readers t _) ((reader_add t p registry_reader_list s0).mem b).node).list = b
        rw [hnode, upd_other _ _ _ _ (hnew b hb), hothers _ (hnew b hb)]
        exact bback
  · show List.map (fun a => ((reader_add t p registry_reader_list s0).mem a).node) (p :: l) =
      t :: List.map (fun a => (s.mem a).node) l
    rw [List.map_cons, a3]
    congr 1
    apply List.map_congr_left
    intro b hb
    have hbp : b ≠ p := fun e => hpl (by rw [← e]; exact hb)
    have hbr : b ≠ registry_reader_list := fun e => hregl (by rw [← e]; exact hb)
    rw [(a7 b hbp hbr).2.1]
  · show ((upd s0.readers t _) t).registered = 1
    rw [upd_same]; exact hregd
  · show ((upd s0.readers t _) t).list = p
    rw [upd_same]


/-! ## Unregistration -/

/-- Unlinking the node `a` from a linked list. -/
theorem Linked_unlink (m : Mem) (a e : Nat) (l2 : List Nat) :
    ∀ (l1 : List Nat) (s0 : Nat), Linked m s0 (l1 ++ a :: l2) e →
      (s0 :: (l1 ++ a :: l2)).Nodup → e ∉ l1 ++ a :: l2 →
      Linked (set_next (set_prev m (m a).next (m a).prev) (m a).prev (m a).next) s0
        (l1 ++ l2) e := by
  intro l1
  induction l1 with
  | nil =>
    intro s0 h hnd he
    simp only [List.nil_append] at h hnd he ⊢
    obtain ⟨h1, h2, h3⟩ := h
    obtain ⟨hs0, hnd'⟩ := List.nodup_cons.1 hnd
    obtain ⟨hal2, hnd2⟩ := List.nodup_cons.1 hnd'
    rw [h2]
    cases l2 with
    | nil =>
      obtain ⟨h4, _⟩ := h3
      rw [h4]
      refine ⟨?_, ?_⟩
      · rw [(set_next_fields _ _ _ _).1, if_pos rfl]
      · rw [(set_next_fields _ _ _ _).2.1, (set_prev_fields _ _ _ _).2.1, if_pos rfl]
    | cons y ys =>
      obtain ⟨h4, _, h6⟩ := h3
      rw [h4]
      have hys : y ∉ ys := (List.nodup_cons.1 hnd2).1
      refine ⟨?_, ?_, ?_⟩
      · rw [(set_next_fields _ _ _ _).1, if_pos rfl]
      · rw [(set_next_fields _ _ _ _).2.1, (set_prev_fields _ _ _ _).2.1, if_pos rfl]
      · apply Linked_congr m _ _ ys y _ _ h6
        · intro z hz
          have hz0 : z ≠ s0 := by
            intro e1; apply hs0; rw [← e1]; exact List.mem_cons_of_mem a hz
          rw [(set_next_fields _ _ _ _).1, if_neg hz0, (set_prev_fields _ _ _ _).1]
        · intro z hz
          have hzy : z ≠ y := by
            rw [List.mem_append] at hz
            rcases hz with hz | hz
            · intro e1; apply hys; rw [← e1]; exact hz
            · have : z = e := by simpa using hz
              intro e1; apply he; rw [← this, e1]
              exact List.mem_cons_of_mem a (List.mem_cons_self y ys)
          rw [(set_next_fields _ _ _ _).2.1, (set_prev_fields _ _ _ _).2.1, if_neg hzy]
  | cons x xs ih =>
    intro s0 h hnd he
    have h' : Linked m s0 (x :: (xs ++ a :: l2)) e := h
    obtain ⟨h1, h2, h3⟩ := h'
    have hnd' : (s0 :: x :: (xs ++ a :: l2)).Nodup := hnd
    obtain ⟨hs0, hndx⟩ := List.nodup_cons.1 hnd'
    have he' : e ∉ x :: (xs ++ a :: l2) := he
    have hrec := ih x h3 hndx (fun hmem => he' (List.mem_cons_of_mem x hmem))
    obtain ⟨k1, k2⟩ := (Linked_append m a e l2 xs x).1 h3
    have hpv : (m a).prev ∈ x :: xs := Linked_prev m a xs x k1
    have hn : (m a).next ∈ l2 ++ [e] := Linked_next m a e l2 k2
    have hs0pv : s0 ≠ (m a).prev := by
      intro e1; apply hs0; rw [e1]
      rcases List.mem_cons.1 hpv with hp | hp
      · rw [hp]; exact List.mem_cons_self _ _
      · exact List.mem_cons_of_mem x (List.mem_append_left _ hp)
    have hxn : x ≠ (m a).next := by
      intro e1
      rw [← e1, List.mem_append] at hn
      rcases hn with hn | hn
      · have := (List.nodup_cons.1 hndx).1
        apply this
        exact List.mem_append_right xs (List.mem_cons_of_mem a hn)
      · have : x = e := by simpa using hn
        apply he'; rw [← this]; exact List.mem_cons_self _ _
    show Linked _ s0 (x :: (xs ++ l2)) e
    refine ⟨?_, ?_, hrec⟩
    · rw [(set_next_fields _ _ _ _).1, if_neg hs0pv, (set_prev_fields _ _ _ _).1]; exact h1
    · rw [(set_next_fields _ _ _ _).2.1, (set_prev_fields _ _ _ _).2.1, if_neg hxn]; exact h2

/-- The call `rcu_unregister_thread` by a thread whose back-pointer is the node `a`, with
the registry mutex free. -/
theorem rcu_unregister_thread_eq (s : State) (t a : Nat) (hlock : s.rcu_registry_lock = false)
    (hlist : (s.readers t).list = a) (ha0 : a ≠ 0) :
    ∃ s3 : State, rcu_unregister_thread t s = some s3 ∧
      s3.mem = set_next (set_prev s.mem (s.mem a).next (s.mem a).prev) (s.mem a).prev
        (s.mem a).next ∧
      s3.live = s.live.erase a ∧ (∀ u : Nat, u ≠ t → s3.readers u = s.readers u) ∧
      (s3.readers t).registered = 0 ∧ (s3.readers t).list = 0 ∧
      s3.rcu_registry_lock = false := by
  have hpv : (set_prev s.mem (s.mem a).next (s.mem a).prev a).prev = (s.mem a).prev := by
    rw [(set_prev_fields _ _ _ _).2.1]
    split <;> rfl
  simp only [rcu_unregister_thread, lock_registry, hlock, reader_del, upd_same, if_neg ha0,
    unlock_registry, Bool.false_eq_true, if_false, hlist, hpv, (set_prev_fields _ _ _ _).1]
  refine ⟨_, rfl, rfl, rfl, ?_, ?_, ?_, rfl⟩
  · intro u hu
    show upd (upd s.readers t _) t _ u = s.readers u
    rw [upd_other _ _ _ _ hu, upd_other _ _ _ _ hu]
  · show (upd (upd s.readers t _) t _ t).registered = 0
    rw [upd_same]
  · show (upd (upd s.readers t _) t _ t).list = 0
    rw [upd_same]


/-- Unregistering the thread whose node is `a`: exactly that node leaves the registry,
which stays well formed; the other nodes keep their order and their records. -/
theorem rcu_unregister_thread_wf (s : State) (l1 l2 : List Nat) (a : Nat)
    (hwf : registry_wf s (l1 ++ a :: l2)) (hlock : s.rcu_registry_lock = false) :
    ∃ s3 : State, rcu_unregister_thread (s.mem a).node s = some s3 ∧
      registry_wf s3 (l1 ++ l2) ∧
      registry_records s3 (l1 ++ l2) = registry_records s l1 ++ registry_records s l2 ∧
      (s3.readers (s.mem a).node).registered = 0 ∧ (s3.readers (s.mem a).node).list = 0 ∧
      s3.rcu_registry_lock = false := by
  obtain ⟨⟨hl, hnd⟩, hsent, hnodes⟩ := hwf
  have hamem : a ∈ l1 ++ a :: l2 := List.mem_append_right l1 (List.mem_cons_self a l2)
  obtain ⟨ha0, _, _, _, _, haback⟩ := hnodes a hamem
  obtain ⟨s3, heq, hmem, hlive, hothers, hregd, hlist, hunlock⟩ :=
    rcu_unregister_thread_eq s (s.mem a).node a hlock haback ha0
  obtain ⟨hregl, hndl⟩ := List.nodup_cons.1 hnd
  have hsub : (l1 ++ l2).Sublist (l1 ++ a :: l2) :=
    List.Sublist.append_left (List.sublist_cons_self a l2) l1
  have hnode : ∀ x : Nat, (s3.mem x).node = (s.mem x).node := by
    intro x
    rw [hmem, (set_next_fields _ _ _ _).2.2, (set_prev_fields _ _ _ _).2.2]
  have hane : ∀ b ∈ l1 ++ l2, b ≠ a := by
    intro b hb e
    subst e
    have h1 := List.nodup_append.1 hndl
    rcases List.mem_append.1 hb with hb | hb
    · exact h1.2.2 hb (List.mem_cons_self b l2)
    · exact (List.nodup_cons.1 h1.2.1).1 hb
  refine ⟨s3, heq, ⟨⟨?_, ?_⟩, ?_, ?_⟩, ?_, hregd, hlist, hunlock⟩
  · rw [hmem]
    exact Linked_unlink s.mem a registry_reader_list l2 l1 registry_reader_list hl hnd hregl
  · exact List.nodup_cons.2 ⟨fun h => hregl (hsub.subset h), hndl.sublist hsub⟩
  · rw [hnode]; exact hsent
  · intro b hb
    obtain ⟨b0, bcur, bqs, blive, bnode, bback⟩ := hnodes b (hsub.subset hb)
    have hba : b ≠ a := hane b hb
    have hnt : (s.mem b).node ≠ (s.mem a).node := by
      intro e
      apply hba
      rw [← bback, e, haback]
    refine ⟨b0, bcur, bqs, ?_, ?_, ?_⟩
    · rw [hlive]; exact (List.mem_erase_of_ne hba).2 blive
    · rw [hnode]; exact bnode
    · rw [hnode, hothers _ hnt]; exact bback
  · show List.map (fun x => (s3.mem x).node) (l1 ++ l2) =
      List.map (fun x => (s.mem x).node) l1 ++ List.map (fun x => (s.mem x).node) l2
    rw [← List.map_append]
    apply List.map_congr_left
    intro b _
    exact hnode b

/-- C7: on a well-formed registry with the registry mutex free, `rcu_register_thread`
called by a thread `t` whose record is not in the registry puts exactly one new node `p`
for that record in front of the others, sets `registered = 1` and the back-pointer to
`p`; `rcu_unregister_thread` called by the thread of any registry node `a` takes exactly
that node out, clears `registered` and nulls the back-pointer.  Both leave a well-formed
registry in which the other nodes keep their order and their records, and both return
the mutex; so registering and then unregistering `t` gives back the registry's
nodes and records. -/
theorem register_unregister_registry (s : State) (l : List Nat) (t p : Nat)
    (hwf : registry_wf s l) (hlock : s.rcu_registry_lock = false) (ht : t ≠ 0)
    (hfresh : fresh s p) (hnew : ∀ a ∈ l, (s.mem a).node ≠ t) :
    (∃ s1 : State, rcu_register_thread t p s = some s1 ∧ registry_wf s1 (p :: l) ∧
      registry_records s1 (p :: l) = t :: registry_records s l ∧
      (s1.readers t).registered = 1 ∧ (s1.readers t).list = p ∧ (s1.mem p).node = t ∧
      ∃ s2 : State, rcu_unregister_thread t s1 = some s2 ∧ registry_wf s2 l ∧
        registry_records s2 l = registry_records s l ∧
        (s2.readers t).registered = 0 ∧ (s2.readers t).list = 0) ∧
    (∀ (l1 l2 : List Nat) (a : Nat), l = l1 ++ a :: l2 →
      ∃ s3 : State, rcu_unregister_thread (s.mem a).node s = some s3 ∧
        registry_wf s3 (l1 ++ l2) ∧
        registry_records s3 (l1 ++ l2) = registry_records s l1 ++ registry_records s l2 ∧
        (s3.readers (s.mem a).node).registered = 0 ∧ (s3.readers (s.mem a).node).list = 0) := by
  constructor
  · obtain ⟨s1, h1, w1, r1, g1, b1, n1, u1⟩ := rcu_register_thread_wf s l t p hwf hlock ht hfresh hnew
    refine ⟨s1, h1, w1, r1, g1, b1, n1, ?_⟩
    obtain ⟨s2, h2, w2, r2, g2, b2, _⟩ := rcu_unregister_thread_wf s1 [] l p w1 u1
    rw [n1] at h2 g2 b2
    refine ⟨s2, h2, w2, ?_, g2, b2⟩
    have e1 : registry_records s2 l = registry_records s1 l := by simpa [registry_records] using r2
    have e2 : registry_records s1 l = registry_records s l := by
      have := r1
      simp only [registry_records, List.map_cons, List.cons.injEq] at this
      exact this.2
    rw [e1, e2]
  · intro l1 l2 a hla
    subst hla
    obtain ⟨s3, h3, w3, r3, g3, b3, _⟩ := rcu_unregister_thread_wf s l1 l2 a hwf hlock
    exact ⟨s3, h3, w3, r3, g3, b3⟩

/-- Thread `11` and the address `5` are new to the one-reader state. -/
theorem one_reader_state_fresh (c : Nat) :
    fresh (one_reader_state c) 5 ∧ ∀ a ∈ [4], ((one_reader_state c).mem a).node ≠ 11 := by
  refine ⟨⟨by decide, by decide, by decide, by decide, by simp [one_reader_state]⟩, ?_⟩
  intro a ha
  have : a = 4 := by simpa using ha
  subst this
  simp [one_reader_state, registry_reader_list]

/-- C7 at a concrete input: thread `11` registers with the new node `5` next to the
registered thread `10`, whose node is `4`. -/
theorem register_unregister_registry_witness :
    registry_wf (one_reader_state 0) [4] ∧ (one_reader_state 0).rcu_registry_lock = false ∧
    fresh (one_reader_state 0) 5 ∧
    (∃ s1 : State, rcu_register_thread 11 5 (one_reader_state 0) = some s1 ∧
      registry_wf s1 [5, 4] ∧ (s1.readers 11).registered = 1 ∧ (s1.readers 11).list = 5) ∧
    (∃ s3 : State, rcu_unregister_thread 10 (one_reader_state 0) = some s3 ∧
      registry_wf s3 [] ∧ (s3.readers 10).registered = 0 ∧ (s3.readers 10).list = 0) := by
  have h := register_unregister_registry (one_reader_state 0) [4] 11 5 (one_reader_state_wf 0)
    rfl (by decide) (one_reader_state_fresh 0).1 (one_reader_state_fresh 0).2
  refine ⟨one_reader_state_wf 0, rfl, (one_reader_state_fresh 0).1, ?_, ?_⟩
  · obtain ⟨s1, h1, w1, _, g1, b1, _⟩ := h.1
    exact ⟨s1, h1, w1, g1, b1⟩
  · obtain ⟨s3, h3, w3, _, g3, b3⟩ := h.2 [] [] 4 rfl
    exact ⟨s3, h3, w3, g3, b3⟩


/-! ## The traversal over a well-formed list -/

/-- What the `switch` of the traversal does with a node that carries a reader. -/
theorem classify_and_move_eq (cur_snap qs it : Nat) (s : State) (hnode : (s.mem it).node ≠ 0) :
    classify_and_move cur_snap qs it s =
      match move_target cur_snap qs (reader_state s.gp (s.readers (s.mem it).node)) with
      | some d => { s with mem := reader_move it d s.mem }
      | none => s := by
  unfold classify_and_move
  rw [if_pos hnode]
  cases reader_state s.gp (s.readers (s.mem it).node) with
  | RCU_READER_ACTIVE_CURRENT =>
    simp only [move_target]
    split <;> rfl
  | RCU_READER_ACTIVE_OLD => rfl
  | RCU_READER_INACTIVE => rfl

/-- Once the traversal stands on a node that it moves to the head `d` of an empty list,
and whose `next` does not lead to `d`, it finds the node's `next` pointing to the node
itself after the move, and moves it again, for ever. -/
theorem scan_readers_stuck_at (input_readers cur_snap qs it d : Nat)
    (h0 : it ≠ 0) (hin : it ≠ input_readers) (hd : it ≠ d) :
    ∀ (fuel : Nat) (s : State), (s.mem it).node ≠ 0 →
      move_target cur_snap qs (reader_state s.gp (s.readers (s.mem it).node)) = some d →
      (s.mem it).next ≠ d → (s.mem d).prev = d →
      scan_readers fuel input_readers cur_snap qs it s = none := by
  intro fuel
  induction fuel with
  | zero => intro s _ _ _ _; rfl
  | succ n ih =>
    intro s hnode htarget hnext hprev
    obtain ⟨m1, m2⟩ := reader_move_self_loop it d s.mem hprev hd hnext
    have hn := reader_move_node it d s.mem it
    have hc : classify_and_move cur_snap qs it s = { s with mem := reader_move it d s.mem } := by
      rw [classify_and_move_eq cur_snap qs it s hnode, htarget]
    simp only [scan_readers, if_neg h0, hc, m1, if_neg hin]
    apply ih
    · show (reader_move it d s.mem it).node ≠ 0
      rw [hn]; exact hnode
    · show move_target cur_snap qs
        (reader_state s.gp (s.readers (reader_move it d s.mem it).node)) = some d
      rw [hn]; exact htarget
    · show (reader_move it d s.mem it).next ≠ d
      rw [m1]; exact hd
    · exact m2

/-- The destination of a move is one of the two list heads passed. -/
theorem move_target_mem (cur_snap qs d : Nat) (st : rcu_reader_state)
    (h : move_target cur_snap qs st = some d) : d = cur_snap ∨ d = qs := by
  cases st with
  | RCU_READER_ACTIVE_CURRENT =>
    simp only [move_target, Option.some.injEq] at h
    split at h
    · exact Or.inl h.symm
    · exact Or.inr h.symm
  | RCU_READER_ACTIVE_OLD => cases h
  | RCU_READER_INACTIVE =>
    simp only [move_target, Option.some.injEq] at h
    exact Or.inr h.symm

/-- Nothing is moved exactly for a reader in the old phase. -/
theorem move_target_none (cur_snap qs : Nat) (st : rcu_reader_state) :
    move_target cur_snap qs st = none ↔ st = rcu_reader_state.RCU_READER_ACTIVE_OLD := by
  cases st <;> simp [move_target]

/-- A traversal pass of the first scan over the rest `a :: l` of a well-formed registry,
with both transient lists still empty: if it comes back, it has changed nothing and
every reader on its way is in the old phase. -/
theorem scan_readers_sound :
    ∀ (l : List Nat) (a fuel : Nat) (s s' : State),
      Linked s.mem a l registry_reader_list →
      (∀ b ∈ a :: l, b ≠ 0 ∧ b ≠ registry_reader_list ∧ b ≠ cur_snap_readers ∧ b ≠ qs_readers ∧
        (s.mem b).node ≠ 0) →
      (s.mem cur_snap_readers).prev = cur_snap_readers → (s.mem qs_readers).prev = qs_readers →
      scan_readers fuel registry_reader_list cur_snap_readers qs_readers a s = some s' →
      s' = s ∧ ∀ b ∈ a :: l, reader_state s.gp (s.readers (s.mem b).node) =
        rcu_reader_state.RCU_READER_ACTIVE_OLD := by
  intro l
  induction l with
  | nil =>
    intro a fuel s s' hl hn hcur hqs h
    obtain ⟨a0, areg, acur, aqs, anode⟩ := hn a (List.mem_cons_self a [])
    cases htar : move_target cur_snap_readers qs_readers
        (reader_state s.gp (s.readers (s.mem a).node)) with
    | some d =>
      have hd := move_target_mem _ _ _ _ htar
      have hnext : (s.mem a).next ≠ d := by
        rw [hl.1]; rcases hd with e | e <;> rw [e] <;> decide
      have had : a ≠ d := by rcases hd with e | e <;> rw [e] <;> assumption
      have hprev : (s.mem d).prev = d := by rcases hd with e | e <;> rw [e] <;> assumption
      rw [scan_readers_stuck_at _ _ _ _ d a0 areg had fuel s anode htar hnext hprev] at h
      cases h
    | none =>
      have hold := (move_target_none _ _ _).1 htar
      cases fuel with
      | zero => cases h
      | succ n =>
        have hc : classify_and_move cur_snap_readers qs_readers a s = s := by
          rw [classify_and_move_eq _ _ _ _ anode, htar]
        simp only [scan_readers, if_neg a0, hc, hl.1, if_true] at h
        cases h
        refine ⟨rfl, ?_⟩
        intro b hb
        have : b = a := by simpa using hb
        rw [this]; exact hold
  | cons x xs ih =>
    intro a fuel s s' hl hn hcur hqs h
    obtain ⟨a0, areg, acur, aqs, anode⟩ := hn a (List.mem_cons_self a _)
    obtain ⟨x0, xreg, xcur, xqs, xnode⟩ := hn x (List.mem_cons_of_mem a (List.mem_cons_self x xs))
    cases htar : move_target cur_snap_readers qs_readers
        (reader_state s.gp (s.readers (s.mem a).node)) with
    | some d =>
      have hd := move_target_mem _ _ _ _ htar
      have hnext : (s.mem a).next ≠ d := by
        rw [hl.1]; rcases hd with e | e <;> rw [e] <;> assumption
      have had : a ≠ d := by rcases hd with e | e <;> rw [e] <;> assumption
      have hprev : (s.mem d).prev = d := by rcases hd with e | e <;> rw [e] <;> assumption
      rw [scan_readers_stuck_at _ _ _ _ d a0 areg had fuel s anode htar hnext hprev] at h
      cases h
    | none =>
      have hold := (move_target_none _ _ _).1 htar
      cases fuel with
      | zero => cases h
      | succ n =>
        have hc : classify_and_move cur_snap_readers qs_readers a s = s := by
          rw [classify_and_move_eq _ _ _ _ anode, htar]
        simp only [scan_readers, if_neg a0, hc, hl.1, if_neg xreg] at h
        obtain ⟨e, hrest⟩ := ih x n s s' hl.2.2
          (fun b hb => hn b (List.mem_cons_of_mem a hb)) hcur hqs h
        refine ⟨e, ?_⟩
        intro b hb
        rcases List.mem_cons.1 hb with hb | hb
        · rw [hb]; exact hold
        · exact hrest b hb

/-- A traversal pass over the rest `a :: l` of a well-formed list of old-phase readers
comes back, with enough fuel, and changes nothing. -/
theorem scan_readers_all_old (input_readers cur_snap qs : Nat) :
    ∀ (l : List Nat) (a fuel : Nat) (s : State),
      Linked s.mem a l input_readers →
      (∀ b ∈ a :: l, b ≠ 0 ∧ b ≠ input_readers ∧ (s.mem b).node ≠ 0 ∧
        reader_state s.gp (s.readers (s.mem b).node) = rcu_reader_state.RCU_READER_ACTIVE_OLD) →
      l.length < fuel →
      scan_readers fuel input_readers cur_snap qs a s = some s := by
  intro l
  induction l with
  | nil =>
    intro a fuel s hl hn hfuel
    obtain ⟨a0, _, anode, aold⟩ := hn a (List.mem_cons_self a [])
    obtain ⟨n, rfl⟩ : ∃ n, fuel = n + 1 := ⟨fuel - 1, by simp at hfuel; omega⟩
    have hc : classify_and_move cur_snap qs a s = s := by
      rw [classify_and_move_eq _ _ _ _ anode, aold]; rfl
    simp only [scan_readers, if_neg a0, hc, hl.1, if_true]
  | cons x xs ih =>
    intro a fuel s hl hn hfuel
    obtain ⟨a0, _, anode, aold⟩ := hn a (List.mem_cons_self a _)
    obtain ⟨_, xin, _, _⟩ := hn x (List.mem_cons_of_mem a (List.mem_cons_self x xs))
    obtain ⟨n, rfl⟩ : ∃ n, fuel = n + 1 := ⟨fuel - 1, by simp at hfuel; omega⟩
    have hc : classify_and_move cur_snap qs a s = s := by
      rw [classify_and_move_eq _ _ _ _ anode, aold]; rfl
    simp only [scan_readers, if_neg a0, hc, hl.1, if_neg xin]
    exact ih x n s hl.2.2 (fun b hb => hn b (List.mem_cons_of_mem a hb))
      (by simp at hfuel ⊢; omega)


/-! ## The scan protocol over a well-formed registry -/

/-- A first pass of `wait_for_readers` (`wait_loops = 0` on entry) over a non-`NULL` head:
one traversal, then the store of the head into its own `next` field, then the `break`. -/
theorem wait_for_readers_once (n input_readers cur_snap qs : Nat) (s : State)
    (h0 : input_readers ≠ 0) :
    wait_for_readers (n + 1) input_readers cur_snap qs 0 s =
      match scan_readers n input_readers cur_snap qs input_readers s with
      | none => none
      | some s1 => some { s1 with mem := set_next s1.mem input_readers input_readers } := by
  have hlt : ¬ ((0 + 1) % UINT_SIZE ≥ RCU_QS_ACTIVE_ATTEMPTS) := by decide
  simp only [wait_for_readers, hlt, if_false, if_neg h0, ne_eq, h0, not_false_eq_true, if_true]

/-- The traversal step does nothing at a node that carries no reader. -/
theorem classify_and_move_head (cur_snap qs it : Nat) (s : State) (h : (s.mem it).node = 0) :
    classify_and_move cur_snap qs it s = s := by
  unfold classify_and_move
  rw [h]; simp

/-- A traversal pass of the first scan from the head of a well-formed registry, with
both transient lists empty: if it comes back, it has changed nothing and every
registered reader is in the old phase. -/
theorem scan_registry_sound (l : List Nat) (fuel : Nat) (s s' : State)
    (hl : Linked s.mem registry_reader_list l registry_reader_list)
    (hsent : (s.mem registry_reader_list).node = 0)
    (hn : ∀ b ∈ l, b ≠ 0 ∧ b ≠ registry_reader_list ∧ b ≠ cur_snap_readers ∧ b ≠ qs_readers ∧
      (s.mem b).node ≠ 0)
    (hcur : (s.mem cur_snap_readers).prev = cur_snap_readers)
    (hqs : (s.mem qs_readers).prev = qs_readers)
    (h : scan_readers fuel registry_reader_list cur_snap_readers qs_readers
      registry_reader_list s = some s') :
    s' = s ∧ ∀ b ∈ l, reader_state s.gp (s.readers (s.mem b).node) =
      rcu_reader_state.RCU_READER_ACTIVE_OLD := by
  have h3 : registry_reader_list ≠ 0 := by decide
  cases fuel with
  | zero => cases h
  | succ n =>
    simp only [scan_readers, if_neg h3, classify_and_move_head _ _ _ _ hsent] at h
    cases l with
    | nil =>
      rw [if_pos hl.1] at h
      cases h
      exact ⟨rfl, fun b hb => by cases hb⟩
    | cons a l0 =>
      have hareg : a ≠ registry_reader_list := (hn a (List.mem_cons_self a l0)).2.1
      rw [hl.1, if_neg hareg] at h
      exact scan_readers_sound l0 a n s s' hl.2.2 hn hcur hqs h

/-- A traversal pass from the head of a well-formed list of old-phase readers comes back
with enough fuel and changes nothing. -/
theorem scan_list_all_old (input_readers cur_snap qs : Nat) (l : List Nat) (fuel : Nat)
    (s : State) (h0 : input_readers ≠ 0)
    (hl : Linked s.mem input_readers l input_readers)
    (hsent : (s.mem input_readers).node = 0)
    (hn : ∀ b ∈ l, b ≠ 0 ∧ b ≠ input_readers ∧ (s.mem b).node ≠ 0 ∧
      reader_state s.gp (s.readers (s.mem b).node) = rcu_reader_state.RCU_READER_ACTIVE_OLD)
    (hfuel : l.length + 1 < fuel) :
    scan_readers fuel input_readers cur_snap qs input_readers s = some s := by
  obtain ⟨n, rfl⟩ : ∃ n, fuel = n + 1 := ⟨fuel - 1, by omega⟩
  simp only [scan_readers, if_neg h0, classify_and_move_head _ _ _ _ hsent]
  cases l with
  | nil => rw [if_pos hl.1]
  | cons a l0 =>
    have hareg : a ≠ input_readers := (hn a (List.mem_cons_self a l0)).2.1
    rw [hl.1, if_neg hareg]
    exact scan_readers_all_old input_readers cur_snap qs l0 a n s hl.2.2 hn
      (by simp at hfuel ⊢; omega)

/-- The second scan over an empty current-snapshot list: one pass, nothing to do. -/
theorem wait_for_readers_empty_snapshot (k : Nat) (s : State)
    (hcur : s.mem cur_snap_readers =
      { next := cur_snap_readers, prev := cur_snap_readers, node := 0 }) :
    wait_for_readers (k + 2) cur_snap_readers 0 qs_readers 0 s =
      some { s with mem := set_next s.mem cur_snap_readers cur_snap_readers } := by
  have h0 : cur_snap_readers ≠ 0 := by decide
  rw [wait_for_readers_once _ _ _ _ _ h0]
  have hnode : (s.mem cur_snap_readers).node = 0 := by rw [hcur]
  have hnext : (s.mem cur_snap_readers).next = cur_snap_readers := by rw [hcur]
  simp only [scan_readers, if_neg h0, classify_and_move_head _ _ _ _ hnode, hnext, if_true]

/-- The state in which the scan protocol ends when it ends on a non-empty registry: phase
bit flipped, the registry head and the current-snapshot head made their own successors. -/
theorem grace_period_sound (l0 : List Nat) (a fuel : Nat) (s g : State)
    (hl : Linked s.mem registry_reader_list (a :: l0) registry_reader_list)
    (hsent : (s.mem registry_reader_list).node = 0)
    (hn : ∀ b ∈ a :: l0, b ≠ 0 ∧ b ≠ registry_reader_list ∧ b ≠ cur_snap_readers ∧
      b ≠ qs_readers ∧ (s.mem b).node ≠ 0)
    (hcur : s.mem cur_snap_readers =
      { next := cur_snap_readers, prev := cur_snap_readers, node := 0 })
    (hqs : s.mem qs_readers = { next := qs_readers, prev := qs_readers, node := 0 })
    (h : grace_period fuel s = some g) :
    (∀ b ∈ a :: l0, reader_state s.gp (s.readers (s.mem b).node) =
      rcu_reader_state.RCU_READER_ACTIVE_OLD) ∧
    2 ≤ fuel ∧
    g = { s with
      gp := { s.gp with ctr := s.gp.ctr ^^^ RCU_GP_CTR_PHASE }
      mem := set_next (set_next s.mem registry_reader_list registry_reader_list)
        cur_snap_readers cur_snap_readers } := by
  have hareg : a ≠ registry_reader_list := (hn a (List.mem_cons_self a l0)).2.1
  have hreg : ¬ (s.mem registry_reader_list).next = registry_reader_list := by
    rw [hl.1]; exact hareg
  have h3 : registry_reader_list ≠ 0 := by decide
  have hcr : cur_snap_readers ≠ registry_reader_list := by decide
  have hqr : qs_readers ≠ registry_reader_list := by decide
  have hqc : qs_readers ≠ cur_snap_readers := by decide
  unfold grace_period at h
  rw [if_neg hreg] at h
  cases fuel with
  | zero => cases h
  | succ n =>
    rw [wait_for_readers_once _ _ _ _ _ h3] at h
    cases hscan : scan_readers n registry_reader_list cur_snap_readers qs_readers
        registry_reader_list s with
    | none => rw [hscan] at h; cases h
    | some s1 =>
      obtain ⟨e, hold⟩ := scan_registry_sound (a :: l0) n s s1 hl hsent hn
        (by rw [hcur]) (by rw [hqs]) hscan
      subst e
      rw [hscan] at h
      dsimp only at h
      cases n with
      | zero => cases hscan
      | succ k =>
        rw [wait_for_readers_empty_snapshot k _ (by
          show set_next s1.mem registry_reader_list registry_reader_list cur_snap_readers = _
          rw [set_next, upd_other _ _ _ _ hcr]; exact hcur)] at h
        dsimp only at h
        have hq : ((set_next (set_next s1.mem registry_reader_list registry_reader_list)
            cur_snap_readers cur_snap_readers) qs_readers).next = qs_readers := by
          rw [set_next, upd_other _ _ _ _ hqc, set_next, upd_other _ _ _ _ hqr, hqs]
        rw [if_neg (by rw [hq]; exact fun hne => hne rfl)] at h
        cases h
        exact ⟨hold, by omega, rfl⟩

/-- When every registered reader is in the old phase, the scan protocol ends: the first
scan leaves them all in the registry and returns after one pass. -/
theorem grace_period_all_old (l : List Nat) (fuel : Nat) (s : State)
    (hl : Linked s.mem registry_reader_list l registry_reader_list)
    (hne : l ≠ [])
    (hsent : (s.mem registry_reader_list).node = 0)
    (hn : ∀ b ∈ l, b ≠ 0 ∧ b ≠ registry_reader_list ∧ (s.mem b).node ≠ 0 ∧
      reader_state s.gp (s.readers (s.mem b).node) = rcu_reader_state.RCU_READER_ACTIVE_OLD)
    (hcur : s.mem cur_snap_readers =
      { next := cur_snap_readers, prev := cur_snap_readers, node := 0 })
    (hqs : s.mem qs_readers = { next := qs_readers, prev := qs_readers, node := 0 })
    (hfuel : l.length + 2 < fuel) :
    grace_period fuel s = some { s with
      gp := { s.gp with ctr := s.gp.ctr ^^^ RCU_GP_CTR_PHASE }
      mem := set_next (set_next s.mem registry_reader_list registry_reader_list)
        cur_snap_readers cur_snap_readers } := by
  obtain ⟨a, l0, rfl⟩ : ∃ a l0, l = a :: l0 := by
    cases l with
    | nil => exact absurd rfl hne
    | cons a l0 => exact ⟨a, l0, rfl⟩
  have hareg : a ≠ registry_reader_list := (hn a (List.mem_cons_self a l0)).2.1
  have hreg : ¬ (s.mem registry_reader_list).next = registry_reader_list := by
    rw [hl.1]; exact hareg
  have h3 : registry_reader_list ≠ 0 := by decide
  have hcr : cur_snap_readers ≠ registry_reader_list := by decide
  have hqr : qs_readers ≠ registry_reader_list := by decide
  have hqc : qs_readers ≠ cur_snap_readers := by decide
  obtain ⟨k, rfl⟩ : ∃ k, fuel = k + 2 := ⟨fuel - 2, by omega⟩
  unfold grace_period
  rw [if_neg hreg, wait_for_readers_once _ _ _ _ _ h3,
    scan_list_all_old registry_reader_list cur_snap_readers qs_readers (a :: l0) (k + 1) s h3 hl
      hsent hn (by simp at hfuel ⊢; omega)]
  dsimp only
  rw [wait_for_readers_empty_snapshot k _ (by
    show set_next s.mem registry_reader_list registry_reader_list cur_snap_readers = _
    rw [set_next, upd_other _ _ _ _ hcr]; exact hcur)]
  dsimp only
  have hq : ((set_next (set_next s.mem registry_reader_list registry_reader_list)
      cur_snap_readers cur_snap_readers) qs_readers).next = qs_readers := by
    rw [set_next, upd_other _ _ _ _ hqc, set_next, upd_other _ _ _ _ hqr, hqs]
  rw [if_neg (by rw [hq]; exact fun hne => hne rfl)]


/-! ## `synchronize_rcu` as leader over a well-formed registry -/

/-- With the wait queue empty and both mutexes free, `synchronize_rcu` runs the scan
protocol from the leader state, releases the mutexes and walks its waiters. -/
theorem synchronize_rcu_leader (fuel w : Nat) (s : State) (hq : s.gp_waiters = 0)
    (hgl : s.rcu_gp_lock = false) (hrl : s.rcu_registry_lock = false) :
    synchronize_rcu fuel w s =
      match grace_period fuel (leader_state w s) with
      | none => none
      | some g => wake_waiters fuel w (unlock_gp (unlock_registry g)) := by
  simp only [synchronize_rcu, leader_state, wait_queue_push, hq, set_wait_state, lock_gp, hgl,
    wait_queue_move, lock_registry, hrl, ne_eq, not_true_eq_false, if_false, Bool.false_eq_true]

/-- The list memory of the leader state: the caller's two list heads are initialised. -/
theorem leader_state_mem (w : Nat) (s : State) :
    (leader_state w s).mem =
      upd (upd s.mem cur_snap_readers
        { next := cur_snap_readers, prev := cur_snap_readers, node := 0 })
        qs_readers { next := qs_readers, prev := qs_readers, node := 0 } := rfl

/-- The leader's own wait node is running and ends the chain. -/
theorem leader_state_wait_node (w : Nat) (s : State) (hq : s.gp_waiters = 0) :
    (leader_state w s).wait_nodes w = { next := 0, state := RCU_WAIT_RUNNING } := by
  simp only [leader_state, wait_queue_push, wait_queue_move, set_wait_state, upd_same, hq]

/-- The wake walk over a chain that holds only the leader's node changes nothing. -/
theorem wake_waiters_leader (n w : Nat) (s : State) (hw : w ≠ 0)
    (hnode : s.wait_nodes w = { next := 0, state := RCU_WAIT_RUNNING }) :
    wake_waiters (n + 2) w s = some s := by
  have h3 : ¬ (RCU_WAIT_RUNNING &&& RCU_WAIT_RUNNING = 0) := by decide
  simp only [wake_waiters, if_neg hw, hnode, h3, if_false, if_true]

/-- A reader in the old phase is inside a read-side critical section. -/
theorem reader_state_old_nest (gp : rcu_gp) (r : rcu_reader)
    (h : reader_state gp r = rcu_reader_state.RCU_READER_ACTIVE_OLD) : r.ctr % 2 ^ 32 ≠ 0 := by
  intro h0
  unfold reader_state at h
  simp only [mask_eq, h0, if_true] at h
  cases h

/-- The nodes of a well-formed registry as the traversal needs them. -/
theorem registry_wf_nodes (s : State) (l : List Nat) (hwf : registry_wf s l) :
    ∀ b ∈ l, b ≠ 0 ∧ b ≠ registry_reader_list ∧ b ≠ cur_snap_readers ∧ b ≠ qs_readers ∧
      (s.mem b).node ≠ 0 := by
  intro b hb
  obtain ⟨⟨_, hnd⟩, _, hnodes⟩ := hwf
  obtain ⟨b0, bcur, bqs, _, bnode, _⟩ := hnodes b hb
  refine ⟨b0, ?_, bcur, bqs, bnode⟩
  intro e
  rw [e] at hb
  exact (List.nodup_cons.1 hnd).1 hb

/-- Entering `synchronize_rcu` as leader keeps a well-formed registry as it is: the
registry nodes and the head are not the two list heads on the caller's stack. -/
theorem leader_state_registry (s : State) (l : List Nat) (w : Nat) (hwf : registry_wf s l) :
    Linked (leader_state w s).mem registry_reader_list l registry_reader_list ∧
    ((leader_state w s).mem registry_reader_list).node = 0 ∧
    (∀ b ∈ l, (leader_state w s).mem b = s.mem b) ∧
    (leader_state w s).mem registry_reader_list = s.mem registry_reader_list ∧
    (leader_state w s).mem cur_snap_readers =
      { next := cur_snap_readers, prev := cur_snap_readers, node := 0 } ∧
    (leader_state w s).mem qs_readers =
      { next := qs_readers, prev := qs_readers, node := 0 } := by
  have hn := registry_wf_nodes s l hwf
  obtain ⟨⟨hl, _⟩, hsent, _⟩ := hwf
  have h1 : registry_reader_list ≠ qs_readers := by decide
  have h2 : registry_reader_list ≠ cur_snap_readers := by decide
  have h4 : cur_snap_readers ≠ qs_readers := by decide
  have hmem : ∀ x : Nat, x ≠ cur_snap_readers → x ≠ qs_readers →
      (leader_state w s).mem x = s.mem x := by
    intro x hx1 hx2
    rw [leader_state_mem, upd_other _ _ _ _ hx2, upd_other _ _ _ _ hx1]
  have hreg := hmem _ h2 h1
  refine ⟨?_, by rw [hreg]; exact hsent, fun b hb => hmem b (hn b hb).2.2.1 (hn b hb).2.2.2.1,
    hreg, ?_, ?_⟩
  · apply Linked_congr s.mem _ _ l _ _ _ hl
    · intro x hx
      rcases List.mem_cons.1 hx with e | hx
      · rw [e, hreg]
      · rw [hmem x (hn x hx).2.2.1 (hn x hx).2.2.2.1]
    · intro x hx
      rcases List.mem_append.1 hx with hx | hx
      · rw [hmem x (hn x hx).2.2.1 (hn x hx).2.2.2.1]
      · have : x = registry_reader_list := by simpa using hx
        rw [this, hreg]
  · rw [leader_state_mem, upd_other _ _ _ _ h4, upd_same]
  · rw [leader_state_mem, upd_same]

/-- What a returning `synchronize_rcu` has done, as leader over a well-formed non-empty
registry: every registered reader was in the old phase, the phase bit is flipped, the
registry head is its own successor, and nothing else of the registry memory, of the
reader records or of `gp.futex` differs; the wait queue is empty and the mutexes are
free. -/
theorem synchronize_rcu_sound (s : State) (a : Nat) (l0 : List Nat) (w fuel : Nat) (s' : State)
    (hwf : registry_wf s (a :: l0)) (hq : s.gp_waiters = 0) (hgl : s.rcu_gp_lock = false)
    (hrl : s.rcu_registry_lock = false) (hw : w ≠ 0)
    (h : synchronize_rcu fuel w s = some s') :
    (∀ b ∈ a :: l0, reader_state s.gp (s.readers (s.mem b).node) =
      rcu_reader_state.RCU_READER_ACTIVE_OLD) ∧
    s'.gp.ctr = s.gp.ctr ^^^ RCU_GP_CTR_PHASE ∧ s'.gp.futex = s.gp.futex ∧
    s'.readers = s.readers ∧
    (s'.mem registry_reader_list).next = registry_reader_list ∧
    (s'.mem registry_reader_list).prev = (s.mem registry_reader_list).prev ∧
    (∀ b ∈ a :: l0, s'.mem b = s.mem b) ∧
    s'.gp_waiters = 0 ∧ s'.rcu_gp_lock = false ∧ s'.rcu_registry_lock = false := by
  have hn := registry_wf_nodes s (a :: l0) hwf
  obtain ⟨hl, hsent, hsame, hreg, hcur, hqs⟩ := leader_state_registry s (a :: l0) w hwf
  rw [synchronize_rcu_leader fuel w s hq hgl hrl] at h
  cases hg : grace_period fuel (leader_state w s) with
  | none => rw [hg] at h; cases h
  | some g =>
    rw [hg] at h
    dsimp only at h
    obtain ⟨hold, hfuel, e⟩ := grace_period_sound l0 a fuel (leader_state w s) g hl hsent
      (fun b hb => by
        obtain ⟨b0, breg, bcur, bqs, bnode⟩ := hn b hb
        exact ⟨b0, breg, bcur, bqs, by rw [hsame b hb]; exact bnode⟩) hcur hqs hg
    obtain ⟨n, rfl⟩ : ∃ n, fuel = n + 2 := ⟨fuel - 2, by omega⟩
    have hnode : (unlock_gp (unlock_registry g)).wait_nodes w =
        { next := 0, state := RCU_WAIT_RUNNING } := by
      rw [e]; exact leader_state_wait_node w s hq
    rw [wake_waiters_leader n w _ hw hnode] at h
    cases h
    rw [e]
    have hcr : registry_reader_list ≠ cur_snap_readers := by decide
    refine ⟨?_, rfl, rfl, rfl, ?_, ?_, ?_, rfl, rfl, rfl⟩
    · intro b hb
      have := hold b hb
      rw [hsame b hb] at this
      exact this
    · show (set_next (set_next (leader_state w s).mem registry_reader_list registry_reader_list)
        cur_snap_readers cur_snap_readers registry_reader_list).next = registry_reader_list
      rw [(set_next_fields _ _ _ _).1, if_neg hcr, (set_next_fields _ _ _ _).1, if_pos rfl]
    · show (set_next (set_next (leader_state w s).mem registry_reader_list registry_reader_list)
        cur_snap_readers cur_snap_readers registry_reader_list).prev = _
      rw [(set_next_fields _ _ _ _).2.1, (set_next_fields _ _ _ _).2.1, hreg]
    · intro b hb
      obtain ⟨_, breg, bcur, _, _⟩ := hn b hb
      show set_next (set_next (leader_state w s).mem registry_reader_list registry_reader_list)
        cur_snap_readers cur_snap_readers b = s.mem b
      rw [set_next, upd_other _ _ _ _ bcur, set_next, upd_other _ _ _ _ breg, hsame b hb]

/-- When every registered reader is in the old phase, `synchronize_rcu` returns, given
fuel for one pass over the registry. -/
theorem synchronize_rcu_all_old (s : State) (l : List Nat) (w fuel : Nat)
    (hwf : registry_wf s l) (hne : l ≠ [])
    (hold : ∀ b ∈ l, reader_state s.gp (s.readers (s.mem b).node) =
      rcu_reader_state.RCU_READER_ACTIVE_OLD)
    (hq : s.gp_waiters = 0) (hgl : s.rcu_gp_lock = false) (hrl : s.rcu_registry_lock = false)
    (hw : w ≠ 0) (hfuel : l.length + 2 < fuel) :
    ∃ s' : State, synchronize_rcu fuel w s = some s' := by
  have hn := registry_wf_nodes s l hwf
  obtain ⟨hl, hsent, hsame, _, hcur, hqs⟩ := leader_state_registry s l w hwf
  rw [synchronize_rcu_leader fuel w s hq hgl hrl,
    grace_period_all_old l fuel (leader_state w s) hl hne hsent (fun b hb => by
      obtain ⟨b0, breg, _, _, bnode⟩ := hn b hb
      refine ⟨b0, breg, by rw [hsame b hb]; exact bnode, ?_⟩
      rw [hsame b hb]; exact hold b hb) hcur hqs hfuel]
  dsimp only
  obtain ⟨n, rfl⟩ : ∃ n, fuel = n + 2 := ⟨fuel - 2, by omega⟩
  exact ⟨_, wake_waiters_leader n w _ hw (leader_state_wait_node w s hq)⟩

/-- On an empty registry a returning `synchronize_rcu` leaves `gp` alone. -/
theorem synchronize_rcu_empty_gp (s : State) (w fuel : Nat) (s' : State)
    (hreg : (s.mem registry_reader_list).next = registry_reader_list)
    (hq : s.gp_waiters = 0) (hgl : s.rcu_gp_lock = false) (hrl : s.rcu_registry_lock = false)
    (h : synchronize_rcu fuel w s = some s') : s'.gp = s.gp := by
  have h1 : registry_reader_list ≠ qs_readers := by decide
  have h2 : registry_reader_list ≠ cur_snap_readers := by decide
  have he : ((leader_state w s).mem registry_reader_list).next = registry_reader_list := by
    rw [leader_state_mem, upd_other _ _ _ _ h1, upd_other _ _ _ _ h2]; exact hreg
  rw [synchronize_rcu_leader fuel w s hq hgl hrl] at h
  unfold grace_period at h
  rw [if_pos he] at h
  dsimp only at h
  rw [wake_waiters_gp _ _ _ _ h]
  rfl


/-! ## The grace period over idle readers -/

/-- C10 fails on the code.  Take any state with a well-formed non-empty registry whose
readers are all outside any read-side critical section (nest depth `0`), an empty
global wait queue and both mutexes free.  `synchronize_rcu`, called as leader, does not
return for any amount of fuel: the first scan moves the first node to the quiescent
list, after which the node's `next` points to the node itself and the traversal never
gets back to the registry head. -/
theorem synchronize_rcu_hangs_on_idle_readers (s : State) (a : Nat) (l : List Nat) (w : Nat)
    (hwf : registry_wf s (a :: l))
    (hidle : ∀ b ∈ a :: l, (s.readers (s.mem b).node).ctr % 2 ^ 32 = 0)
    (hq : s.gp_waiters = 0) (hgl : s.rcu_gp_lock = false) (hrl : s.rcu_registry_lock = false)
    (hw : w ≠ 0) :
    ∀ fuel : Nat, synchronize_rcu fuel w s = none := by
  intro fuel
  cases h : synchronize_rcu fuel w s with
  | none => rfl
  | some s' =>
    obtain ⟨hold, _⟩ := synchronize_rcu_sound s a l w fuel s' hwf hq hgl hrl hw h
    exact absurd (hidle a (List.mem_cons_self a l))
      (reader_state_old_nest _ _ (hold a (List.mem_cons_self a l)))

/-- C10 at the failing input: one registered reader, outside any critical section. -/
theorem synchronize_rcu_hangs_on_idle_readers_witness :
    registry_wf (one_reader_state 0) [4] ∧
    (∀ b ∈ [4], ((one_reader_state 0).readers ((one_reader_state 0).mem b).node).ctr % 2 ^ 32 = 0) ∧
    (one_reader_state 0).gp_waiters = 0 ∧ (one_reader_state 0).rcu_gp_lock = false ∧
    (one_reader_state 0).rcu_registry_lock = false ∧
    synchronize_rcu 1000000 100 (one_reader_state 0) = none :=
  ⟨one_reader_state_wf 0, by decide, rfl, rfl, rfl,
    synchronize_rcu_hangs_on_idle_readers (one_reader_state 0) 4 [] 100 (one_reader_state_wf 0)
      (by decide) rfl rfl rfl (by decide) 1000000⟩


/-! ## Classification of a reader -/

/-- Masking with the phase bit gives zero exactly when bit 32 is clear. -/
theorem and_phase_eq_zero (x : Nat) : x &&& RCU_GP_CTR_PHASE = 0 ↔ x.testBit 32 = false := by
  rw [phase_eq]
  constructor
  · intro h
    have h2 : Nat.testBit (2 ^ 32) 32 = true := Nat.testBit_two_pow_self
    have h3 := congrArg (fun y => Nat.testBit y 32) h
    simp only [Nat.testBit_and, h2, Nat.zero_testBit, Bool.and_true] at h3
    exact h3
  · intro h
    apply Nat.eq_of_testBit_eq
    intro i
    rw [Nat.testBit_and, Nat.testBit_two_pow, Nat.zero_testBit]
    by_cases hi : 32 = i
    · subst hi; simp [h]
    · simp [hi]

/-- Claim C12: for every reader counter `v` and global counter `g`, `reader_state` is
`RCU_READER_INACTIVE` exactly when the low 32 bits of `v` are zero, otherwise
`RCU_READER_ACTIVE_CURRENT` exactly when bit 32 of `v` equals bit 32 of `g`, otherwise
`RCU_READER_ACTIVE_OLD`; two pairs of counters that agree on the low 32 bits of the reader
counter and on both bits 32 get the same result, whatever their other bits and the other
fields of the two records. -/
theorem reader_state_cases (gp gp' : rcu_gp) (r r' : rcu_reader) :
    (reader_state gp r = rcu_reader_state.RCU_READER_INACTIVE ↔ r.ctr % 2 ^ 32 = 0) ∧
    (reader_state gp r = rcu_reader_state.RCU_READER_ACTIVE_CURRENT ↔
      r.ctr % 2 ^ 32 ≠ 0 ∧ r.ctr.testBit 32 = gp.ctr.testBit 32) ∧
    (reader_state gp r = rcu_reader_state.RCU_READER_ACTIVE_OLD ↔
      r.ctr % 2 ^ 32 ≠ 0 ∧ r.ctr.testBit 32 ≠ gp.ctr.testBit 32) ∧
    (r.ctr % 2 ^ 32 = r'.ctr % 2 ^ 32 → r.ctr.testBit 32 = r'.ctr.testBit 32 →
      gp.ctr.testBit 32 = gp'.ctr.testBit 32 → reader_state gp r = reader_state gp' r') := by
  have key : ∀ (g : rcu_gp) (q : rcu_reader), reader_state g q =
      if q.ctr % 2 ^ 32 = 0 then rcu_reader_state.RCU_READER_INACTIVE
      else if q.ctr.testBit 32 = g.ctr.testBit 32 then rcu_reader_state.RCU_READER_ACTIVE_CURRENT
      else rcu_reader_state.RCU_READER_ACTIVE_OLD := by
    intro g q
    unfold reader_state
    simp only [mask_eq, and_phase_eq_zero, Nat.testBit_xor]
    by_cases h1 : q.ctr % 2 ^ 32 = 0
    · simp [h1]
    · simp only [h1, if_false]
      cases q.ctr.testBit 32 <;> cases g.ctr.testBit 32 <;> simp
  refine ⟨?_, ?_, ?_, ?_⟩
  · rw [key]; split_ifs <;> simp_all
  · rw [key]; split_ifs <;> simp_all
  · rw [key]; split_ifs <;> simp_all
  · intro h1 h2 h3
    rw [key, key, h1, h2, h3]


/-! ## Frame of `rcu_read_unlock` -/

/-- What `rcu_read_unlock` does in full, for a 64-bit counter that is not zero: it stores
the counter minus one and, when the nest depth was `1` and a writer sleeps on the futex,
resets the futex and issues a wake. -/
theorem rcu_read_unlock_full (t : Nat) (s : State) (hc : (s.readers t).ctr < 2 ^ 64)
    (hd : 1 ≤ (s.readers t).ctr) :
    rcu_read_unlock t s =
      if (s.readers t).ctr % 2 ^ 32 = 1 ∧ s.gp.futex = -1 then
        { set_ctr s t ((s.readers t).ctr - 1) with
          gp := { s.gp with futex := 0 }, trace := s.trace ++ [Event.futex_wake_gp] }
      else set_ctr s t ((s.readers t).ctr - 1) := by
  have hsub : ((s.readers t).ctr + (ULONG_SIZE - 1)) % ULONG_SIZE = (s.readers t).ctr - 1 := by
    simp only [ULONG_SIZE]; omega
  unfold rcu_read_unlock wake_up_gp
  simp only [mask_eq, hsub]
  by_cases h1 : (s.readers t).ctr % 2 ^ 32 = 1
  · by_cases h2 : s.gp.futex = -1
    · have h2' : (set_ctr s t ((s.readers t).ctr - 1)).gp.futex = -1 := h2
      rw [if_pos h1, if_pos h2', if_pos ⟨h1, h2⟩]
      rfl
    · have h2' : ¬ (set_ctr s t ((s.readers t).ctr - 1)).gp.futex = -1 := h2
      rw [if_pos h1, if_neg h2', if_neg (fun h => h2 h.2)]
  · rw [if_neg h1, if_neg (fun h => h1 h.1)]

/-- Claim C15: when the calling thread's nest depth is at least one, `rcu_read_unlock`
decreases the thread's `ctr` by exactly one, leaves the other fields of its record, the
records of the other threads, `gp.ctr` and the registry memory as they were; at depth one
it stores `0` to `gp.futex` and issues one futex wake if `gp.futex` was `-1` and leaves
`gp.futex` alone and issues no wake otherwise; at a depth above one it leaves `gp.futex`
alone and issues no wake. -/
theorem rcu_read_unlock_frame (t : Nat) (s : State) (hc : (s.readers t).ctr < 2 ^ 64)
    (hd : 1 ≤ (s.readers t).ctr % 2 ^ 32) :
    ((rcu_read_unlock t s).readers t).ctr + 1 = (s.readers t).ctr ∧
    (rcu_read_unlock t s).readers t =
      { s.readers t with ctr := ((rcu_read_unlock t s).readers t).ctr } ∧
    (∀ u, u ≠ t → (rcu_read_unlock t s).readers u = s.readers u) ∧
    (rcu_read_unlock t s).gp.ctr = s.gp.ctr ∧
    (rcu_read_unlock t s).mem = s.mem ∧
    ((s.readers t).ctr % 2 ^ 32 = 1 → s.gp.futex = -1 →
      (rcu_read_unlock t s).gp.futex = 0 ∧
      (rcu_read_unlock t s).trace = s.trace ++ [Event.futex_wake_gp]) ∧
    ((s.readers t).ctr % 2 ^ 32 = 1 → s.gp.futex ≠ -1 →
      (rcu_read_unlock t s).gp.futex = s.gp.futex ∧ (rcu_read_unlock t s).trace = s.trace) ∧
    (1 < (s.readers t).ctr % 2 ^ 32 →
      (rcu_read_unlock t s).gp.futex = s.gp.futex ∧ (rcu_read_unlock t s).trace = s.trace) := by
  have hpos : 1 ≤ (s.readers t).ctr := by omega
  rw [rcu_read_unlock_full t s hc hpos]
  refine ⟨?_, ?_, ?_, ?_, ?_, ?_, ?_, ?_⟩
  · split <;> simp only [set_ctr, upd_same] <;> omega
  · split <;> simp only [set_ctr, upd_same]
  · intro u hu
    split <;> simp only [set_ctr, upd_other _ _ _ _ hu]
  · split <;> rfl
  · split <;> rfl
  · intro h1 h2
    rw [if_pos ⟨h1, h2⟩]
    exact ⟨rfl, rfl⟩
  · intro _ h2
    rw [if_neg (fun h => h2 h.2)]
    exact ⟨rfl, rfl⟩
  · intro h1
    rw [if_neg (fun h => by omega)]
    exact ⟨rfl, rfl⟩

/-- Instance of claim C15: the last unlock of the reader of `one_reader_state`, at depth
one, while a writer sleeps on the futex. -/
theorem rcu_read_unlock_frame_witness :
    ((rcu_read_unlock 10
        { one_reader_state 1 with gp := { ctr := 1, futex := -1 } }).readers 10).ctr + 1 = 1 ∧
    (rcu_read_unlock 10 { one_reader_state 1 with gp := { ctr := 1, futex := -1 } }).gp.ctr = 1 ∧
    (rcu_read_unlock 10 { one_reader_state 1 with gp := { ctr := 1, futex := -1 } }).gp.futex = 0 ∧
    (rcu_read_unlock 10 { one_reader_state 1 with gp := { ctr := 1, futex := -1 } }).trace =
      [Event.futex_wake_gp] :=
  have h := rcu_read_unlock_frame 10
    { one_reader_state 1 with gp := { ctr := 1, futex := -1 } } (by decide) (by decide)
  ⟨h.1, h.2.2.2.1, (h.2.2.2.2.2.1 (by decide) (by decide)).1,
    (h.2.2.2.2.2.1 (by decide) (by decide)).2⟩


/-! ## Unregistering twice -/

/-- Storing `0` to the `registered` field of a record that holds `0` there changes
nothing. -/
theorem upd_registered_same (readers : Nat → rcu_reader) (t : Nat)
    (hreg : (readers t).registered = 0) :
    upd readers t { readers t with registered := 0 } = readers := by
  funext x
  by_cases hx : x = t
  · subst hx
    rw [upd_same]
    cases hr : readers x with
    | mk c n tid r l =>
      rw [hr] at hreg
      simp only at hreg
      subst hreg
      rfl
  · rw [upd_other _ _ _ _ hx]

/-- The call `rcu_unregister_thread` for a thread that is not marked registered and holds
no list node: the registry mutex is taken and released, nothing else happens. -/
theorem rcu_unregister_thread_absent (t : Nat) (s : State)
    (hlock : s.rcu_registry_lock = false) (hlist : (s.readers t).list = 0)
    (hreg : (s.readers t).registered = 0) :
    rcu_unregister_thread t s =
      some { s with trace := s.trace ++ [Event.registry_lock, Event.registry_unlock] } := by
  unfold rcu_unregister_thread lock_registry
  simp only [hlock, Bool.false_eq_true, if_false]
  simp only [upd_registered_same _ _ hreg]
  simp only [reader_del, hlist, if_true, unlock_registry, List.append_assoc,
    List.singleton_append]

/-- After a call of `rcu_unregister_thread` that returns, the thread is not marked
registered, holds no list node, and the registry mutex is free. -/
theorem rcu_unregister_thread_post (t : Nat) (s s1 : State)
    (h : rcu_unregister_thread t s = some s1) :
    (s1.readers t).list = 0 ∧ (s1.readers t).registered = 0 ∧ s1.rcu_registry_lock = false := by
  unfold rcu_unregister_thread lock_registry at h
  split at h
  · cases h
  · rename_i s0 hs0
    split at hs0
    · cases hs0
    · cases hs0
      simp only [Option.some.injEq] at h
      subst h
      simp only [reader_del, upd_same]
      split
      · rename_i hl
        exact ⟨by simpa [unlock_registry, upd_same] using hl,
          by simp [unlock_registry, upd_same], rfl⟩
      · exact ⟨by simp [unlock_registry, upd_same], by simp [unlock_registry, upd_same], rfl⟩

/-- A call of `rcu_unregister_thread` with the registry mutex free returns. -/
theorem rcu_unregister_thread_returns (t : Nat) (s : State)
    (hlock : s.rcu_registry_lock = false) : ∃ s1, rcu_unregister_thread t s = some s1 := by
  unfold rcu_unregister_thread lock_registry
  simp only [hlock, Bool.false_eq_true, if_false]
  exact ⟨_, rfl⟩

/-- Claim C20: `rcu_unregister_thread` is idempotent.  Whatever the state, registry
included, in which a first call for thread `t` is made with the registry mutex free, the
call returns, and a second call for `t` returns the state the first call left: registry
memory, every reader record, `gp`, the wait queue, both mutexes and the set of allocated
nodes are the same, only the log of events has grown by the lock and the unlock of the
registry mutex.  The same holds for a call on a thread that was never registered, whose
record is zeroed. -/
theorem rcu_unregister_thread_idempotent (t : Nat) (s : State)
    (hlock : s.rcu_registry_lock = false) :
    (∃ s1, rcu_unregister_thread t s = some s1 ∧
      rcu_unregister_thread t s1 = some { s1 with
        trace := s1.trace ++ [Event.registry_lock, Event.registry_unlock] } ∧
      ∀ l, registry_wf s1 l → registry_wf { s1 with
        trace := s1.trace ++ [Event.registry_lock, Event.registry_unlock] } l) ∧
    ((s.readers t).list = 0 → (s.readers t).registered = 0 →
      rcu_unregister_thread t s = some { s with
        trace := s.trace ++ [Event.registry_lock, Event.registry_unlock] }) := by
  refine ⟨?_, fun hlist hreg => rcu_unregister_thread_absent t s hlock hlist hreg⟩
  obtain ⟨s1, h1⟩ := rcu_unregister_thread_returns t s hlock
  obtain ⟨p1, p2, p3⟩ := rcu_unregister_thread_post t s s1 h1
  exact ⟨s1, h1, rcu_unregister_thread_absent t s1 p3 p1 p2, fun l hl => hl⟩

/-- Instance of claim C20: unregistering the reader of `one_reader_state` twice, and
unregistering thread `11`, which never registered. -/
theorem rcu_unregister_thread_idempotent_witness :
    (∃ s1, rcu_unregister_thread 10 (one_reader_state 1) = some s1 ∧
      rcu_unregister_thread 10 s1 = some { s1 with
        trace := s1.trace ++ [Event.registry_lock, Event.registry_unlock] } ∧
      ∀ l, registry_wf s1 l → registry_wf { s1 with
        trace := s1.trace ++ [Event.registry_lock, Event.registry_unlock] } l) ∧
    rcu_unregister_thread 11 (one_reader_state 1) = some { one_reader_state 1 with
      trace := (one_reader_state 1).trace ++ [Event.registry_lock, Event.registry_unlock] } :=
  have h := rcu_unregister_thread_idempotent 10 (one_reader_state 1) rfl
  have h' := rcu_unregister_thread_idempotent 11 (one_reader_state 1) rfl
  ⟨h.1, h'.2 (by decide) (by decide)⟩


/-! ## The registry mutex across `wait_gp` -/

/-- Failed `FUTEX_WAIT` calls with an `errno` other than `EWOULDBLOCK` are retried. -/
theorem wait_gp_loop_retry (rest : List futex_outcome) (s : State) :
    ∀ n : Nat, wait_gp_loop (List.replicate n futex_outcome.other_errno ++ rest) s =
      wait_gp_loop rest s := by
  intro n
  induction n with
  | zero => rfl
  | succ k ih =>
    rw [List.replicate_succ, List.cons_append]
    simp only [wait_gp_loop]
    exact ih

/-- The paths of `wait_gp` that take the registry mutex again: `gp.futex` is not `-1`, or
the first `FUTEX_WAIT` that is not retried fails with `EWOULDBLOCK`. -/
theorem wait_gp_relocks (s : State) (n : Nat) (rest : List futex_outcome) :
    (s.gp.futex ≠ -1 → wait_gp s = some { s with
      rcu_registry_lock := true,
      trace := s.trace ++ [Event.registry_unlock, Event.registry_lock] }) ∧
    (s.gp.futex = -1 →
      s.futex_script =
        List.replicate n futex_outcome.other_errno ++ futex_outcome.ewouldblock :: rest →
      wait_gp s = some { s with
        rcu_registry_lock := true, futex_script := rest,
        trace := s.trace ++ [Event.registry_unlock, Event.registry_lock] }) := by
  constructor
  · intro hf
    have hf' : (unlock_registry s).gp.futex ≠ -1 := hf
    simp only [wait_gp, hf', ne_eq, not_false_eq_true, if_true]
    simp [lock_registry, unlock_registry]
  · intro hf hs
    have hf' : ¬ (unlock_registry s).gp.futex ≠ -1 := fun h => h hf
    have hs' : (unlock_registry s).futex_script =
        List.replicate n futex_outcome.other_errno ++ futex_outcome.ewouldblock :: rest := hs
    simp only [wait_gp, if_neg hf', hs', wait_gp_loop_retry, wait_gp_loop]
    simp [lock_registry, unlock_registry]

/-- The path of `wait_gp` on which `FUTEX_WAIT` succeeds: when `wait_gp` is entered with
`gp.futex` equal to `-1` and the first `FUTEX_WAIT` call that is not retried returns `0`,
`wait_gp` returns with the registry mutex free; it has released the mutex once and not
taken it again.  No call of `wait_for_readers` reaches `wait_gp`, see
`wait_for_readers_eq`. -/
theorem wait_gp_returns_unlocked (s : State) (n : Nat) (rest : List futex_outcome)
    (hf : s.gp.futex = -1)
    (hs : s.futex_script = List.replicate n futex_outcome.other_errno ++
      futex_outcome.woken :: rest) :
    ∃ s', wait_gp s = some s' ∧ s'.rcu_registry_lock = false ∧
      s'.trace = s.trace ++ [Event.registry_unlock] ∧
      s' = { s with rcu_registry_lock := false, futex_script := rest,
                    trace := s.trace ++ [Event.registry_unlock] } := by
  have hf' : ¬ (unlock_registry s).gp.futex ≠ -1 := fun h => h hf
  have hs' : (unlock_registry s).futex_script =
      List.replicate n futex_outcome.other_errno ++ futex_outcome.woken :: rest := hs
  refine ⟨{ s with rcu_registry_lock := false, futex_script := rest,
                   trace := s.trace ++ [Event.registry_unlock] }, ?_, rfl, rfl, rfl⟩
  simp only [wait_gp, if_neg hf', hs', wait_gp_loop_retry, wait_gp_loop]
  rfl

/-- The path of `wait_gp` on which `FUTEX_WAIT` succeeds, on `sleeping_writer_state`: the
first `FUTEX_WAIT` is interrupted, the second returns `0`; `wait_gp` comes back without the
registry mutex. -/
theorem wait_gp_returns_unlocked_example :
    (sleeping_writer_state [futex_outcome.other_errno, futex_outcome.woken]).rcu_registry_lock
      = true ∧
    ∃ s', wait_gp (sleeping_writer_state [futex_outcome.other_errno, futex_outcome.woken])
        = some s' ∧ s'.rcu_registry_lock = false ∧
      s'.trace = [Event.registry_lock, Event.registry_unlock] :=
  have h := wait_gp_returns_unlocked
    (sleeping_writer_state [futex_outcome.other_errno, futex_outcome.woken]) 1 [] rfl rfl
  ⟨rfl, h.choose, h.choose_spec.1, h.choose_spec.2.1, h.choose_spec.2.2.1⟩


/-! ## The wait queue -/

/-- Being a chain depends only on the `next` fields of its nodes. -/
theorem wait_chain_congr (wn wn' : Nat → wait_node) :
    ∀ (l : List Nat) (h : Nat), (∀ x ∈ l, (wn' x).next = (wn x).next) →
      wait_chain wn h l → wait_chain wn' h l := by
  intro l
  induction l with
  | nil => intro h _ hc; exact hc
  | cons x xs ih =>
    intro h hn hc
    refine ⟨hc.1, hc.2.1, ?_⟩
    rw [hn x (List.mem_cons_self x xs)]
    exact ih _ (fun y hy => hn y (List.mem_cons_of_mem x hy)) hc.2.2

/-- The nodes of a chain are not `NULL`. -/
theorem wait_chain_ne_zero (wn : Nat → wait_node) :
    ∀ (l : List Nat) (h : Nat), wait_chain wn h l → ∀ x ∈ l, x ≠ 0 := by
  intro l
  induction l with
  | nil => intro h _ x hx; cases hx
  | cons y ys ih =>
    intro h hc x hx
    rcases List.mem_cons.1 hx with rfl | hx'
    · exact hc.2.1
    · exact ih _ hc.2.2 x hx'

/-- Pushing new nodes in front of a chain gives the chain of the new nodes, last pushed
first, followed by the old chain. -/
theorem push_all_chain :
    ∀ (ns : List Nat) (s : State) (acc : List Nat),
      wait_chain s.wait_nodes s.gp_waiters acc → (∀ n ∈ ns, n ≠ 0 ∧ n ∉ acc) → ns.Nodup →
      wait_chain (push_all ns s).1.wait_nodes (push_all ns s).1.gp_waiters
        (ns.reverse ++ acc) := by
  intro ns
  induction ns with
  | nil => intro s acc hc _ _; exact hc
  | cons n ns ih =>
    intro s acc hc hn hnd
    obtain ⟨hnns, hnd'⟩ := List.nodup_cons.1 hnd
    obtain ⟨hn0, hnacc⟩ := hn n (List.mem_cons_self n ns)
    have h1 : wait_chain (wait_queue_push n s).1.wait_nodes (wait_queue_push n s).1.gp_waiters
        (n :: acc) := by
      refine ⟨rfl, hn0, ?_⟩
      simp only [wait_queue_push, upd_same]
      refine wait_chain_congr s.wait_nodes _ acc _ ?_ hc
      intro x hx
      have hxn : x ≠ n := fun h => hnacc (h ▸ hx)
      rw [upd_other _ _ _ _ hxn]
    have h2 := ih (wait_queue_push n s).1 (n :: acc) h1
      (fun m hm => ⟨(hn m (List.mem_cons_of_mem n hm)).1, fun hmem => by
        rcases List.mem_cons.1 hmem with rfl | h'
        · exact hnns hm
        · exact (hn m (List.mem_cons_of_mem n hm)).2 h'⟩) hnd'
    simp only [push_all, List.reverse_cons, List.append_assoc, List.singleton_append]
    exact h2

/-- Every push onto a queue that is not empty returns `1`. -/
theorem push_all_returns :
    ∀ (ns : List Nat) (s : State), s.gp_waiters ≠ 0 → (∀ n ∈ ns, n ≠ 0) →
      (push_all ns s).2 = List.replicate ns.length 1 := by
  intro ns
  induction ns with
  | nil => intro s _ _; rfl
  | cons n ns ih =>
    intro s hq hn
    have h1 : (wait_queue_push n s).1.gp_waiters ≠ 0 := hn n (List.mem_cons_self n ns)
    have h2 := ih (wait_queue_push n s).1 h1 (fun m hm => hn m (List.mem_cons_of_mem n hm))
    simp only [push_all, h2, List.length_cons, List.replicate_succ]
    simp [wait_queue_push, hq]

/-- Claim C11: pushes of `k ≥ 1` distinct wait nodes `n :: ns` onto an empty wait queue
return `0` for the first push and `1` for every later one; a following `wait_queue_move`
leaves the head of the queue `NULL` and hands over a `NULL`-terminated chain that visits
the pushed nodes in reverse push order, each once. -/
theorem wait_queue_push_move (n : Nat) (ns : List Nat) (s : State) (hq : s.gp_waiters = 0)
    (hnd : (n :: ns).Nodup) (h0 : ∀ x ∈ n :: ns, x ≠ 0) :
    (push_all (n :: ns) s).2 = 0 :: List.replicate ns.length 1 ∧
    (wait_queue_move (push_all (n :: ns) s).1).1.gp_waiters = 0 ∧
    wait_chain (wait_queue_move (push_all (n :: ns) s).1).1.wait_nodes
      (wait_queue_move (push_all (n :: ns) s).1).2 (n :: ns).reverse ∧
    (n :: ns).reverse.Nodup ∧ (n :: ns).reverse.length = ns.length + 1 := by
  refine ⟨?_, rfl, ?_, List.nodup_reverse.2 hnd, by simp⟩
  · have h1 : (wait_queue_push n s).1.gp_waiters ≠ 0 := h0 n (List.mem_cons_self n ns)
    have h2 := push_all_returns ns (wait_queue_push n s).1 h1
      (fun m hm => h0 m (List.mem_cons_of_mem n hm))
    simp only [push_all, h2]
    simp [wait_queue_push, hq]
  · have hc : wait_chain s.wait_nodes s.gp_waiters [] := hq
    have h := push_all_chain (n :: ns) s [] hc (fun m hm => ⟨h0 m hm, by simp⟩) hnd
    rw [List.append_nil] at h
    exact h

/-- Instance of claim C11: three writers push the nodes `100`, `101`, `102` at program
start; the first is the leader and drains the chain `102, 101, 100`. -/
theorem wait_queue_push_move_witness :
    (push_all [100, 101, 102] (init [])).2 = 0 :: List.replicate 2 1 ∧
    (wait_queue_move (push_all [100, 101, 102] (init [])).1).1.gp_waiters = 0 ∧
    wait_chain (wait_queue_move (push_all [100, 101, 102] (init [])).1).1.wait_nodes
      (wait_queue_move (push_all [100, 101, 102] (init [])).1).2 [100, 101, 102].reverse ∧
    [100, 101, 102].reverse.Nodup ∧ [100, 101, 102].reverse.length = 2 + 1 :=
  wait_queue_push_move 100 [101, 102] (init []) rfl (by decide) (by decide)


/-! ## The wake walk -/

/-- What `adaptative_wake_up` does: the state of the node becomes `WAKEUP | TEARDOWN`, by
the store of `RCU_WAIT_WAKEUP` and the later or of `RCU_WAIT_TEARDOWN`, and one futex wake
on the node is issued, because the state read back after the store has no `RUNNING`
bit. -/
theorem adaptative_wake_up_eq (node : Nat) (s : State) :
    adaptative_wake_up node s =
      { s with
        wait_nodes := upd s.wait_nodes node
          { next := (s.wait_nodes node).next, state := RCU_WAIT_WAKEUP ||| RCU_WAIT_TEARDOWN }
        trace := s.trace ++ [Event.futex_wake_node node] } := by
  have h : RCU_WAIT_WAKEUP &&& RCU_WAIT_RUNNING = 0 := by decide
  simp only [adaptative_wake_up, set_wait_state, upd_same, h, if_true, upd_upd]

/-- One step of the wake walk at the node `x`. -/
theorem wake_step_fields (x : Nat) (s : State) :
    (∀ y, (if (s.wait_nodes x).state &&& RCU_WAIT_RUNNING = 0 then adaptative_wake_up x s
        else s).wait_nodes y =
      if y = x ∧ (s.wait_nodes x).state &&& RCU_WAIT_RUNNING = 0 then
        { next := (s.wait_nodes x).next, state := RCU_WAIT_WAKEUP ||| RCU_WAIT_TEARDOWN }
      else s.wait_nodes y) ∧
    (if (s.wait_nodes x).state &&& RCU_WAIT_RUNNING = 0 then adaptative_wake_up x s
        else s).trace =
      s.trace ++ (if (s.wait_nodes x).state &&& RCU_WAIT_RUNNING = 0 then
        [Event.futex_wake_node x] else []) := by
  refine ⟨fun y => ?_, ?_⟩
  · by_cases hp : (s.wait_nodes x).state &&& RCU_WAIT_RUNNING = 0
    · rw [if_pos hp, adaptative_wake_up_eq]
      by_cases hy : y = x
      · subst hy
        rw [if_pos ⟨rfl, hp⟩]
        exact upd_same _ _ _
      · rw [if_neg (fun c => hy c.1)]
        exact upd_other _ _ _ _ hy
    · rw [if_neg hp, if_neg (fun c => hp c.2)]
  · by_cases hp : (s.wait_nodes x).state &&& RCU_WAIT_RUNNING = 0
    · rw [if_pos hp, if_pos hp, adaptative_wake_up_eq]
    · rw [if_neg hp, if_neg hp, List.append_nil]

/-- The wake walk over a chain `l` of distinct wait nodes, with fuel for every node:
it ends, every node of `l` whose state lacked the `RUNNING` bit is left in the state
`WAKEUP | TEARDOWN` with its `next` field as before, every other wait node is as
before, and the futex wakes issued are those of the woken nodes, in chain order. -/
theorem wake_waiters_chain :
    ∀ (l : List Nat) (h fuel : Nat) (s : State),
      wait_chain s.wait_nodes h l → l.Nodup → l.length < fuel →
      ∃ s', wake_waiters fuel h s = some s' ∧
        (∀ y, s'.wait_nodes y =
          if y ∈ l ∧ (s.wait_nodes y).state &&& RCU_WAIT_RUNNING = 0 then
            { next := (s.wait_nodes y).next, state := RCU_WAIT_WAKEUP ||| RCU_WAIT_TEARDOWN }
          else s.wait_nodes y) ∧
        s'.trace = s.trace ++ (l.filter
          (fun y => decide ((s.wait_nodes y).state &&& RCU_WAIT_RUNNING = 0))).map
            Event.futex_wake_node := by
  intro l
  induction l with
  | nil =>
    intro h fuel s hc _ hfuel
    obtain ⟨k, rfl⟩ : ∃ k, fuel = k + 1 := ⟨fuel - 1, by simp at hfuel; omega⟩
    have h0 : h = 0 := hc
    refine ⟨s, by simp [wake_waiters, h0], fun y => by simp, by simp⟩
  | cons x xs ih =>
    intro h fuel s hc hnd hfuel
    obtain ⟨k, rfl⟩ : ∃ k, fuel = k + 1 := ⟨fuel - 1, by simp at hfuel; omega⟩
    obtain ⟨hx, hx0, hrest⟩ := hc
    obtain ⟨hxxs, hnd'⟩ := List.nodup_cons.1 hnd
    obtain ⟨f1, f2⟩ := wake_step_fields x s
    generalize hs1 : (if (s.wait_nodes x).state &&& RCU_WAIT_RUNNING = 0 then
      adaptative_wake_up x s else s) = s1 at f1 f2
    have hnext : (s1.wait_nodes x).next = (s.wait_nodes x).next := by
      rw [f1 x]; split <;> rfl
    have hother : ∀ y ∈ xs, s1.wait_nodes y = s.wait_nodes y := by
      intro y hy
      have hyx : y ≠ x := fun e => hxxs (e ▸ hy)
      rw [f1 y, if_neg (fun c => hyx c.1)]
    have hc1 : wait_chain s1.wait_nodes (s1.wait_nodes x).next xs := by
      rw [hnext]
      exact wait_chain_congr s.wait_nodes _ xs _ (fun y hy => by rw [hother y hy]) hrest
    obtain ⟨s', r1, r2, r3⟩ := ih (s1.wait_nodes x).next k s1 hc1 hnd'
      (by simp at hfuel; omega)
    refine ⟨s', ?_, ?_, ?_⟩
    · subst hx
      simp only [wake_waiters, if_neg hx0, hs1]
      exact r1
    · intro y
      rw [r2 y]
      by_cases hy : y = x
      · subst hy
        rw [if_neg (fun c => hxxs c.1), f1 y]
        simp
      · by_cases hyxs : y ∈ xs
        · rw [hother y hyxs]
          simp [hy, hyxs]
        · rw [if_neg (fun c => hyxs c.1), f1 y, if_neg (fun c => hy c.1)]
          simp [hy, hyxs]
    · rw [r3, f2]
      have hfilter : xs.filter (fun y => decide ((s1.wait_nodes y).state &&& RCU_WAIT_RUNNING = 0))
          = xs.filter (fun y => decide ((s.wait_nodes y).state &&& RCU_WAIT_RUNNING = 0)) := by
        apply List.filter_congr
        intro y hy
        rw [hother y hy]
      rw [hfilter, List.filter_cons]
      by_cases hp : (s.wait_nodes x).state &&& RCU_WAIT_RUNNING = 0
      · simp [hp]
      · simp [hp]


/-- Number of futex wakes on the node `x` among the wakes issued for the nodes of a
duplicate-free list `l` that satisfy `p`. -/
theorem count_wake_events (p : Nat → Bool) (x : Nat) (l : List Nat) (hnd : l.Nodup) :
    ((l.filter p).map Event.futex_wake_node).count (Event.futex_wake_node x) =
      if x ∈ l ∧ p x = true then 1 else 0 := by
  have hinj : Function.Injective Event.futex_wake_node := fun a b hab => by
    cases hab; rfl
  rw [List.count_map_of_injective _ _ hinj]
  by_cases hp : p x = true
  · rw [List.count_filter hp]
    by_cases hx : x ∈ l
    · rw [if_pos ⟨hx, hp⟩]
      exact List.count_eq_one_of_mem hnd hx
    · rw [if_neg (fun c => hx c.1)]
      exact List.count_eq_zero_of_not_mem hx
  · rw [if_neg (fun c => hp c.2)]
    exact List.count_eq_zero_of_not_mem (fun hm => hp (List.mem_filter.1 hm).2)

/-- Claim C17: the wake walk over the drained chain `l` of distinct wait nodes ends; every
node of the chain whose state lacked the `RUNNING` bit is left as one call of
`adaptative_wake_up` leaves it, with the `WAKEUP` and the `TEARDOWN` bit set, and exactly
one futex wake was issued on it; every node whose state had the `RUNNING` bit is
untouched and no wake was issued on it.  A call of `adaptative_wake_up` on a node in
state `RCU_WAIT_WAITING` leaves the state `WAKEUP | TEARDOWN` and issues one futex
wake. -/
theorem wake_walk_effect (l : List Nat) (h fuel : Nat) (s : State)
    (hc : wait_chain s.wait_nodes h l) (hnd : l.Nodup) (hfuel : l.length < fuel) :
    (∃ s', wake_waiters fuel h s = some s' ∧
      (∀ x ∈ l, (s.wait_nodes x).state &&& RCU_WAIT_RUNNING = 0 →
        s'.wait_nodes x = (adaptative_wake_up x s).wait_nodes x ∧
        (s'.wait_nodes x).state = RCU_WAIT_WAKEUP ||| RCU_WAIT_TEARDOWN ∧
        (s'.wait_nodes x).state &&& RCU_WAIT_WAKEUP ≠ 0 ∧
        (s'.wait_nodes x).state &&& RCU_WAIT_TEARDOWN ≠ 0 ∧
        s'.trace.count (Event.futex_wake_node x) =
          s.trace.count (Event.futex_wake_node x) + 1) ∧
      (∀ x, (s.wait_nodes x).state &&& RCU_WAIT_RUNNING ≠ 0 →
        s'.wait_nodes x = s.wait_nodes x ∧
        s'.trace.count (Event.futex_wake_node x) = s.trace.count (Event.futex_wake_node x))) ∧
    (∀ x, (s.wait_nodes x).state = RCU_WAIT_WAITING →
      adaptative_wake_up x s =
        { s with
          wait_nodes := upd s.wait_nodes x
            { next := (s.wait_nodes x).next, state := RCU_WAIT_WAKEUP ||| RCU_WAIT_TEARDOWN }
          trace := s.trace ++ [Event.futex_wake_node x] }) := by
  refine ⟨?_, fun x _ => adaptative_wake_up_eq x s⟩
  obtain ⟨s', r1, r2, r3⟩ := wake_waiters_chain l h fuel s hc hnd hfuel
  refine ⟨s', r1, ?_, ?_⟩
  · intro x hx hp
    have hw : s'.wait_nodes x =
        { next := (s.wait_nodes x).next, state := RCU_WAIT_WAKEUP ||| RCU_WAIT_TEARDOWN } := by
      rw [r2 x, if_pos ⟨hx, hp⟩]
    refine ⟨?_, ?_, ?_, ?_, ?_⟩
    · rw [hw, adaptative_wake_up_eq]
      exact (upd_same _ _ _).symm
    · rw [hw]
    · rw [hw]
      show (RCU_WAIT_WAKEUP ||| RCU_WAIT_TEARDOWN) &&& RCU_WAIT_WAKEUP ≠ 0
      decide
    · rw [hw]
      show (RCU_WAIT_WAKEUP ||| RCU_WAIT_TEARDOWN) &&& RCU_WAIT_TEARDOWN ≠ 0
      decide
    · rw [r3, List.count_append, count_wake_events _ x l hnd,
        if_pos ⟨hx, decide_eq_true hp⟩]
  · intro x hp
    refine ⟨by rw [r2 x, if_neg (fun c => hp c.2)], ?_⟩
    rw [r3, List.count_append, count_wake_events _ x l hnd,
      if_neg (fun c => hp (of_decide_eq_true c.2)), Nat.add_zero]

/-- Instance of claim C17: the leader `100` walks the chain `102, 101, 100`; the two
followers end in state `WAKEUP | TEARDOWN` with one wake each, the leader's node is
untouched. -/
theorem wake_walk_effect_witness :
    ∃ s', wake_waiters 4 102 three_waiters_state = some s' ∧
      s'.wait_nodes 102 = { next := 101, state := 5 } ∧
      s'.wait_nodes 101 = { next := 100, state := 5 } ∧
      s'.wait_nodes 100 = { next := 0, state := RCU_WAIT_RUNNING } ∧
      s'.trace.count (Event.futex_wake_node 102) = 1 ∧
      s'.trace.count (Event.futex_wake_node 100) = 0 :=
  have h := (wake_walk_effect [102, 101, 100] 102 4 three_waiters_state
    (by decide) (by decide) (by decide)).1
  ⟨h.choose, h.choose_spec.1,
    ((h.choose_spec.2.1 102 (by decide) (by decide)).1).trans (by decide),
    ((h.choose_spec.2.1 101 (by decide) (by decide)).1).trans (by decide),
    (h.choose_spec.2.2 100 (by decide)).1,
    (h.choose_spec.2.1 102 (by decide) (by decide)).2.2.2.2,
    (h.choose_spec.2.2 100 (by decide)).2⟩


/-! ## Moving a node to another list -/

/-- The stores of `reader_move` for a node `src` of a list and a list `dst` whose
sentinel is its own predecessor:
other nodes see only the two stores that unlink `src`; `src` becomes its own successor
with predecessor `dst`; `dst` gets the successor `src` and keeps itself as predecessor. -/
theorem reader_move_fields (src dst : Nat) (m : Mem) (hdp : (m dst).prev = dst)
    (hsd : src ≠ dst) (hn : (m src).next ≠ dst) (hns : (m src).next ≠ src) :
    (∀ x, x ≠ src → x ≠ dst → reader_move src dst m x =
      set_next (set_prev m (m src).next (m src).prev) (m src).prev (m src).next x) ∧
    reader_move src dst m src = { next := src, prev := dst, node := (m src).node } ∧
    reader_move src dst m dst = { next := src, prev := dst, node := (m dst).node } := by
  have hds : dst ≠ src := fun h => hsd h.symm
  have e1 : set_prev m (m src).next (m src).prev src = m src := by
    unfold set_prev; exact upd_other _ _ _ _ (fun h => hns h.symm)
  have e2 : (set_next (set_prev m (m src).next (m src).prev) (m src).prev (m src).next
      dst).prev = dst := by
    rw [(set_next_fields _ _ _ _).2.1, (set_prev_fields _ _ _ _).2.1,
      if_neg (fun h => hn h.symm), hdp]
  have e3 : (set_next (set_prev m (m src).next (m src).prev) (m src).prev (m src).next
      src).node = (m src).node := by
    rw [(set_next_fields _ _ _ _).2.2, (set_prev_fields _ _ _ _).2.2]
  have e4 : (set_next (set_prev m (m src).next (m src).prev) (m src).prev (m src).next
      dst).node = (m dst).node := by
    rw [(set_next_fields _ _ _ _).2.2, (set_prev_fields _ _ _ _).2.2]
  unfold reader_move
  simp only [e1]
  generalize set_next (set_prev m (m src).next (m src).prev) (m src).prev (m src).next = mu
    at e2 e3 e4 ⊢
  rw [e2]
  refine ⟨fun x hx1 hx2 => ?_, ?_, ?_⟩
  · simp only [set_next, set_prev, upd_apply, if_neg hx1, if_neg hx2]
  · simp only [set_next, set_prev, upd_apply, if_neg hsd, if_true, e3]
  · simp only [set_next, set_prev, upd_apply, if_neg hsd, if_neg hds, if_true, e2, e4]

/-- A list head whose successor is its own successor heads no well-formed circular list. -/
theorem not_circular_of_self_loop (m : Mem) (dst src : Nat) (hsd : src ≠ dst)
    (h1 : (m dst).next = src) (h2 : (m src).next = src) : ∀ l, ¬ circular m dst l := by
  intro l hc
  obtain ⟨hl, hnd⟩ := hc
  cases l with
  | nil => exact hsd (h1.symm.trans hl.1)
  | cons x xs =>
    obtain ⟨a1, _, a3⟩ := hl
    have hx : x = src := a1.symm.trans h1
    subst hx
    cases xs with
    | nil => exact hsd (h2.symm.trans a3.1)
    | cons y ys =>
      have hy : y = x := a3.1.symm.trans h2
      subst hy
      simp at hnd

/-- Claim C18 fails for an empty target list: after `reader_move(src, dst)` of a node
`src` of a well-formed circular list with sentinel `h` into a well-formed empty list
`dst`, the former list of `src` is well formed without `src`, but `src` is its own
successor and `dst` its own predecessor, so that `src->next->prev` is not `src`,
`dst->prev->next` is not `dst`, and `dst` heads no well-formed circular list. -/
theorem reader_move_breaks_target (m : Mem) (h src dst : Nat) (l1 l2 : List Nat)
    (hc : circular m h (l1 ++ src :: l2)) (hd : circular m dst [])
    (hdst : dst ∉ h :: (l1 ++ src :: l2)) :
    circular (reader_move src dst m) h (l1 ++ l2) ∧
    (reader_move src dst m dst).next = src ∧ (reader_move src dst m src).next = src ∧
    (reader_move src dst m src).prev = dst ∧ (reader_move src dst m dst).prev = dst ∧
    (reader_move src dst m (reader_move src dst m src).next).prev ≠ src ∧
    (reader_move src dst m (reader_move src dst m dst).prev).next ≠ dst ∧
    ∀ l, ¬ circular (reader_move src dst m) dst l := by
  obtain ⟨hl, hnd⟩ := hc
  obtain ⟨hh, hnd1⟩ := List.nodup_cons.1 hnd
  have hnd2 := List.nodup_middle.1 hnd1
  obtain ⟨hs12, hnd12⟩ := List.nodup_cons.1 hnd2
  obtain ⟨hla, hlb⟩ := (Linked_append m src h l2 l1 h).1 hl
  have hsd : src ≠ dst := fun e => hdst (by rw [← e]; simp)
  have hsh : src ≠ h := fun e => hh (by rw [← e]; simp)
  have hnmem : (m src).next ∈ l2 ++ [h] := Linked_next m src h l2 hlb
  have hn : (m src).next ≠ dst := fun e => hdst (by
    rw [← e]
    rcases List.mem_append.1 hnmem with h' | h'
    · simp [h']
    · simp at h'; simp [h'])
  have hns : (m src).next ≠ src := fun e => by
    rw [e] at hnmem
    rcases List.mem_append.1 hnmem with h' | h'
    · exact hs12 (List.mem_append_right l1 h')
    · simp at h'; exact hsh h'
  obtain ⟨f1, f2, f3⟩ := reader_move_fields src dst m hd.1.2 hsd hn hns
  have hu := Linked_unlink m src h l2 l1 h hl hnd hh
  have hne : ∀ x ∈ h :: (l1 ++ l2), x ≠ src ∧ x ≠ dst := by
    intro x hx
    refine ⟨fun e => ?_, fun e => ?_⟩
    · subst e
      rcases List.mem_cons.1 hx with h' | h'
      · exact hsh h'
      · exact hs12 h'
    · subst e
      apply hdst
      rcases List.mem_cons.1 hx with h' | h'
      · simp [h']
      · rcases List.mem_append.1 h' with hm | hm
        · simp [hm]
        · simp [hm]
  refine ⟨⟨?_, ?_⟩, by rw [f3], by rw [f2], by rw [f2], by rw [f3], ?_, ?_, ?_⟩
  · refine Linked_congr _ _ h (l1 ++ l2) h ?_ ?_ hu
    · intro x hx
      rw [f1 x (hne x hx).1 (hne x hx).2]
    · intro x hx
      have hx' : x ∈ h :: (l1 ++ l2) := by
        rcases List.mem_append.1 hx with h' | h'
        · exact List.mem_cons_of_mem h h'
        · simp at h'; simp [h']
      rw [f1 x (hne x hx').1 (hne x hx').2]
  · refine List.nodup_cons.2 ⟨fun hm => hh ?_, hnd12⟩
    rcases List.mem_append.1 hm with h' | h'
    · simp [h']
    · simp [h']
  · rw [f2]
    show (reader_move src dst m src).prev ≠ src
    rw [f2]
    exact fun e => hsd e.symm
  · rw [f3]
    show (reader_move src dst m dst).next ≠ dst
    rw [f3]
    exact hsd
  · exact not_circular_of_self_loop _ dst src hsd (by rw [f3]) (by rw [f2])

/-- Instance of claim C18: the leader of `synchronize_rcu` moves the only registered
node `4` to the empty quiescent list. -/
theorem reader_move_breaks_target_witness :
    circular (leader_state 100 (one_reader_state 0)).mem registry_reader_list ([] ++ 4 :: []) ∧
    circular (leader_state 100 (one_reader_state 0)).mem qs_readers [] ∧
    (reader_move 4 qs_readers (leader_state 100 (one_reader_state 0)).mem 4).next = 4 ∧
    (reader_move 4 qs_readers (leader_state 100 (one_reader_state 0)).mem qs_readers).prev =
      qs_readers ∧
    ∀ l, ¬ circular (reader_move 4 qs_readers (leader_state 100 (one_reader_state 0)).mem)
      qs_readers l :=
  have h := reader_move_breaks_target (leader_state 100 (one_reader_state 0)).mem
    registry_reader_list 4 qs_readers [] [] (by decide) (by decide) (by decide)
  ⟨by decide, by decide, h.2.2.1, h.2.2.2.2.1, h.2.2.2.2.2.2.2⟩


/-- The stores of `reader_move` into a list that is not empty, on `two_lists_mem`: node
`4` moves to the list with sentinel `3` and nodes `5`, `6`.  The old first node `5` keeps
the sentinel as predecessor and the old last node `6` gets `4` as successor, so that
following `next` from the sentinel never comes back to it. -/
theorem reader_move_nonempty_example :
    circular two_lists_mem 1 [4] ∧ circular two_lists_mem 3 [5, 6] ∧
    (reader_move 4 3 two_lists_mem 3).next = 4 ∧ (reader_move 4 3 two_lists_mem 4).next = 5 ∧
    (reader_move 4 3 two_lists_mem 5).next = 6 ∧ (reader_move 4 3 two_lists_mem 6).next = 4 ∧
    (reader_move 4 3 two_lists_mem 5).prev = 3 ∧ circular (reader_move 4 3 two_lists_mem) 1 [] := by
  decide


/-! ## One traversal pass and the test that follows it -/

/-- Claim C13 fails as soon as a reader has to be moved: over a well-formed registry as
input list with both target lists well formed and empty, if some registered reader is
classified `RCU_READER_INACTIVE` or `RCU_READER_ACTIVE_CURRENT`, the traversal pass of
`wait_for_readers` does not end, whatever the fuel; no pass ends with a reader in a
target list. -/
theorem scan_pass_never_ends (l : List Nat) (s : State) (b : Nat)
    (hc : circular s.mem registry_reader_list l)
    (hsent : (s.mem registry_reader_list).node = 0)
    (hn : ∀ a ∈ l, a ≠ 0 ∧ a ≠ cur_snap_readers ∧ a ≠ qs_readers ∧ (s.mem a).node ≠ 0)
    (hcur : circular s.mem cur_snap_readers []) (hqs : circular s.mem qs_readers [])
    (hb : b ∈ l)
    (hst : reader_state s.gp (s.readers (s.mem b).node) ≠
      rcu_reader_state.RCU_READER_ACTIVE_OLD) :
    ∀ fuel, scan_readers fuel registry_reader_list cur_snap_readers qs_readers
      registry_reader_list s = none := by
  intro fuel
  cases hr : scan_readers fuel registry_reader_list cur_snap_readers qs_readers
      registry_reader_list s with
  | none => rfl
  | some s' =>
    exfalso
    have hn' : ∀ a ∈ l, a ≠ 0 ∧ a ≠ registry_reader_list ∧ a ≠ cur_snap_readers ∧
        a ≠ qs_readers ∧ (s.mem a).node ≠ 0 := by
      intro a ha
      obtain ⟨h1, h2, h3, h4⟩ := hn a ha
      refine ⟨h1, fun e => ?_, h2, h3, h4⟩
      subst e
      exact (List.nodup_cons.1 hc.2).1 ha
    exact hst ((scan_registry_sound l fuel s s' hc.1 hsent hn' hcur.1.2 hqs.1.2 hr).2 b hb)

/-- Instance of claim C13: the registry holds one idle reader; the first traversal pass
of the leader of `synchronize_rcu` does not end. -/
theorem scan_pass_never_ends_witness :
    registry_wf (one_reader_state 0) [4] ∧
    reader_state (one_reader_state 0).gp ((one_reader_state 0).readers 10) =
      rcu_reader_state.RCU_READER_INACTIVE ∧
    ∀ fuel, scan_readers fuel registry_reader_list cur_snap_readers qs_readers
      registry_reader_list (leader_state 100 (one_reader_state 0)) = none :=
  ⟨by decide, by decide,
    scan_pass_never_ends [4] (leader_state 100 (one_reader_state 0)) 4 (by decide) (by decide)
      (by decide) (by decide) (by decide) (by decide) (by decide)⟩

/-- The function `wait_for_readers` on an input list that is not empty and whose readers
are all classified `RCU_READER_ACTIVE_OLD`, which no run within the contract passes to it
(`legal_inv_wait_for_readers_none`): it returns after its first pass, with enough fuel
for one pass.  No reader was moved out of the input list, the list nodes are as before,
there was no back-off, and the test at the end of the pass has stored the head into its
own `next` field, which pointed to the first reader before. -/
theorem wait_for_readers_returns_with_old_readers (input_readers cur_snap qs : Nat)
    (l : List Nat) (n : Nat) (s : State) (h0 : input_readers ≠ 0)
    (hl : Linked s.mem input_readers l input_readers)
    (hsent : (s.mem input_readers).node = 0)
    (hn : ∀ b ∈ l, b ≠ 0 ∧ b ≠ input_readers ∧ (s.mem b).node ≠ 0 ∧
      reader_state s.gp (s.readers (s.mem b).node) = rcu_reader_state.RCU_READER_ACTIVE_OLD)
    (hne : l ≠ []) (hfuel : l.length + 1 < n) :
    wait_for_readers (n + 1) input_readers cur_snap qs 0 s =
      some { s with mem := set_next s.mem input_readers input_readers } ∧
    (s.mem input_readers).next ≠ input_readers ∧
    (set_next s.mem input_readers input_readers input_readers).next = input_readers ∧
    ∀ b ∈ l, set_next s.mem input_readers input_readers b = s.mem b := by
  refine ⟨?_, ?_, ?_, ?_⟩
  · rw [wait_for_readers_once n input_readers cur_snap qs s h0,
      scan_list_all_old input_readers cur_snap qs l n s h0 hl hsent hn hfuel]
  · cases l with
    | nil => exact absurd rfl hne
    | cons a l0 =>
      rw [hl.1]
      exact (hn a (List.mem_cons_self a l0)).2.1
  · rw [(set_next_fields _ _ _ _).1, if_pos rfl]
  · intro b hb
    unfold set_next
    exact upd_other _ _ _ _ (hn b hb).2.1

/-- The function `wait_for_readers` on the one-reader registry with the reader's counter
set to `2 ^ 32 + 1`: the scan returns at once and leaves the registry head pointing to
itself while the reader's node still points to the head. -/
theorem wait_for_readers_returns_with_old_readers_example :
    reader_state (one_reader_state (2 ^ 32 + 1)).gp
      ((one_reader_state (2 ^ 32 + 1)).readers 10) = rcu_reader_state.RCU_READER_ACTIVE_OLD ∧
    wait_for_readers 4 registry_reader_list cur_snap_readers qs_readers 0
        (one_reader_state (2 ^ 32 + 1)) =
      some { one_reader_state (2 ^ 32 + 1) with
        mem := set_next (one_reader_state (2 ^ 32 + 1)).mem registry_reader_list
          registry_reader_list } ∧
    ((one_reader_state (2 ^ 32 + 1)).mem registry_reader_list).next = 4 :=
  have h := wait_for_readers_returns_with_old_readers registry_reader_list cur_snap_readers
    qs_readers [4] 3 (one_reader_state (2 ^ 32 + 1)) (by decide) (by decide) (by decide)
    (by decide) (by decide) (by decide)
  ⟨by decide, h.1, by decide⟩


/-! ## Splicing a list onto another -/

/-- The four stores of `reader_splice`, with the pointers they read, for a list `src`
whose first and last node are not `src` and whose last node is not `dst`. -/
theorem reader_splice_eq (src dst : Nat) (m : Mem) (h1 : (m src).next ≠ src)
    (h2 : (m src).prev ≠ src) (h3 : (m src).prev ≠ dst) :
    reader_splice src dst m =
      set_next (set_prev (set_next (set_prev m (m src).next dst) (m src).prev (m dst).next)
        (m dst).next (m src).prev) dst (m src).next := by
  have g1 : ¬ src = (m src).next := fun h => h1 h.symm
  have g2 : ¬ src = (m src).prev := fun h => h2 h.symm
  have g3 : ¬ dst = (m src).prev := fun h => h3 h.symm
  unfold reader_splice
  simp only [(set_next_fields _ _ _ _).1, (set_next_fields _ _ _ _).2.1,
    (set_prev_fields _ _ _ _).1, (set_prev_fields _ _ _ _).2.1, if_neg g1, if_neg g2, if_neg g3]

/-- Fields of a node after `reader_splice`, under the conditions of `reader_splice_eq`. -/
theorem reader_splice_fields (src dst : Nat) (m : Mem) (h1 : (m src).next ≠ src)
    (h2 : (m src).prev ≠ src) (h3 : (m src).prev ≠ dst) (x : Nat) :
    (reader_splice src dst m x).next =
      (if x = dst then (m src).next else if x = (m src).prev then (m dst).next
        else (m x).next) ∧
    (reader_splice src dst m x).prev =
      (if x = (m dst).next then (m src).prev else if x = (m src).next then dst
        else (m x).prev) ∧
    (reader_splice src dst m x).node = (m x).node := by
  rw [reader_splice_eq src dst m h1 h2 h3]
  simp only [(set_next_fields _ _ _ _).1, (set_next_fields _ _ _ _).2.1,
    (set_prev_fields _ _ _ _).1, (set_prev_fields _ _ _ _).2.1,
    (set_next_fields _ _ _ _).2.2, (set_prev_fields _ _ _ _).2.2, and_self]

/-- A linked list from `a` through `l` to `b` stays linked, and ends at `c`, in a memory
that keeps the inner links and makes the last node and `c` point to each other. -/
theorem Linked_retarget (m m' : Mem) (b c : Nat) :
    ∀ (l : List Nat) (a : Nat), Linked m a l b → (a :: l).Nodup →
      (∀ x ∈ a :: l, x ≠ (m b).prev → (m' x).next = (m x).next) →
      (∀ x ∈ l, (m' x).prev = (m x).prev) →
      (m' (m b).prev).next = c → (m' c).prev = (m b).prev → Linked m' a l c := by
  intro l
  induction l with
  | nil =>
    intro a hl _ _ _ hn hp
    rw [hl.2] at hn hp
    exact ⟨hn, hp⟩
  | cons x xs ih =>
    intro a hl hnd hnext hprev hn hp
    obtain ⟨a1, a2, a3⟩ := hl
    obtain ⟨ha, hnd'⟩ := List.nodup_cons.1 hnd
    have hlast : (m b).prev ∈ x :: xs := Linked_prev m b xs x a3
    have hane : a ≠ (m b).prev := fun e => ha (e ▸ hlast)
    refine ⟨?_, ?_, ?_⟩
    · rw [hnext a (List.mem_cons_self a _) hane]; exact a1
    · rw [hprev x (List.mem_cons_self x xs)]; exact a2
    · exact ih x a3 hnd' (fun y hy => hnext y (List.mem_cons_of_mem a hy))
        (fun y hy => hprev y (List.mem_cons_of_mem x hy)) hn hp


/-- The list `dst` after `reader_splice(src, dst)`, for a list `src` with first node `a`:
the nodes of `src` in order, then the former nodes of `dst` in order. -/
theorem reader_splice_linked (m : Mem) (src dst a : Nat) (ls ld : List Nat)
    (hs : Linked m src (a :: ls) src) (hd : Linked m dst ld dst)
    (hdisj : (src :: dst :: ((a :: ls) ++ ld)).Nodup) :
    Linked (reader_splice src dst m) dst ((a :: ls) ++ ld) dst := by
  obtain ⟨hsrc, hrest⟩ := List.nodup_cons.1 hdisj
  obtain ⟨hdst, hnd⟩ := List.nodup_cons.1 hrest
  obtain ⟨hndL, hndld, hdis⟩ := List.nodup_append.1 hnd
  obtain ⟨s1, s2, s3⟩ := hs
  have hsnL : (m src).prev ∈ a :: ls := Linked_prev m src ls a s3
  have hsrcL : ∀ x ∈ a :: ls, x ≠ src := fun x hx e =>
    hsrc (List.mem_cons_of_mem dst (List.mem_append_left ld (e ▸ hx)))
  have hdstL : ∀ x ∈ a :: ls, x ≠ dst := fun x hx e =>
    hdst (List.mem_append_left ld (e ▸ hx))
  have hdstld : ∀ x ∈ ld, x ≠ dst := fun x hx e =>
    hdst (List.mem_append_right (a :: ls) (e ▸ hx))
  have haL : a ∈ a :: ls := List.mem_cons_self a ls
  have ha_ls : ∀ x ∈ ls, x ≠ a := fun x hx e => (List.nodup_cons.1 hndL).1 (e ▸ hx)
  have h1 : (m src).next ≠ src := by rw [s1]; exact hsrcL a haL
  have h2 : (m src).prev ≠ src := hsrcL _ hsnL
  have h3 : (m src).prev ≠ dst := hdstL _ hsnL
  have F := reader_splice_fields src dst m h1 h2 h3
  have hd1 : (m dst).next ∈ ld ++ [dst] := Linked_next m dst dst ld hd
  have hLd1 : ∀ x ∈ a :: ls, x ≠ (m dst).next := by
    intro x hx e
    rcases List.mem_append.1 hd1 with h' | h'
    · exact hdis hx (e ▸ h')
    · simp at h'; exact hdstL x hx (e.trans h')
  have hnext : ∀ x ∈ a :: ls, x ≠ (m src).prev →
      (reader_splice src dst m x).next = (m x).next := by
    intro x hx hxs
    rw [(F x).1, if_neg (hdstL x hx), if_neg hxs]
  have hprev : ∀ x ∈ ls, (reader_splice src dst m x).prev = (m x).prev := by
    intro x hx
    rw [(F x).2.1, if_neg (hLd1 x (List.mem_cons_of_mem a hx)), s1, if_neg (ha_ls x hx)]
  have hn : (reader_splice src dst m (m src).prev).next = (m dst).next := by
    rw [(F _).1, if_neg h3, if_pos rfl]
  have hp : (reader_splice src dst m (m dst).next).prev = (m src).prev := by
    rw [(F _).2.1, if_pos rfl]
  show Linked (reader_splice src dst m) dst (a :: (ls ++ ld)) dst
  refine ⟨by rw [(F dst).1, if_pos rfl, s1], ?_, ?_⟩
  · rw [(F a).2.1, if_neg (hLd1 a haL), s1, if_pos rfl]
  · cases ld with
    | nil =>
      rw [List.append_nil]
      rw [hd.1] at hn hp
      exact Linked_retarget m _ src dst ls a s3 hndL hnext hprev hn hp
    | cons d ld0 =>
      obtain ⟨d1, d2, d3⟩ := hd
      rw [d1] at hn hp
      refine (Linked_append _ d dst ld0 ls a).2
        ⟨Linked_retarget m _ src d ls a s3 hndL hnext hprev hn hp, ?_⟩
      refine Linked_congr m _ dst ld0 d ?_ ?_ d3
      · intro x hx
        have hxs : x ≠ (m src).prev := fun e => hdis hsnL (e ▸ hx)
        rw [(F x).1, if_neg (hdstld x hx), if_neg hxs]
      · intro x hx
        have hxd : x ≠ d := by
          intro e
          rcases List.mem_append.1 hx with h' | h'
          · exact (List.nodup_cons.1 hndld).1 (e ▸ h')
          · simp at h'
            exact hdstld d (List.mem_cons_self d ld0) (e.symm.trans h')
        have hxa : x ≠ a := by
          intro e
          rcases List.mem_append.1 hx with h' | h'
          · exact hdis haL (List.mem_cons_of_mem d (e ▸ h'))
          · simp at h'
            exact hdstL a haL (e.symm.trans h')
        rw [(F x).2.1, d1, if_neg hxd, s1, if_neg hxa]

/-- Claim C19: for a well-formed circular list with sentinel `src` and nodes `ls`, not
empty, and a well-formed circular list with sentinel `dst` and nodes `ld`, the two lists
sharing no node, `reader_splice(src, dst)` leaves `dst` the sentinel of a well-formed
circular doubly-linked list whose nodes are `ls` in order followed by `ld` in order,
without duplicate; the sentinel `src` is not among them and no `node` field is
written. -/
theorem reader_splice_circular (m : Mem) (src dst : Nat) (ls ld : List Nat)
    (hs : circular m src ls) (hd : circular m dst ld) (hne : ls ≠ [])
    (hdisj : (src :: dst :: (ls ++ ld)).Nodup) :
    circular (reader_splice src dst m) dst (ls ++ ld) ∧ src ∉ ls ++ ld ∧
    (ls ++ ld).length = ls.length + ld.length ∧
    ∀ x, (reader_splice src dst m x).node = (m x).node := by
  have hsrc : src ∉ ls ++ ld := fun h =>
    (List.nodup_cons.1 hdisj).1 (List.mem_cons_of_mem dst h)
  cases ls with
  | nil => exact absurd rfl hne
  | cons a ls0 =>
    refine ⟨⟨reader_splice_linked m src dst a ls0 ld hs.1 hd.1 hdisj,
      (List.nodup_cons.1 hdisj).2⟩, hsrc, List.length_append _ _, ?_⟩
    intro x
    unfold reader_splice
    simp only [(set_next_fields _ _ _ _).2.2, (set_prev_fields _ _ _ _).2.2]

/-- Instance of claim C19: on `two_lists_mem`, the list with sentinel `3` and nodes `5`,
`6` is spliced onto the list with sentinel `1` and node `4`; the result is the list with
sentinel `1` and nodes `5`, `6`, `4`. -/
theorem reader_splice_circular_witness :
    circular two_lists_mem 3 [5, 6] ∧ circular two_lists_mem 1 [4] ∧
    circular (reader_splice 3 1 two_lists_mem) 1 ([5, 6] ++ [4]) ∧ 3 ∉ [5, 6] ++ [4] :=
  have h := reader_splice_circular two_lists_mem 3 1 [5, 6] [4] (by decide) (by decide)
    (by decide) (by decide)
  ⟨by decide, by decide, h.1, h.2.1⟩


/-! ## Runs within the contract -/

/-- With `gp.ctr` at its initial value and a counter below `2 ^ 32`, a reader is never
classified `RCU_READER_ACTIVE_OLD`. -/
theorem reader_state_not_old (gp : rcu_gp) (r : rcu_reader) (hg : gp.ctr = 1)
    (hr : r.ctr < 2 ^ 32) : reader_state gp r ≠ rcu_reader_state.RCU_READER_ACTIVE_OLD := by
  have h1 : r.ctr.testBit 32 = false := Nat.testBit_lt_two_pow hr
  have h2 : (r.ctr ^^^ gp.ctr).testBit 32 = false := by
    rw [Nat.testBit_xor, h1, hg]; decide
  unfold reader_state
  simp only [(and_phase_eq_zero _).2 h2, if_true]
  split <;> simp

/-- Well-formedness of the registry depends on the list memory, the allocated nodes and
the back-pointers of the records only. -/
theorem registry_wf_congr (s s' : State) (l : List Nat) (hm : s'.mem = s.mem)
    (hl : s'.live = s.live) (hr : ∀ t, (s'.readers t).list = (s.readers t).list)
    (h : registry_wf s l) : registry_wf s' l := by
  obtain ⟨h1, h2, h3⟩ := h
  refine ⟨by rw [hm]; exact h1, by rw [hm]; exact h2, ?_⟩
  intro a ha
  obtain ⟨a1, a2, a3, a4, a5, a6⟩ := h3 a ha
  refine ⟨a1, a2, a3, by rw [hl]; exact a4, by rw [hm]; exact a5, ?_⟩
  rw [hm, hr]; exact a6

/-- Program start satisfies the invariant, with an empty registry. -/
theorem legal_inv_init (script : List futex_outcome) : legal_inv (init script) [] := by
  refine ⟨rfl, ⟨rfl, rfl, rfl⟩, ⟨⟨⟨rfl, rfl⟩, by decide⟩, rfl, ?_⟩, ?_, ?_, ?_⟩
  · intro a ha; cases ha
  · intro t; show (0 : Nat) < 2 ^ 32; decide
  · intro t _; exact ⟨rfl, rfl⟩
  · intro t h; exact absurd rfl h

/-- A store to a thread's counter keeps the invariant when the new value is a nest depth
below `2 ^ 32`, and `0` for a thread that is not registered. -/
theorem legal_inv_set_ctr (s : State) (l : List Nat) (t v : Nat) (h : legal_inv s l)
    (hv : v < 2 ^ 32) (hreg : (s.readers t).registered = 0 → v = 0) :
    legal_inv (set_ctr s t v) l := by
  obtain ⟨hg, hq, hwf, hc, hu, hr⟩ := h
  have hf : ∀ u, ((set_ctr s t v).readers u).registered = (s.readers u).registered ∧
      ((set_ctr s t v).readers u).list = (s.readers u).list ∧
      ((set_ctr s t v).readers u).ctr = if u = t then v else (s.readers u).ctr := by
    intro u
    by_cases hut : u = t
    · subst hut
      simp only [set_ctr, upd_same, if_true, and_self]
    · simp only [set_ctr, upd_other _ _ _ _ hut, if_neg hut, and_self]
  refine ⟨hg, hq, registry_wf_congr s _ l rfl rfl (fun u => (hf u).2.1) hwf, ?_, ?_, ?_⟩
  · intro u
    rw [(hf u).2.2]
    split
    · exact hv
    · exact hc u
  · intro u hu0
    rw [(hf u).1] at hu0
    rw [(hf u).2.1, (hf u).2.2]
    refine ⟨(hu u hu0).1, ?_⟩
    split
    · rename_i hut
      subst hut
      exact hreg hu0
    · exact (hu u hu0).2
  · intro u hu1
    rw [(hf u).1] at hu1
    rw [(hf u).2.1]
    exact hr u hu1


/-- What `rcu_register_thread` leaves alone and what it stores in the caller's record and
in the `node` fields. -/
theorem rcu_register_thread_frame (s s' : State) (t p : Nat)
    (h : rcu_register_thread t p s = some s') :
    s'.gp_waiters = s.gp_waiters ∧ s'.rcu_gp_lock = s.rcu_gp_lock ∧
    (∀ u, u ≠ t → s'.readers u = s.readers u) ∧
    (s'.readers t).ctr = (s.readers t).ctr ∧
    (∀ a, (s'.mem a).node = if a = p then t else (s.mem a).node) := by
  unfold rcu_register_thread lock_registry at h
  simp only at h
  split at h
  · cases h
  · rename_i s1 hs1
    split at hs1
    · cases hs1
    · cases hs1
      split at h
      · cases h
      · cases h
        refine ⟨rfl, rfl, ?_, ?_, ?_⟩
        · intro u hu
          simp only [unlock_registry, reader_add, upd_other _ _ _ _ hu]
        · simp only [unlock_registry, reader_add, upd_same]
        · intro a
          simp only [unlock_registry, reader_add, (set_next_fields _ _ _ _).2.2,
            (set_prev_fields _ _ _ _).2.2, (set_node_fields _ _ _ _).2.2]
          by_cases hap : a = p
          · simp only [hap, if_true]
          · simp only [if_neg hap, upd_other _ _ _ _ hap]

/-- What `rcu_unregister_thread` leaves alone and what it stores in the caller's
record. -/
theorem rcu_unregister_thread_frame (s s' : State) (t : Nat)
    (h : rcu_unregister_thread t s = some s') :
    s'.gp_waiters = s.gp_waiters ∧ s'.rcu_gp_lock = s.rcu_gp_lock ∧
    s'.rcu_registry_lock = false ∧ s.rcu_registry_lock = false ∧
    (∀ u, u ≠ t → s'.readers u = s.readers u) ∧
    (s'.readers t).ctr = (s.readers t).ctr ∧
    (s'.readers t).registered = 0 ∧ (s'.readers t).list = 0 ∧
    (∀ a, (s'.mem a).node = (s.mem a).node) ∧
    ((s.readers t).list = 0 → s'.mem = s.mem ∧ s'.live = s.live) := by
  unfold rcu_unregister_thread lock_registry at h
  split at h
  · cases h
  · rename_i s1 hs1
    split at hs1
    · cases hs1
    · rename_i hlock
      cases hs1
      cases h
      simp only [reader_del, upd_same]
      have hl : s.rcu_registry_lock = false := by
        cases hb : s.rcu_registry_lock
        · rfl
        · exact absurd hb hlock
      split
      · rename_i h0
        refine ⟨rfl, rfl, rfl, hl, ?_, ?_, ?_, ?_, fun _ => rfl, fun _ => ⟨rfl, rfl⟩⟩
        · intro u hu
          simp only [unlock_registry, upd_other _ _ _ _ hu]
        · simp only [unlock_registry, upd_same]
        · simp only [unlock_registry, upd_same]
        · simp only [unlock_registry, upd_same]
          exact h0
      · rename_i h0
        refine ⟨rfl, rfl, rfl, hl, ?_, ?_, ?_, ?_, ?_, fun e => absurd e h0⟩
        · intro u hu
          simp only [unlock_registry, upd_other _ _ _ _ hu]
        · simp only [unlock_registry, upd_same]
        · simp only [unlock_registry, upd_same]
        · simp only [unlock_registry, upd_same]
        · intro a
          simp only [unlock_registry, (set_next_fields _ _ _ _).2.2,
            (set_prev_fields _ _ _ _).2.2]


/-- Registration within the contract keeps the invariant; the new node is the first of
the registry. -/
theorem legal_inv_register (s s' : State) (l : List Nat) (t p : Nat) (hinv : legal_inv s l)
    (ht : t ≠ 0) (hfresh : fresh s p) (hreg0 : (s.readers t).registered = 0)
    (h : rcu_register_thread t p s = some s') : legal_inv s' (p :: l) := by
  obtain ⟨hg, ⟨hq, hgl, hrl⟩, hwf, hc, hu, hr⟩ := hinv
  have hnew : ∀ a ∈ l, (s.mem a).node ≠ t := by
    intro a ha e
    obtain ⟨a0, _, _, _, _, a6⟩ := hwf.2.2 a ha
    rw [e, (hu t hreg0).1] at a6
    exact a0 a6.symm
  obtain ⟨s1, e1, w1, _, w3, w4, w5, w6⟩ := rcu_register_thread_wf s l t p hwf hrl ht hfresh hnew
  have hs : s1 = s' := Option.some.inj (e1.symm.trans h)
  subst hs
  obtain ⟨f1, f2, f3, f4, f5⟩ := rcu_register_thread_frame s s1 t p h
  have hpl : p ∉ l := fun hp => hfresh.2.2.2.2 (hwf.2.2 p hp).2.2.2.1
  refine ⟨by rw [rcu_register_thread_gp t p s s1 h]; exact hg, ⟨by rw [f1]; exact hq,
    by rw [f2]; exact hgl, w6⟩, w1, ?_, ?_, ?_⟩
  · intro u
    by_cases hut : u = t
    · subst hut; rw [f4]; exact hc u
    · rw [f3 u hut]; exact hc u
  · intro u hu0
    by_cases hut : u = t
    · subst hut
      rw [w3] at hu0
      exact absurd hu0 (by decide)
    · rw [f3 u hut] at hu0 ⊢
      exact hu u hu0
  · intro u hu1
    by_cases hut : u = t
    · subst hut
      rw [w4]
      exact ⟨List.mem_cons_self p l, w5⟩
    · rw [f3 u hut] at hu1 ⊢
      obtain ⟨r1, r2⟩ := hr u hu1
      have hne : (s.readers u).list ≠ p := fun e => hpl (e ▸ r1)
      exact ⟨List.mem_cons_of_mem p r1, by rw [f5, if_neg hne]; exact r2⟩

/-- Unregistering outside any read-side critical section keeps the invariant, for the
registry without the caller's node. -/
theorem legal_inv_unregister (s s' : State) (l : List Nat) (t : Nat) (hinv : legal_inv s l)
    (hd : (s.readers t).ctr % 2 ^ 32 = 0) (h : rcu_unregister_thread t s = some s') :
    ∃ l', legal_inv s' l' := by
  obtain ⟨hg, ⟨hq, hgl, hrl⟩, hwf, hc, hu, hr⟩ := hinv
  obtain ⟨f1, f2, f3, _, f5, f6, f7, f8, f9, f10⟩ := rcu_unregister_thread_frame s s' t h
  have hct : (s.readers t).ctr = 0 := by
    have := hc t
    omega
  have hgen : ∀ l', registry_wf s' l' →
      (∀ u, u ≠ t → (s.readers u).registered ≠ 0 → (s.readers u).list ∈ l') →
      legal_inv s' l' := by
    intro l' hwf' hmem
    refine ⟨by rw [rcu_unregister_thread_gp t s s' h]; exact hg, ⟨by rw [f1]; exact hq,
      by rw [f2]; exact hgl, f3⟩, hwf', ?_, ?_, ?_⟩
    · intro u
      by_cases hut : u = t
      · subst hut; rw [f6]; exact hc u
      · rw [f5 u hut]; exact hc u
    · intro u hu0
      by_cases hut : u = t
      · subst hut
        exact ⟨f8, by rw [f6]; exact hct⟩
      · rw [f5 u hut] at hu0 ⊢
        exact hu u hu0
    · intro u hu1
      by_cases hut : u = t
      · subst hut
        exact absurd f7 hu1
      · rw [f5 u hut] at hu1 ⊢
        exact ⟨hmem u hut hu1, by rw [f9]; exact (hr u hu1).2⟩
  by_cases hl0 : (s.readers t).list = 0
  · obtain ⟨m1, m2⟩ := f10 hl0
    refine ⟨l, hgen l ?_ (fun u _ hu1 => (hr u hu1).1)⟩
    refine registry_wf_congr s s' l m1 m2 ?_ hwf
    intro u
    by_cases hut : u = t
    · subst hut; rw [f8, hl0]
    · rw [f5 u hut]
  · have hreg : (s.readers t).registered ≠ 0 := fun e => hl0 (hu t e).1
    obtain ⟨r1, r2⟩ := hr t hreg
    obtain ⟨l1, l2, hsplit⟩ := List.append_of_mem r1
    rw [hsplit] at hwf
    obtain ⟨s3, e3, w3, _⟩ :=
      rcu_unregister_thread_wf s l1 l2 (s.readers t).list hwf hrl
    rw [r2] at e3
    have hs : s3 = s' := Option.some.inj (e3.symm.trans h)
    subst hs
    refine ⟨l1 ++ l2, hgen (l1 ++ l2) w3 ?_⟩
    intro u hut hu1
    obtain ⟨q1, q2⟩ := hr u hu1
    have hne : (s.readers u).list ≠ (s.readers t).list := by
      intro e
      rw [e, r2] at q2
      exact hut q2.symm
    rw [hsplit] at q1
    rcases List.mem_append.1 q1 with hm | hm
    · exact List.mem_append_left l2 hm
    · rcases List.mem_cons.1 hm with hm2 | hm2
      · exact absurd hm2 hne
      · exact List.mem_append_right l1 hm2


/-- A `synchronize_rcu` call that returns, made as leader on an empty registry: `gp`, the
reader records, the allocated nodes and the list memory outside the caller's two list
heads are as before, the wait queue is empty and both mutexes are free. -/
theorem synchronize_rcu_empty_post (s s' : State) (w fuel : Nat) (hw : w ≠ 0)
    (hreg : (s.mem registry_reader_list).next = registry_reader_list)
    (hq : s.gp_waiters = 0) (hgl : s.rcu_gp_lock = false) (hrl : s.rcu_registry_lock = false)
    (h : synchronize_rcu fuel w s = some s') :
    s'.gp = s.gp ∧ s'.readers = s.readers ∧ s'.live = s.live ∧
    (∀ a : Nat, a ≠ cur_snap_readers → a ≠ qs_readers → s'.mem a = s.mem a) ∧
    s'.gp_waiters = 0 ∧ s'.rcu_gp_lock = false ∧ s'.rcu_registry_lock = false := by
  have h1 : registry_reader_list ≠ qs_readers := by decide
  have h2 : registry_reader_list ≠ cur_snap_readers := by decide
  have h3 : ¬ (RCU_WAIT_RUNNING &&& RCU_WAIT_RUNNING = 0) := by decide
  match fuel, h with
  | 0, h =>
    simp only [synchronize_rcu, wait_queue_push, hq, set_wait_state, lock_gp, hgl,
      wait_queue_move, lock_registry, hrl, grace_period, upd_same, upd_other _ _ _ _ h1,
      upd_other _ _ _ _ h2, hreg, unlock_gp, unlock_registry, wake_waiters, ne_eq,
      not_true_eq_false, if_false, if_true, Bool.false_eq_true] at h
    cases h
  | 1, h =>
    simp only [synchronize_rcu, wait_queue_push, hq, set_wait_state, lock_gp, hgl,
      wait_queue_move, lock_registry, hrl, grace_period, upd_same, upd_other _ _ _ _ h1,
      upd_other _ _ _ _ h2, hreg, unlock_gp, unlock_registry, wake_waiters, hw, h3, ne_eq,
      not_true_eq_false, if_false, if_true, Bool.false_eq_true] at h
    cases h
  | f + 2, h =>
    simp only [synchronize_rcu, wait_queue_push, hq, set_wait_state, lock_gp, hgl,
      wait_queue_move, lock_registry, hrl, grace_period, upd_same, upd_other _ _ _ _ h1,
      upd_other _ _ _ _ h2, hreg, unlock_gp, unlock_registry, wake_waiters, hw, h3, ne_eq,
      not_true_eq_false, if_false, if_true, Bool.false_eq_true, Option.some.injEq] at h
    subst h
    refine ⟨rfl, rfl, rfl, ?_, rfl, rfl, rfl⟩
    intro a ha hb
    simp only [upd_other _ _ _ _ ha, upd_other _ _ _ _ hb]

/-- Between calls made within the contract, a `synchronize_rcu` call on a registry that
is not empty does not return, whatever the fuel: the traversal of the first scan meets a
reader that is not in the old phase. -/
theorem legal_inv_synchronize_none (s : State) (a : Nat) (l0 : List Nat) (w : Nat)
    (hinv : legal_inv s (a :: l0)) (hw : w ≠ 0) :
    ∀ fuel, synchronize_rcu fuel w s = none := by
  intro fuel
  obtain ⟨hg, ⟨hq, hgl, hrl⟩, hwf, hc, _, _⟩ := hinv
  cases hr : synchronize_rcu fuel w s with
  | none => rfl
  | some s' =>
    exfalso
    have hold := (synchronize_rcu_sound s a l0 w fuel s' hwf hq hgl hrl hw hr).1 a
      (List.mem_cons_self a l0)
    exact reader_state_not_old s.gp _ (by rw [hg]) (hc _) hold

/-- A `synchronize_rcu` call that returns between calls made within the contract found
the registry empty and keeps the invariant. -/
theorem legal_inv_synchronize (s s' : State) (l : List Nat) (w fuel : Nat)
    (hinv : legal_inv s l) (hw : w ≠ 0) (h : synchronize_rcu fuel w s = some s') :
    l = [] ∧ legal_inv s' [] := by
  cases l with
  | cons a l0 =>
    rw [legal_inv_synchronize_none s a l0 w hinv hw fuel] at h
    cases h
  | nil =>
    refine ⟨rfl, ?_⟩
    obtain ⟨hg, ⟨hq, hgl, hrl⟩, hwf, hc, hu, hr⟩ := hinv
    have h1 : registry_reader_list ≠ qs_readers := by decide
    have h2 : registry_reader_list ≠ cur_snap_readers := by decide
    obtain ⟨p1, p2, p3, p4, p5, p6, p7⟩ :=
      synchronize_rcu_empty_post s s' w fuel hw hwf.1.1.1 hq hgl hrl h
    have hm : s'.mem registry_reader_list = s.mem registry_reader_list := p4 _ h2 h1
    refine ⟨by rw [p1]; exact hg, ⟨p5, p6, p7⟩, ⟨⟨⟨?_, ?_⟩, hwf.1.2⟩, ?_, ?_⟩, ?_, ?_, ?_⟩
    · rw [hm]; exact hwf.1.1.1
    · rw [hm]; exact hwf.1.1.2
    · rw [hm]; exact hwf.2.1
    · intro a ha; cases ha
    · intro t; rw [p2]; exact hc t
    · intro t; rw [p2]; exact hu t
    · intro t ht
      rw [p2] at ht
      exact absurd (hr t ht).1 (List.not_mem_nil _)

/-- Every state reached by calls made within the contract satisfies the invariant, for
some list of registry nodes. -/
theorem legal_inv_of_legal (s : State) (hs : Legal s) : ∃ l, legal_inv s l := by
  induction hs with
  | start script => exact ⟨[], legal_inv_init script⟩
  | step s s' _ hstep ih =>
    obtain ⟨l, hinv⟩ := ih
    cases hstep with
    | read_lock t hreg hdepth =>
      refine ⟨l, ?_⟩
      rw [rcu_read_lock_eq]
      refine legal_inv_set_ctr s l t _ hinv ?_ (fun e => absurd e hreg)
      have hc := hinv.2.2.2.1 t
      split
      · rw [hinv.1]; decide
      · omega
    | read_unlock t hdepth =>
      refine ⟨l, ?_⟩
      have hf : s.gp.futex ≠ -1 := by rw [hinv.1]; decide
      rw [rcu_read_unlock_eq t s hf]
      have hc := hinv.2.2.2.1 t
      refine legal_inv_set_ctr s l t _ hinv (by omega) (fun e => ?_)
      have := (hinv.2.2.2.2.1 t e).2
      omega
    | register _ t p ht hfresh hreg0 hr =>
      exact ⟨p :: l, legal_inv_register s s' l t p hinv ht hfresh hreg0 hr⟩
    | unregister _ t hd hr =>
      exact legal_inv_unregister s s' l t hinv hd hr
    | synchronize _ fuel w hw hr =>
      exact ⟨[], (legal_inv_synchronize s s' l w fuel hinv hw hr).2⟩


/-! ## The public operations within the contract -/

/-- The state `registered_state` is reached within the contract. -/
theorem legal_registered_state : Legal registered_state :=
  Legal.step (init []) registered_state (Legal.start [])
    (LegalStep.register (init []) registered_state 10 4 (by decide) (by decide) rfl
      (some_getD_of_isSome _ _ (by decide)))

/-- Storing the value a counter already has changes nothing. -/
theorem set_ctr_self (s : State) (t v : Nat) (h : (s.readers t).ctr = v) :
    set_ctr s t v = s := by
  have hupd : upd s.readers t { s.readers t with ctr := v } = s.readers := by
    funext x
    by_cases hx : x = t
    · subst hx
      rw [upd_same, ← h]
    · rw [upd_other _ _ _ _ hx]
  unfold set_ctr
  rw [hupd]

/-- Claim C2: in every state reached by calls of the public operations made within the
contract, a thread whose `ctr` is `0` that calls `rcu_read_lock` `N` times and then
`rcu_read_unlock` `N` times, `1 ≤ N < 2 ^ 32`, ends with nest depth `0` and with bit 32
of its `ctr` clear, and the whole state is what it was before the first call: `gp.ctr`,
`gp.futex`, the registry, the wait queue, the mutexes and every record. -/
theorem read_lock_unlock_identity (s : State) (t N : Nat) (hs : Legal s)
    (hN1 : 1 ≤ N) (hN : N < 2 ^ 32) (h0 : (s.readers t).ctr = 0) :
    (((rcu_read_unlock t)^[N] ((rcu_read_lock t)^[N] s)).readers t).ctr % 2 ^ 32 = 0 ∧
    (((rcu_read_unlock t)^[N] ((rcu_read_lock t)^[N] s)).readers t).ctr.testBit 32 = false ∧
    (((rcu_read_lock t)^[N] s).readers t).ctr % 2 ^ 32 = N ∧
    (rcu_read_unlock t)^[N] ((rcu_read_lock t)^[N] s) = s := by
  obtain ⟨l, hinv⟩ := legal_inv_of_legal s hs
  have hg : s.gp.ctr = 1 := by rw [hinv.1]
  have hf : s.gp.futex ≠ -1 := by rw [hinv.1]; decide
  obtain ⟨k, rfl⟩ : ∃ k, N = k + 1 := ⟨N - 1, by omega⟩
  have e1 := iterate_read_lock t s (Or.inl hg) h0 k hN
  have e2 := iterate_read_unlock t s (Or.inl hg) hf k hN
  rw [e1, e2, hg, set_ctr_self s t (1 - 1) h0]
  refine ⟨by rw [h0]; decide, by rw [h0]; decide, ?_, rfl⟩
  rw [set_ctr_ctr]
  omega

/-- Instance of claim C2: the registered thread `10` enters and leaves three nested
sections. -/
theorem read_lock_unlock_identity_witness :
    Legal registered_state ∧
    (((rcu_read_lock 10)^[3] registered_state).readers 10).ctr % 2 ^ 32 = 3 ∧
    (rcu_read_unlock 10)^[3] ((rcu_read_lock 10)^[3] registered_state) = registered_state :=
  have h := read_lock_unlock_identity registered_state 10 3 legal_registered_state
    (by decide) (by decide) (by decide)
  ⟨legal_registered_state, h.2.2.1, h.2.2.2⟩

/-- Claim C9 fails on the code: in every state reached by calls made within the contract
whose registry is well formed and not empty, `gp.ctr` has its initial value `1` and the
first of two back-to-back `synchronize_rcu` calls does not return, whatever the fuel;
the phase bit is not flipped and the second call is never made. -/
theorem synchronize_rcu_never_flips (s : State) (a : Nat) (l0 : List Nat) (w : Nat)
    (hs : Legal s) (hwf : registry_wf s (a :: l0)) (hw : w ≠ 0) :
    s.gp.ctr = 1 ∧ (∀ fuel, synchronize_rcu fuel w s = none) ∧
    ∀ f1 f2 s1 s2, ¬ (synchronize_rcu f1 w s = some s1 ∧ synchronize_rcu f2 w s1 = some s2) := by
  obtain ⟨l', hinv⟩ := legal_inv_of_legal s hs
  obtain ⟨hg, ⟨hq, hgl, hrl⟩, _, hc, _, _⟩ := hinv
  have hnone : ∀ fuel, synchronize_rcu fuel w s = none := by
    intro fuel
    cases hr : synchronize_rcu fuel w s with
    | none => rfl
    | some s' =>
      exfalso
      have hold := (synchronize_rcu_sound s a l0 w fuel s' hwf hq hgl hrl hw hr).1 a
        (List.mem_cons_self a l0)
      exact reader_state_not_old s.gp _ (by rw [hg]) (hc _) hold
  refine ⟨by rw [hg], hnone, ?_⟩
  intro f1 f2 s1 s2 hboth
  rw [hnone f1] at hboth
  cases hboth.1

/-- Instance of claim C9: thread `10` has registered and is idle; the first
`synchronize_rcu` does not return. -/
theorem synchronize_rcu_never_flips_witness :
    Legal registered_state ∧ registry_wf registered_state [4] ∧
    registered_state.gp.ctr = 1 ∧ ∀ fuel, synchronize_rcu fuel 100 registered_state = none :=
  have h := synchronize_rcu_never_flips registered_state 4 [] 100 legal_registered_state
    (by decide) (by decide)
  ⟨legal_registered_state, by decide, h.1, h.2.1⟩


/-! ## Code no run within the contract reaches -/

/-- The function `wait_for_readers` for a list head that is not `NULL`: the controlling
expression of its `if` is the head just stored, which is not `NULL`, so that every call
makes one pass and returns when the pass ends.  The `else` branch, which calls `wait_gp`
or pauses and rescans, is never taken. -/
theorem wait_for_readers_eq (n input_readers cur_snap qs wait_loops : Nat) (s : State)
    (h0 : input_readers ≠ 0) :
    wait_for_readers (n + 1) input_readers cur_snap qs wait_loops s =
      match scan_readers n input_readers cur_snap qs input_readers
          (if (wait_loops + 1) % UINT_SIZE ≥ RCU_QS_ACTIVE_ATTEMPTS then
            { s with gp := { s.gp with futex := to_int32 (s.gp.futex + (-1)) } } else s) with
      | none => none
      | some s1 =>
        some (if (wait_loops + 1) % UINT_SIZE ≥ RCU_QS_ACTIVE_ATTEMPTS then
          { s1 with mem := set_next s1.mem input_readers input_readers,
                    gp := { s1.gp with futex := 0 } }
          else { s1 with mem := set_next s1.mem input_readers input_readers }) := by
  simp only [wait_for_readers, if_neg h0, ne_eq, h0, not_false_eq_true, if_true, if_false]

/-- Between calls made within the contract, the first scan of `synchronize_rcu` over a
registry that is not empty does not return, whatever the fuel: the test that follows a
pass of `wait_for_readers` is never reached with readers in the input list. -/
theorem legal_inv_wait_for_readers_none (s : State) (a : Nat) (l0 : List Nat) (w : Nat)
    (hinv : legal_inv s (a :: l0)) :
    ∀ fuel, wait_for_readers fuel registry_reader_list cur_snap_readers qs_readers 0
      (leader_state w s) = none := by
  intro fuel
  obtain ⟨hg, _, hwf, hc, _, _⟩ := hinv
  cases fuel with
  | zero => rfl
  | succ n =>
    rw [wait_for_readers_once n _ _ _ _ (by decide)]
    cases hr : scan_readers n registry_reader_list cur_snap_readers qs_readers
        registry_reader_list (leader_state w s) with
    | none => rfl
    | some s1 =>
      exfalso
      obtain ⟨q1, q2, q3, _, q5, q6⟩ := leader_state_registry s (a :: l0) w hwf
      have hn := registry_wf_nodes s (a :: l0) hwf
      have hn' : ∀ b ∈ a :: l0, b ≠ 0 ∧ b ≠ registry_reader_list ∧ b ≠ cur_snap_readers ∧
          b ≠ qs_readers ∧ ((leader_state w s).mem b).node ≠ 0 := by
        intro b hb
        obtain ⟨b1, b2, b3, b4, b5⟩ := hn b hb
        exact ⟨b1, b2, b3, b4, by rw [q3 b hb]; exact b5⟩
      have hold := (scan_registry_sound (a :: l0) n (leader_state w s) s1 q1 q2 hn'
        (by rw [q5]) (by rw [q6]) hr).2 a (List.mem_cons_self a l0)
      have hgp : (leader_state w s).gp.ctr = 1 := by
        show s.gp.ctr = 1
        rw [hg]
      exact reader_state_not_old (leader_state w s).gp _ hgp (hc _) hold

end Urcu
